import Mathlib

/-!
# Frame table and swap store of the Pintos VM

A shallow embedding of `src/vm/frame.c` and `src/vm/swap.c`, and the properties
of the frame allocator (clock / second-chance eviction under a bounded outer
retry) and of the swap store (slot bitmap plus sector transfer).

Conventions.

* One call is run sequentially on behalf of a calling thread `cur`; locks are
  reduced to their holder.  A call that cannot return in such a run (it blocks
  on a held lock, fails an assertion, panics, or dereferences outside the
  table) yields `Except.error` with the reason.
* State is passed explicitly.  Every lock operation, collaborator call, sleep
  and sector transfer is appended to a chronological `trace`.
* The cursor is declared `hand` in `frame.c` and used as `index` in the
  eviction loop; both names denote the one static cursor, here `hand`.  In the
  same way `frames` in `frame_init` is the array `frame_table`.
* Sector numbers are 32-bit (`block_sector_t`); products and sums of sector
  numbers are reduced modulo `2 ^ 32`.
-/

namespace Pintos

/-! ## Data model -/

/-- Thread identifiers. -/
abbrev Tid := Nat

/-- Page identifiers: the address of a `struct page`. -/
abbrev PageId := Nat

/-- Why a call does not return. -/
inductive Fault
  | blocked        -- `lock_acquire` on a lock that is not free
  | assert_failed  -- an `ASSERT` does not hold
  | panic          -- `PANIC`
  | bad_access     -- dereference of NULL or outside an array
deriving DecidableEq, Repr

/-- A `struct lock`, reduced to its holder (`none` when free). -/
structure Lock where
  holder : Option Tid
deriving DecidableEq, Repr

/-- The locks the two files use. -/
inductive LockName
  | scan_lock
  | frame (i : Nat)
  | swap_lock
deriving DecidableEq, Repr

/-- Observable steps, in the order the code performs them. -/
inductive Event
  | acquire (l : LockName)
  | try_acquire (l : LockName) (ok : Bool)
  | release (l : LockName)
  | accessed (p : PageId) (r : Bool)
  | page_out (p : PageId) (ok : Bool)
  | sleep (ms : Nat)
  | block_read (sector : Nat)
  | block_write (sector : Nat)
deriving DecidableEq, Repr

/-- A `struct frame`: its lock, the memory at its base address (byte at each
offset) and the page resident in it (`none` for NULL). -/
structure Frame where
  lock : Lock
  base : Nat → Nat
  page : Option PageId

/-- The fields of `struct page` that `frame.c` and `swap.c` read and write.
`frame` is the index of the frame in the frame table (`none` for NULL). -/
structure Page where
  frame : Option Nat
  sector : Nat
  private_ : Bool
  file : Option Nat
  file_offset : Nat
  file_bytes : Nat
deriving DecidableEq, Repr

/-- The sentinel `(block_sector_t) -1`. -/
def NO_SECTOR : Nat := 2 ^ 32 - 1

/-! ## Lock primitives -/

/-- Modelled from the spec: `lock_try_acquire` of `threads/synch.c`, which is
not among the sources: "attempt to acquire its lock without blocking (skip if
held by someone else)".  A free lock is taken by `cur`; a held lock is left
alone and the attempt reports `false`. -/
def lock_try_acquire (cur : Tid) (l : Lock) : Bool × Lock :=
  match l.holder with
  | none => (true, ⟨some cur⟩)
  | some _ => (false, l)

/-- Modelled from the spec: `lock_acquire` of `threads/synch.c`.  On a free lock
the caller becomes the holder; on a held lock the caller does not proceed. -/
def lock_acquire (cur : Tid) (l : Lock) : Except Fault Lock :=
  match l.holder with
  | none => .ok ⟨some cur⟩
  | some _ => .error .blocked

/-- Modelled from the spec: `lock_release` of `threads/synch.c`; the lock becomes
free. -/
def lock_release (_l : Lock) : Lock := ⟨none⟩

/-- Modelled from the spec: `lock_held_by_current_thread` of `threads/synch.c`. -/
def lock_held_by_current_thread (cur : Tid) (l : Lock) : Bool :=
  decide (l.holder = some cur)

/-! ## The frame table (`vm/frame.c`) -/

/-- The page manager as seen by `frame.c`: the two collaborators
`page_accessed_recently` and `page_out` of `vm/page.c`, acting on a state `σ`
of their own. -/
structure PageManager (σ : Type) where
  page_accessed_recently : PageId → σ → Bool × σ
  page_out : PageId → σ → Bool × σ

/-- The statics of `frame.c` (`frame_table` with `frame_cnt` its length, `hand`,
`scan_lock`), the page manager state and the trace. -/
structure FrameState (σ : Type) where
  frame_table : List Frame
  hand : Nat
  scan_lock : Lock
  pm : σ
  trace : List Event

/-- The static `frame_cnt`. -/
def FrameState.frame_cnt {σ : Type} (s : FrameState σ) : Nat := s.frame_table.length

/-- Append events to the trace. -/
def FrameState.log {σ : Type} (s : FrameState σ) (es : List Event) : FrameState σ :=
  { s with trace := s.trace ++ es }

/-- The function `frame_init`: one descriptor per user page handed out by
`palloc_get_page`, each unlocked and unoccupied.  `malloc_ok = false` is the
path on which the descriptor array cannot be allocated. -/
def frame_init {σ : Type} (malloc_ok : Bool) (user_pages : List (Nat → Nat)) (pm : σ) :
    Except Fault (FrameState σ) :=
  if malloc_ok then
    .ok { frame_table := user_pages.map (fun b => { lock := ⟨none⟩, base := b, page := none })
          hand := 0
          scan_lock := ⟨none⟩
          pm := pm
          trace := [] }
  else .error .panic

/-- The first loop of `try_frame_alloc_and_lock`, `for (i = 0; i < frame_cnt; i++)`,
with `n = frame_cnt - i` iterations left.  `some k` is `return &frame_table[k]`;
`none` is the loop running to its end. -/
def free_pass {σ : Type} (cur : Tid) (page : PageId) :
    Nat → Nat → FrameState σ → Except Fault (Option Nat × FrameState σ)
  | 0, _, s => .ok (none, s)
  | n + 1, i, s =>
    match s.frame_table[i]? with
    | none => .error .bad_access
    | some f =>
      match lock_try_acquire cur f.lock with
      | (false, _) =>
        free_pass cur page n (i + 1) (s.log [.try_acquire (.frame i) false])
      | (true, l) =>
        if f.page.isNone then
          .ok (some i,
            { s with
              frame_table := s.frame_table.set i { f with lock := l, page := some page }
              scan_lock := lock_release s.scan_lock
              trace := s.trace ++ [.try_acquire (.frame i) true, .release .scan_lock] })
        else
          free_pass cur page n (i + 1)
            { s with
              frame_table := s.frame_table.set i { f with lock := lock_release l }
              trace := s.trace ++ [.try_acquire (.frame i) true, .release (.frame i)] }

/-- The second loop of `try_frame_alloc_and_lock`,
`for (i = 0; i < frame_cnt * 2; i++)`, with `n` iterations left, together with
the code after it.  `some k` is `return &frame_table[k]`, `none` is
`return NULL`. -/
def evict_pass {σ : Type} (pm : PageManager σ) (cur : Tid) (page : PageId) :
    Nat → FrameState σ → Except Fault (Option Nat × FrameState σ)
  | 0, s =>
    .ok (none, { s with scan_lock := lock_release s.scan_lock
                        trace := s.trace ++ [.release .scan_lock] })
  | n + 1, s =>
    let i := s.hand
    match s.frame_table[i]? with
    | none => .error .bad_access
    | some f =>
      let s := { s with hand := if s.hand + 1 ≥ s.frame_cnt then 0 else s.hand + 1 }
      match lock_try_acquire cur f.lock with
      | (false, _) => evict_pass pm cur page n (s.log [.try_acquire (.frame i) false])
      | (true, l) =>
        match f.page with
        | none =>
          .ok (some i,
            { s with
              frame_table := s.frame_table.set i { f with lock := l, page := some page }
              scan_lock := lock_release s.scan_lock
              trace := s.trace ++ [.try_acquire (.frame i) true, .release .scan_lock] })
        | some q =>
          match pm.page_accessed_recently q s.pm with
          | (true, w) =>
            evict_pass pm cur page n
              { s with
                frame_table := s.frame_table.set i { f with lock := lock_release l }
                pm := w
                trace := s.trace ++
                  [.try_acquire (.frame i) true, .accessed q true, .release (.frame i)] }
          | (false, w) =>
            match pm.page_out q w with
            | (false, w) =>
              .ok (none,
                { s with
                  frame_table := s.frame_table.set i { f with lock := lock_release l }
                  scan_lock := lock_release s.scan_lock
                  pm := w
                  trace := s.trace ++
                    [.try_acquire (.frame i) true, .accessed q false, .release .scan_lock,
                     .page_out q false, .release (.frame i)] })
            | (true, w) =>
              .ok (some i,
                { s with
                  frame_table := s.frame_table.set i { f with lock := l, page := some page }
                  scan_lock := lock_release s.scan_lock
                  pm := w
                  trace := s.trace ++
                    [.try_acquire (.frame i) true, .accessed q false, .release .scan_lock,
                     .page_out q true] })

/-- The function `try_frame_alloc_and_lock`: one attempt. -/
def try_frame_alloc_and_lock {σ : Type} (pm : PageManager σ) (cur : Tid) (page : PageId)
    (s : FrameState σ) : Except Fault (Option Nat × FrameState σ) :=
  match lock_acquire cur s.scan_lock with
  | .error e => .error e
  | .ok l =>
    let s := { s with scan_lock := l, trace := s.trace ++ [.acquire .scan_lock] }
    match free_pass cur page s.frame_cnt 0 s with
    | .error e => .error e
    | .ok (some k, s) => .ok (some k, s)
    | .ok (none, s) => evict_pass pm cur page (s.frame_cnt * 2) s

/-- The loop of `frame_alloc_and_lock`, `for (try = 0; try < 3; try++)`, with `n`
iterations left, together with the `return NULL` after it. -/
def alloc_loop {σ : Type} (pm : PageManager σ) (cur : Tid) (page : PageId) :
    Nat → FrameState σ → Except Fault (Option Nat × FrameState σ)
  | 0, s => .ok (none, s)
  | n + 1, s =>
    match try_frame_alloc_and_lock pm cur page s with
    | .error e => .error e
    | .ok (some k, s) =>
      match s.frame_table[k]? with
      | none => .error .bad_access
      | some f =>
        if lock_held_by_current_thread cur f.lock then .ok (some k, s)
        else .error .assert_failed
    | .ok (none, s) => alloc_loop pm cur page n (s.log [.sleep 1000])

/-- The function `frame_alloc_and_lock`. -/
def frame_alloc_and_lock {σ : Type} (pm : PageManager σ) (cur : Tid) (page : PageId)
    (s : FrameState σ) : Except Fault (Option Nat × FrameState σ) :=
  alloc_loop pm cur page 3 s

/-- The outcome sequence "the first `j` attempts fail": the state after `j`
consecutive runs of `try_frame_alloc_and_lock` that each return NULL, each
followed by the backoff sleep; `none` if one of them does not return NULL. -/
def failed_attempts {σ : Type} (pm : PageManager σ) (cur : Tid) (page : PageId) :
    Nat → FrameState σ → Option (FrameState σ)
  | 0, s => some s
  | j + 1, s =>
    match try_frame_alloc_and_lock pm cur page s with
    | .ok (none, s1) => failed_attempts pm cur page j (s1.log [.sleep 1000])
    | _ => none

/-- The function `frame_free`. -/
def frame_free {σ : Type} (cur : Tid) (k : Nat) (s : FrameState σ) :
    Except Fault (FrameState σ) :=
  match s.frame_table[k]? with
  | none => .error .bad_access
  | some f =>
    if lock_held_by_current_thread cur f.lock then
      .ok { s with
            frame_table := s.frame_table.set k { f with page := none, lock := lock_release f.lock }
            trace := s.trace ++ [.release (.frame k)] }
    else .error .assert_failed

/-- The function `frame_unlock`. -/
def frame_unlock {σ : Type} (cur : Tid) (k : Nat) (s : FrameState σ) :
    Except Fault (FrameState σ) :=
  match s.frame_table[k]? with
  | none => .error .bad_access
  | some f =>
    if lock_held_by_current_thread cur f.lock then
      .ok { s with
            frame_table := s.frame_table.set k { f with lock := lock_release f.lock }
            trace := s.trace ++ [.release (.frame k)] }
    else .error .assert_failed

/-! ## The page manager's interface (`vm/page.c`) -/

/-- Modelled from the spec: the state of the page manager of `vm/page.c`, which is
not among the sources: the page objects, the "recently touched" indicator of
each page, and whether persisting a page to its backing store succeeds. -/
structure PageStore where
  pages : PageId → Page
  accessed : PageId → Bool
  write_back_ok : PageId → Bool

/-- Modelled from the spec: `page_accessed_recently` of `vm/page.c`:
"reads and clears a hardware/software recently-touched indicator". -/
def page_accessed_recently (p : PageId) (w : PageStore) : Bool × PageStore :=
  (w.accessed p, { w with accessed := Function.update w.accessed p false })

/-- Modelled from the spec: `page_out` of `vm/page.c`: "persists the page's
current frame contents to its backing store and clears the page's frame
association; returns false on unrecoverable failure". -/
def page_out (p : PageId) (w : PageStore) : Bool × PageStore :=
  if w.write_back_ok p then
    (true, { w with pages := Function.update w.pages p { w.pages p with frame := none } })
  else (false, w)

/-- The page manager of the spec's interface. -/
def page_manager : PageManager PageStore :=
  { page_accessed_recently := page_accessed_recently, page_out := page_out }

/-- The function `frame_lock`, reading `p->frame` from the page store.  In a
sequential run nothing changes `p->frame` while the caller waits for the lock,
so the re-check after `lock_acquire` reads what was read before it. -/
def frame_lock (cur : Tid) (p : PageId) (s : FrameState PageStore) :
    Except Fault (FrameState PageStore) :=
  match (s.pm.pages p).frame with
  | none => .ok s
  | some k =>
    match s.frame_table[k]? with
    | none => .error .bad_access
    | some f =>
      match lock_acquire cur f.lock with
      | .error e => .error e
      | .ok l =>
        let s :=
          { s with
            frame_table := s.frame_table.set k { f with lock := l }
            trace := s.trace ++ [.acquire (.frame k)] }
        if (s.pm.pages p).frame ≠ some k then
          if (s.pm.pages p).frame = none then
            .ok { s with
                  frame_table := s.frame_table.set k { f with lock := lock_release l }
                  trace := s.trace ++ [.release (.frame k)] }
          else .error .assert_failed
        else .ok s

/-! ## The swap store (`vm/swap.c`) -/

/-- The constants `PGSIZE` of `threads/vaddr.h` and `BLOCK_SECTOR_SIZE` of
`devices/block.h`; neither header is among the sources, so they are parameters. -/
structure Consts where
  PGSIZE : Nat
  BLOCK_SECTOR_SIZE : Nat

/-- The macro `SECTORS_PER_PAGE`. -/
def Consts.SECTORS_PER_PAGE (c : Consts) : Nat := c.PGSIZE / c.BLOCK_SECTOR_SIZE

/-- A block device: its number of sectors and, for each sector, the byte at each
offset below `BLOCK_SECTOR_SIZE`. -/
structure Block where
  size : Nat
  data : Nat → Nat → Nat

/-- The statics of `swap.c` (`swap_device`, `swap_bitmap`, `swap_lock`), the
frames and pages it reaches through `struct page`, and the trace. -/
structure SwapState where
  swap_device : Option Block
  swap_bitmap : List Bool
  swap_lock : Lock
  frame_table : List Frame
  pages : PageId → Page
  trace : List Event

/-- Modelled from the spec: `bitmap_create` of `lib/kernel/bitmap.c`, which is not
among the sources: a bitmap of `n` bits, all false (every slot free). -/
def bitmap_create (n : Nat) : List Bool := List.replicate n false

/-- The scan of `bitmap_scan_and_flip (b, 0, 1, false)`: from bit 0 upward, the
index of the first false bit. -/
def bitmap_scan : List Bool → Option Nat
  | [] => none
  | false :: _ => some 0
  | true :: b => (bitmap_scan b).map (· + 1)

/-- Modelled from the spec: `bitmap_scan_and_flip (b, 0, 1, false)` of
`lib/kernel/bitmap.c`: "find a free slot and mark it used; if none exists, fail".
The scan starts at bit 0 and takes the first false bit; `none` is
`BITMAP_ERROR`. -/
def bitmap_scan_and_flip (b : List Bool) : Option Nat × List Bool :=
  match bitmap_scan b with
  | none => (none, b)
  | some idx => (some idx, b.set idx true)

/-- Modelled from the spec: `bitmap_reset` of `lib/kernel/bitmap.c`: "clear the
slot's bit"; a bit index outside the bitmap is an assertion failure. -/
def bitmap_reset (b : List Bool) (idx : Nat) : Except Fault (List Bool) :=
  if idx < b.length then .ok (b.set idx false) else .error .assert_failed

/-- Modelled from the spec: `block_write` of `devices/block.c`, which is not among
the sources: "fixed-size sector read/write addressed by sector index".  The
`BLOCK_SECTOR_SIZE` bytes of `mem` from offset `off` become the sector's bytes;
a sector index past the end of the device is a panic. -/
def block_write (c : Consts) (d : Block) (sector : Nat) (mem : Nat → Nat) (off : Nat) :
    Except Fault Block :=
  if sector < d.size then
    .ok { d with
          data := Function.update d.data sector
            (fun k => if k < c.BLOCK_SECTOR_SIZE then mem (off + k) else d.data sector k) }
  else .error .panic

/-- Modelled from the spec: `block_read` of `devices/block.c`: the bytes of the
sector replace the `BLOCK_SECTOR_SIZE` bytes of `mem` from offset `off`; the
result is the memory after the read. -/
def block_read (c : Consts) (d : Block) (sector : Nat) (mem : Nat → Nat) (off : Nat) :
    Except Fault (Nat → Nat) :=
  if sector < d.size then
    .ok (fun a =>
      if off ≤ a ∧ a < off + c.BLOCK_SECTOR_SIZE then d.data sector (a - off) else mem a)
  else .error .panic

/-- The function `swap_init`.  `role_swap` is the result of
`block_get_role (BLOCK_SWAP)` (`none` for NULL) and `bitmap_ok = false` is the
path on which `bitmap_create` returns NULL; the frames and pages are those of
the rest of the kernel. -/
def swap_init (c : Consts) (role_swap : Option Block) (bitmap_ok : Bool)
    (frame_table : List Frame) (pages : PageId → Page) : Except Fault SwapState :=
  let bits :=
    match role_swap with
    | none => 0
    | some d => d.size / c.SECTORS_PER_PAGE
  if bitmap_ok then
    .ok { swap_device := role_swap
          swap_bitmap := bitmap_create bits
          swap_lock := ⟨none⟩
          frame_table := frame_table
          pages := pages
          trace := [] }
  else .error .panic

/-- The loop of `swap_in`, `for (i = 0; i < SECTORS_PER_PAGE; i++)`, with `n`
iterations left. -/
def swap_in_loop (c : Consts) (p : PageId) : Nat → Nat → SwapState → Except Fault SwapState
  | 0, _, s => .ok s
  | n + 1, i, s =>
    match s.swap_device with
    | none => .error .bad_access
    | some d =>
      match (s.pages p).frame with
      | none => .error .bad_access
      | some fi =>
        match s.frame_table[fi]? with
        | none => .error .bad_access
        | some f =>
          let sector := ((s.pages p).sector + i) % 2 ^ 32
          match block_read c d sector f.base (i * c.BLOCK_SECTOR_SIZE) with
          | .error e => .error e
          | .ok m =>
            swap_in_loop c p n (i + 1)
              { s with
                frame_table := s.frame_table.set fi { f with base := m }
                trace := s.trace ++ [.block_read sector] }

/-- The function `swap_in`. -/
def swap_in (c : Consts) (cur : Tid) (p : PageId) (s : SwapState) : Except Fault SwapState :=
  match (s.pages p).frame with
  | none => .error .assert_failed
  | some fi =>
    match s.frame_table[fi]? with
    | none => .error .bad_access
    | some f =>
      if !lock_held_by_current_thread cur f.lock then .error .assert_failed
      else if (s.pages p).sector = NO_SECTOR then .error .assert_failed
      else
        match swap_in_loop c p c.SECTORS_PER_PAGE 0 s with
        | .error e => .error e
        | .ok s =>
          match bitmap_reset s.swap_bitmap ((s.pages p).sector / c.SECTORS_PER_PAGE) with
          | .error e => .error e
          | .ok b =>
            .ok { s with
                  swap_bitmap := b
                  pages := Function.update s.pages p { s.pages p with sector := NO_SECTOR } }

/-- The loop of `swap_out`, `for (i = 0; i < SECTORS_PER_PAGE; i++)`, with `n`
iterations left. -/
def swap_out_loop (c : Consts) (p : PageId) : Nat → Nat → SwapState → Except Fault SwapState
  | 0, _, s => .ok s
  | n + 1, i, s =>
    match s.swap_device with
    | none => .error .bad_access
    | some d =>
      match (s.pages p).frame with
      | none => .error .bad_access
      | some fi =>
        match s.frame_table[fi]? with
        | none => .error .bad_access
        | some f =>
          let sector := ((s.pages p).sector + i) % 2 ^ 32
          match block_write c d sector f.base (i * c.BLOCK_SECTOR_SIZE) with
          | .error e => .error e
          | .ok d =>
            swap_out_loop c p n (i + 1)
              { s with
                swap_device := some d
                trace := s.trace ++ [.block_write sector] }

/-- The function `swap_out`. -/
def swap_out (c : Consts) (cur : Tid) (p : PageId) (s : SwapState) :
    Except Fault (Bool × SwapState) :=
  match (s.pages p).frame with
  | none => .error .assert_failed
  | some fi =>
    match s.frame_table[fi]? with
    | none => .error .bad_access
    | some f =>
      if !lock_held_by_current_thread cur f.lock then .error .assert_failed
      else
        match lock_acquire cur s.swap_lock with
        | .error e => .error e
        | .ok l =>
          match bitmap_scan_and_flip s.swap_bitmap with
          | (none, _) =>
            .ok (false,
              { s with
                swap_lock := lock_release l
                trace := s.trace ++ [.acquire .swap_lock, .release .swap_lock] })
          | (some idx, b) =>
            let s :=
              { s with
                swap_bitmap := b
                swap_lock := lock_release l
                pages := Function.update s.pages p
                  { s.pages p with sector := (idx * c.SECTORS_PER_PAGE) % 2 ^ 32 }
                trace := s.trace ++ [.acquire .swap_lock, .release .swap_lock] }
            match swap_out_loop c p c.SECTORS_PER_PAGE 0 s with
            | .error e => .error e
            | .ok s =>
              .ok (true,
                { s with
                  pages := Function.update s.pages p
                    { s.pages p with
                      private_ := false, file := none, file_offset := 0, file_bytes := 0 } })

/-- A run of `swap_out` calls, one per page of the list, in order; the results
are collected in call order. -/
def swap_out_each (c : Consts) (cur : Tid) :
    List PageId → SwapState → Except Fault (List Bool × SwapState)
  | [], s => .ok ([], s)
  | p :: ps, s =>
    match swap_out c cur p s with
    | .error e => .error e
    | .ok (r, s) =>
      match swap_out_each c cur ps s with
      | .error e => .error e
      | .ok (rs, s) => .ok (r :: rs, s)

/-- The sizing `swap_init` gives the swap area: the device's sector count fits
`block_sector_t` and the bitmap has one bit per whole page of the device; with
no device the bitmap is empty. -/
def SwapState.sized (c : Consts) (s : SwapState) : Prop :=
  match s.swap_device with
  | none => s.swap_bitmap = []
  | some d => d.size < 2 ^ 32 ∧ s.swap_bitmap.length = d.size / c.SECTORS_PER_PAGE

/-- Page `p` has frame `fi`, which is `f` and is locked by `cur`. -/
def has_locked_frame (cur : Tid) (p : PageId) (fi : Nat) (f : Frame) (s : SwapState) : Prop :=
  (s.pages p).frame = some fi ∧ s.frame_table[fi]? = some f ∧ f.lock.holder = some cur

/-- The states reachable from `s0` by calls of `swap_out` and `swap_in` that
return, interleaved with the rest of the kernel changing frames and pages. -/
inductive SwapReach (c : Consts) (s0 : SwapState) : SwapState → Prop
  | start : SwapReach c s0 s0
  | after_out (cur : Tid) (p : PageId) (s s' : SwapState) (r : Bool) :
      SwapReach c s0 s → swap_out c cur p s = .ok (r, s') → SwapReach c s0 s'
  | after_in (cur : Tid) (p : PageId) (s s' : SwapState) :
      SwapReach c s0 s → swap_in c cur p s = .ok s' → SwapReach c s0 s'
  | after_kernel (s : SwapState) (frame_table : List Frame) (pages : PageId → Page) :
      SwapReach c s0 s → SwapReach c s0 { s with frame_table := frame_table, pages := pages }

/-! ## Reading the trace -/

/-- The lock operations of a scan: `lock_try_acquire` and `lock_release`. -/
def Event.is_scan_op : Event → Bool
  | .try_acquire _ _ => true
  | .release _ => true
  | _ => false

/-- The steps that occur inside one attempt after the scan lock is taken: the
scan's lock operations and the two collaborator calls. -/
def Event.in_attempt : Event → Bool
  | .try_acquire _ _ => true
  | .release _ => true
  | .accessed _ _ => true
  | .page_out _ _ => true
  | _ => false

/-- The number of attempts a trace records: each attempt of
`try_frame_alloc_and_lock` takes the scan lock exactly once, at its start. -/
def attempts (t : List Event) : Nat :=
  t.count (.acquire .scan_lock)

/-- The accessed-bit queries of a trace, in order. -/
def queries (t : List Event) : List Event :=
  t.filter (fun e => match e with
    | .accessed _ _ => true
    | _ => false)

/-- The write-backs of a trace, in order. -/
def write_backs (t : List Event) : List Event :=
  t.filter (fun e => match e with
    | .page_out _ _ => true
    | _ => false)

/-- The sleeps of a trace, in order. -/
def sleeps (t : List Event) : List Event :=
  t.filter (fun e => match e with
    | .sleep _ => true
    | _ => false)

/-- A frame that is neither locked nor occupied. -/
def Frame.is_free (f : Frame) : Prop := f.lock.holder = none ∧ f.page = none

instance (f : Frame) : Decidable f.is_free := by
  unfold Frame.is_free; exact inferInstance

/-- Frame `k` of the table is locked by `cur` and bound to `page`. -/
def holds_frame {σ : Type} (cur : Tid) (page : PageId) (s : FrameState σ) (k : Nat) : Prop :=
  ∃ f, s.frame_table[k]? = some f ∧ f.lock.holder = some cur ∧ f.page = some page

/-- The state in which an attempt can run: the scan lock is free and the cursor
indexes the table (or the table is empty). -/
def FrameState.ready {σ : Type} (s : FrameState σ) : Prop :=
  s.scan_lock.holder = none ∧ (s.frame_table.length = 0 ∨ s.hand < s.frame_table.length)

/-- The page resident in frame `i` of a table (0 where there is none). -/
def resident_page (t : List Frame) (i : Nat) : PageId :=
  ((t[i]?).bind Frame.page).getD 0

/-- The steps of `j` consecutive second-chance visits that start at frame `h`:
each takes the frame's lock, finds its page accessed, and releases the lock. -/
def second_chance_events (t : List Frame) (h : Nat) : Nat → List Event
  | 0 => []
  | j + 1 =>
    second_chance_events t h j ++
      [.try_acquire (.frame ((h + j) % t.length)) true,
       .accessed (resident_page t ((h + j) % t.length)) true,
       .release (.frame ((h + j) % t.length))]

/-- The indicators after `j` consecutive second-chance visits that start at
frame `h`: the indicator of each visited frame's page has been cleared. -/
def cleared (t : List Frame) (h : Nat) (a : PageId → Bool) : Nat → PageId → Bool
  | 0 => a
  | j + 1 => Function.update (cleared t h a j) (resident_page t ((h + j) % t.length)) false

/-- The steps by which a scan passes over frames: taking, or failing to take,
a frame's lock, the accessed-bit query, and releasing a frame's lock. -/
def Event.is_frame_step : Event → Bool
  | .try_acquire (.frame _) _ => true
  | .release (.frame _) => true
  | .accessed _ _ => true
  | _ => false

/-- The frames a trace visits, in order: the index of each `lock_try_acquire`
on a frame's lock (each loop iteration of a scan makes exactly one). -/
def visits (t : List Event) : List Nat :=
  t.filterMap (fun e => match e with
    | .try_acquire (.frame i) _ => some i
    | _ => none)

/-- Input or output: a write-back or a sector transfer. -/
def Event.is_io : Event → Bool
  | .page_out _ _ => true
  | .block_read _ => true
  | .block_write _ => true
  | _ => false

/-- Whether the caller holds lock `l` after one step, given whether it held it
before the step. -/
def lock_step (l : LockName) (held : Bool) : Event → Bool
  | .acquire l' => if l' = l then true else held
  | .try_acquire l' ok => if l' = l ∧ ok = true then true else held
  | .release l' => if l' = l then false else held
  | _ => held

/-- Whether the caller holds lock `l` after the steps of a trace. -/
def lock_state (l : LockName) (held : Bool) (t : List Event) : Bool :=
  t.foldl (lock_step l) held

/-- No input or output happens at a moment at which the caller holds lock `l`:
the trace is walked with the lock's state, and every write-back and sector
transfer must find the lock not held. -/
def io_free (l : LockName) : Bool → List Event → Bool
  | _, [] => true
  | held, e :: t => !(e.is_io && held) && io_free l (lock_step l held e) t

/-- On each of `b` consecutive visits of the eviction pass, starting with the
cursor at `h` and the page manager in state `w`, the visited frame is either
not lockable or holds a page that reports "accessed recently". -/
def skips {σ : Type} (pm : PageManager σ) (t : List Frame) : Nat → Nat → σ → Prop
  | 0, _, _ => True
  | b + 1, h, w =>
    ∃ f, t[h]? = some f ∧
      ((f.lock.holder ≠ none ∧ skips pm t b (if h + 1 ≥ t.length then 0 else h + 1) w) ∨
       (f.lock.holder = none ∧ ∃ q, f.page = some q ∧
          (pm.page_accessed_recently q w).1 = true ∧
          skips pm t b (if h + 1 ≥ t.length then 0 else h + 1)
            (pm.page_accessed_recently q w).2))

/-- The swap bitmap invariant of the spec: bit `i` is true iff exactly one page
has sector reference `i * SECTORS_PER_PAGE`. -/
def slot_invariant (c : Consts) (s : SwapState) : Prop :=
  ∀ i, i < s.swap_bitmap.length →
    (s.swap_bitmap[i]? = some true ↔ ∃! p, (s.pages p).sector = i * c.SECTORS_PER_PAGE)

/-- The ownership of slots that the calls of `swap.c` maintain: every page's
sector reference is the sentinel or the start of a slot whose bit is set, no
two pages refer to the same slot, and the slot of every set bit is referred to
by some page. -/
def slots_owned (c : Consts) (s : SwapState) : Prop :=
  (∀ p, (s.pages p).sector = NO_SECTOR ∨
    ∃ i, s.swap_bitmap[i]? = some true ∧ (s.pages p).sector = i * c.SECTORS_PER_PAGE) ∧
  (∀ p q, (s.pages p).sector = (s.pages q).sector → (s.pages p).sector ≠ NO_SECTOR → p = q) ∧
  (∀ i, s.swap_bitmap[i]? = some true → ∃ p, (s.pages p).sector = i * c.SECTORS_PER_PAGE)

/-- The states reachable from `s0` by `swap_out` calls on pages whose sector
reference is the sentinel and by `swap_in` calls, both returning, interleaved
with the rest of the kernel changing frames and the other fields of pages. -/
inductive SwapRun (c : Consts) (s0 : SwapState) : SwapState → Prop
  | start : SwapRun c s0 s0
  | after_out (cur : Tid) (p : PageId) (s s' : SwapState) (r : Bool) :
      SwapRun c s0 s → (s.pages p).sector = NO_SECTOR →
      swap_out c cur p s = .ok (r, s') → SwapRun c s0 s'
  | after_in (cur : Tid) (p : PageId) (s s' : SwapState) :
      SwapRun c s0 s → swap_in c cur p s = .ok s' → SwapRun c s0 s'
  | after_kernel (s : SwapState) (frame_table : List Frame) (pages : PageId → Page) :
      SwapRun c s0 s → (∀ p, (pages p).sector = (s.pages p).sector) →
      SwapRun c s0 { s with frame_table := frame_table, pages := pages }

/-- The states reachable from `s0` by calls of `frame_alloc_and_lock`,
`frame_lock`, `frame_unlock` and `frame_free` that return, with the page
manager of the spec's interface. -/
inductive FrameReach (s0 : FrameState PageStore) : FrameState PageStore → Prop
  | start : FrameReach s0 s0
  | after_alloc (cur : Tid) (p : PageId) (s s' : FrameState PageStore) (r : Option Nat) :
      FrameReach s0 s → frame_alloc_and_lock page_manager cur p s = .ok (r, s') →
      FrameReach s0 s'
  | after_lock (cur : Tid) (p : PageId) (s s' : FrameState PageStore) :
      FrameReach s0 s → frame_lock cur p s = .ok s' → FrameReach s0 s'
  | after_unlock (cur : Tid) (k : Nat) (s s' : FrameState PageStore) :
      FrameReach s0 s → frame_unlock cur k s = .ok s' → FrameReach s0 s'
  | after_free (cur : Tid) (k : Nat) (s s' : FrameState PageStore) :
      FrameReach s0 s → frame_free cur k s = .ok s' → FrameReach s0 s'

/-! ## Scenarios -/

/-- A page object with no frame, no swap slot and no file. -/
def blank_page : Page :=
  { frame := none, sector := NO_SECTOR, private_ := false, file := none,
    file_offset := 0, file_bytes := 0 }

/-- A page store in which pages 100 to 103 are resident in frames 0 to 3 and
every write-back succeeds; `touched` is the indicator of every page. -/
def resident_store (touched : Bool) : PageStore :=
  { pages := fun p =>
      if 100 ≤ p ∧ p < 104 then { blank_page with frame := some (p - 100) } else blank_page
    accessed := fun _ => touched
    write_back_ok := fun _ => true }

/-- An unlocked, unoccupied frame. -/
def free_frame : Frame := { lock := ⟨none⟩, base := fun _ => 0, page := none }

/-- An unlocked frame holding page `p`. -/
def frame_with (p : PageId) : Frame := { lock := ⟨none⟩, base := fun _ => 0, page := some p }

/-- Scenario A: four frames, all free. -/
def scenario_A : FrameState PageStore :=
  { frame_table := [free_frame, free_frame, free_frame, free_frame]
    hand := 0
    scan_lock := ⟨none⟩
    pm := { resident_store false with pages := fun _ => blank_page }
    trace := [] }

/-- Scenario B: four frames holding pages 100 to 103, none recently accessed,
the cursor at frame 2. -/
def scenario_B : FrameState PageStore :=
  { frame_table := [frame_with 100, frame_with 101, frame_with 102, frame_with 103]
    hand := 2
    scan_lock := ⟨none⟩
    pm := resident_store false
    trace := [] }

/-- Scenario C: as scenario B, with every page recently accessed. -/
def scenario_C : FrameState PageStore :=
  { scenario_B with pm := resident_store true }

/-- Scenario E: four occupied frames, each locked by thread 2. -/
def scenario_E : FrameState PageStore :=
  { scenario_B with
    frame_table := scenario_B.frame_table.map (fun f => { f with lock := ⟨some 2⟩ }) }

/-- Scenario F: one frame, unlocked, holding page 100, which was not recently
accessed and whose write-back fails. -/
def scenario_F : FrameState PageStore :=
  { frame_table := [frame_with 100]
    hand := 0
    scan_lock := ⟨none⟩
    pm := { resident_store false with write_back_ok := fun _ => false }
    trace := [] }

/-- Scenario G: two unlocked frames holding pages 100 and 101, neither recently
accessed, the cursor at frame 0; the write-back of page 100 fails and that of
page 101 succeeds. -/
def scenario_G : FrameState PageStore :=
  { frame_table := [frame_with 100, frame_with 101]
    hand := 0
    scan_lock := ⟨none⟩
    pm := { resident_store false with write_back_ok := fun p => decide (p ≠ 100) }
    trace := [] }

/-- Scenario H: the table `frame_init` builds for two user pages, with every
page's indicator set and every write-back succeeding. -/
def scenario_H : FrameState PageStore :=
  { frame_table := [free_frame, free_frame]
    hand := 0
    scan_lock := ⟨none⟩
    pm := { resident_store true with pages := fun _ => blank_page }
    trace := [] }

/-- Constants for the scenarios: pages of 4 bytes, sectors of 2 bytes. -/
def small_consts : Consts := { PGSIZE := 4, BLOCK_SECTOR_SIZE := 2 }

/-- Scenario D: a swap device of 4 sectors, hence 2 slots, both free; pages 0
to 2 are resident in frames 0 to 2, each locked by thread 1 and holding the
bytes `10 * frame + offset`. -/
def scenario_D : SwapState :=
  { swap_device := some { size := 4, data := fun _ _ => 0 }
    swap_bitmap := [false, false]
    swap_lock := ⟨none⟩
    frame_table :=
      [{ lock := ⟨some 1⟩, base := fun a => a, page := some 0 },
       { lock := ⟨some 1⟩, base := fun a => 10 + a, page := some 1 },
       { lock := ⟨some 1⟩, base := fun a => 20 + a, page := some 2 }]
    pages := fun p => { blank_page with frame := if p < 3 then some p else none }
    trace := [] }

/-- Scenario D after both slots are taken. -/
def scenario_D_full : SwapState :=
  { scenario_D with swap_bitmap := [true, true] }

/-! ## Theorems: list and trace helpers -/

theorem set_same {α : Type} (l : List α) (i : Nat) (a : α) (h : l[i]? = some a) :
    l.set i a = l := by
  apply List.ext_getElem?
  intro j
  by_cases hij : i = j
  · subst hij
    have hlt : i < l.length := by
      rcases Nat.lt_or_ge i l.length with h1 | h1
      · exact h1
      · rw [List.getElem?_eq_none h1] at h; cases h
    rw [List.getElem?_set_self hlt, h]
  · rw [List.getElem?_set_ne hij]

theorem frame_relock_same (f : Frame) (l : Lock) (h : f.lock.holder = none) :
    ({ f with lock := lock_release l } : Frame) = f := by
  cases f with
  | mk lock base page =>
    cases lock with
    | mk holder =>
      simp only at h
      subst h
      rfl

theorem queries_append (a b : List Event) : queries (a ++ b) = queries a ++ queries b := by
  simp [queries]

theorem write_backs_append (a b : List Event) :
    write_backs (a ++ b) = write_backs a ++ write_backs b := by
  simp [write_backs]

theorem sleeps_append (a b : List Event) : sleeps (a ++ b) = sleeps a ++ sleeps b := by
  simp [sleeps]

theorem queries_scan_ops (es : List Event) (h : ∀ e ∈ es, e.is_scan_op = true) :
    queries es = [] := by
  unfold queries
  rw [List.filter_eq_nil_iff]
  intro e he
  have := h e he
  cases e <;> simp_all [Event.is_scan_op]

theorem write_backs_scan_ops (es : List Event) (h : ∀ e ∈ es, e.is_scan_op = true) :
    write_backs es = [] := by
  unfold write_backs
  rw [List.filter_eq_nil_iff]
  intro e he
  have := h e he
  cases e <;> simp_all [Event.is_scan_op]

theorem sleeps_scan_ops (es : List Event) (h : ∀ e ∈ es, e.is_scan_op = true) :
    sleeps es = [] := by
  unfold sleeps
  rw [List.filter_eq_nil_iff]
  intro e he
  have := h e he
  cases e <;> simp_all [Event.is_scan_op]

/-! ## Theorems: the free-frame pass -/

/-- The free-frame pass returns the lowest-index free frame at or after `i`,
bound to `page` and locked by `cur`, touching nothing else. -/
theorem free_pass_found {σ : Type} (cur : Tid) (page : PageId) (k : Nat) (f : Frame) :
    ∀ (n i : Nat) (s : FrameState σ),
      i + n = s.frame_table.length → i ≤ k →
      s.frame_table[k]? = some f → f.is_free →
      (∀ j g, i ≤ j → j < k → s.frame_table[j]? = some g → ¬ g.is_free) →
      ∃ es, (∀ e ∈ es, e.is_scan_op = true) ∧
        free_pass cur page n i s = .ok (some k,
          { s with
            frame_table := s.frame_table.set k { lock := ⟨some cur⟩, base := f.base, page := some page }
            scan_lock := ⟨none⟩
            trace := s.trace ++ es }) := by
  intro n
  induction n with
  | zero =>
    intro i s hlen hik hk _ _
    have : k < s.frame_table.length := by
      rcases Nat.lt_or_ge k s.frame_table.length with h1 | h1
      · exact h1
      · rw [List.getElem?_eq_none h1] at hk; cases hk
    omega
  | succ n ih =>
    intro i s hlen hik hk hfree hlow
    rcases Nat.eq_or_lt_of_le hik with heq | hlt
    · subst heq
      refine ⟨[.try_acquire (.frame i) true, .release .scan_lock], ?_, ?_⟩
      · intro e he
        simp at he
        rcases he with rfl | rfl <;> rfl
      · obtain ⟨hl, hp⟩ := hfree
        simp [free_pass, hk, lock_try_acquire, hl, hp, lock_release]
    · have hi : i < s.frame_table.length := by omega
      obtain ⟨g, hg⟩ : ∃ g, s.frame_table[i]? = some g :=
        ⟨s.frame_table[i], List.getElem?_eq_getElem hi⟩
      have hnf := hlow i g (Nat.le_refl i) hlt hg
      cases hh : g.lock.holder with
      | some t =>
        obtain ⟨es, hes, hrun⟩ := ih (i + 1) (s.log [.try_acquire (.frame i) false])
          (by simp [FrameState.log]; omega) (by omega) (by simpa [FrameState.log] using hk) hfree
          (by
            intro j g' h1 h2 h3
            exact hlow j g' (by omega) h2 (by simpa [FrameState.log] using h3))
        refine ⟨.try_acquire (.frame i) false :: es, ?_, ?_⟩
        · intro e he
          simp at he
          rcases he with rfl | he
          · rfl
          · exact hes e he
        · simp only [free_pass, hg, lock_try_acquire, hh]
          rw [hrun]
          simp [FrameState.log]
      | none =>
        have hp : g.page.isNone = false := by
          cases hpg : g.page with
          | none => exact absurd ⟨hh, hpg⟩ hnf
          | some q => rfl
        have hset : s.frame_table.set i { g with lock := lock_release ⟨some cur⟩ } = s.frame_table := by
          rw [frame_relock_same g _ hh]
          exact set_same _ _ _ hg
        obtain ⟨es, hes, hrun⟩ := ih (i + 1)
          { s with
            frame_table := s.frame_table.set i { g with lock := lock_release ⟨some cur⟩ }
            trace := s.trace ++ [.try_acquire (.frame i) true, .release (.frame i)] }
          (by simp; omega) (by omega) (by simpa [hset] using hk) hfree
          (by
            intro j g' h1 h2 h3
            exact hlow j g' (by omega) h2 (by simpa [hset] using h3))
        refine ⟨.try_acquire (.frame i) true :: .release (.frame i) :: es, ?_, ?_⟩
        · intro e he
          simp at he
          rcases he with rfl | rfl | he
          · rfl
          · rfl
          · exact hes e he
        · simp only [free_pass, hg, lock_try_acquire, hh, hp]
          simp only [Bool.false_eq_true, if_false]
          rw [hrun]
          simp [hset]

/-- With no free frame at or after `i`, the free-frame pass runs to its end and
leaves everything but the trace as it was. -/
theorem free_pass_none {σ : Type} (cur : Tid) (page : PageId) :
    ∀ (n i : Nat) (s : FrameState σ),
      i + n = s.frame_table.length →
      (∀ j g, i ≤ j → s.frame_table[j]? = some g → ¬ g.is_free) →
      ∃ es, (∀ e ∈ es, e.is_scan_op = true) ∧
        free_pass cur page n i s = .ok (none, { s with trace := s.trace ++ es }) := by
  intro n
  induction n with
  | zero =>
    intro i s _ _
    exact ⟨[], by simp, by simp [free_pass]⟩
  | succ n ih =>
    intro i s hlen hno
    have hi : i < s.frame_table.length := by omega
    obtain ⟨g, hg⟩ : ∃ g, s.frame_table[i]? = some g :=
      ⟨s.frame_table[i], List.getElem?_eq_getElem hi⟩
    have hnf := hno i g (Nat.le_refl i) hg
    cases hh : g.lock.holder with
    | some t =>
      obtain ⟨es, hes, hrun⟩ := ih (i + 1) (s.log [.try_acquire (.frame i) false])
        (by simp [FrameState.log]; omega)
        (by
          intro j g' h1 h3
          exact hno j g' (by omega) (by simpa [FrameState.log] using h3))
      refine ⟨.try_acquire (.frame i) false :: es, ?_, ?_⟩
      · intro e he
        simp at he
        rcases he with rfl | he
        · rfl
        · exact hes e he
      · simp only [free_pass, hg, lock_try_acquire, hh]
        rw [hrun]
        simp [FrameState.log]
    | none =>
      have hp : g.page.isNone = false := by
        cases hpg : g.page with
        | none => exact absurd ⟨hh, hpg⟩ hnf
        | some q => rfl
      have hset : s.frame_table.set i { g with lock := lock_release ⟨some cur⟩ } = s.frame_table := by
        rw [frame_relock_same g _ hh]
        exact set_same _ _ _ hg
      obtain ⟨es, hes, hrun⟩ := ih (i + 1)
        { s with
          frame_table := s.frame_table.set i { g with lock := lock_release ⟨some cur⟩ }
          trace := s.trace ++ [.try_acquire (.frame i) true, .release (.frame i)] }
        (by simp; omega)
        (by
          intro j g' h1 h3
          exact hno j g' (by omega) (by simpa [hset] using h3))
      refine ⟨.try_acquire (.frame i) true :: .release (.frame i) :: es, ?_, ?_⟩
      · intro e he
        simp at he
        rcases he with rfl | rfl | he
        · rfl
        · rfl
        · exact hes e he
      · simp only [free_pass, hg, lock_try_acquire, hh, hp]
        simp only [Bool.false_eq_true, if_false]
        rw [hrun]
        simp [hset]

/-- C1. Free-frame pass: when the scan lock is free and frame `k` is the
lowest-index frame that is both unlocked and unoccupied, one attempt returns
frame `k`, now bound to `page` and locked by the caller; the scan lock is
released, the cursor and the page manager are as before, every other frame is
unchanged, and no accessed-bit query and no write-back is performed. -/
theorem try_alloc_takes_lowest_free_frame {σ : Type} (pm : PageManager σ) (cur : Tid)
    (page : PageId) (s : FrameState σ) (k : Nat) (f : Frame)
    (hscan : s.scan_lock.holder = none)
    (hk : s.frame_table[k]? = some f) (hfree : f.is_free)
    (hlow : ∀ j g, j < k → s.frame_table[j]? = some g → ¬ g.is_free) :
    ∃ s', try_frame_alloc_and_lock pm cur page s = .ok (some k, s') ∧
      s'.frame_table =
        s.frame_table.set k { lock := ⟨some cur⟩, base := f.base, page := some page } ∧
      s'.scan_lock.holder = none ∧ s'.hand = s.hand ∧ s'.pm = s.pm ∧
      queries s'.trace = queries s.trace ∧ write_backs s'.trace = write_backs s.trace := by
  obtain ⟨es, hes, hrun⟩ := free_pass_found cur page k f s.frame_table.length 0
    { s with scan_lock := ⟨some cur⟩, trace := s.trace ++ [.acquire .scan_lock] }
    (by simp) (Nat.zero_le k) hk hfree
    (by
      intro j g _ h2 h3
      exact hlow j g h2 h3)
  refine ⟨{ s with
      frame_table := s.frame_table.set k { lock := ⟨some cur⟩, base := f.base, page := some page }
      scan_lock := ⟨none⟩
      trace := (s.trace ++ [.acquire .scan_lock]) ++ es }, ?_, rfl, rfl, rfl, rfl, ?_, ?_⟩
  · simp only [try_frame_alloc_and_lock, lock_acquire, hscan, FrameState.frame_cnt]
    rw [hrun]
  · show queries ((s.trace ++ [.acquire .scan_lock]) ++ es) = queries s.trace
    rw [queries_append, queries_append, queries_scan_ops es hes]
    simp [queries]
  · show write_backs ((s.trace ++ [.acquire .scan_lock]) ++ es) = write_backs s.trace
    rw [write_backs_append, write_backs_append, write_backs_scan_ops es hes]
    simp [write_backs]

/-! ## Theorems: what any run of the two passes does -/

theorem lock_try_acquire_true (cur : Tid) (l l' : Lock)
    (h : lock_try_acquire cur l = (true, l')) : l.holder = none ∧ l' = ⟨some cur⟩ := by
  unfold lock_try_acquire at h
  cases hh : l.holder with
  | none =>
    rw [hh] at h
    simp only [Prod.mk.injEq, true_and] at h
    exact ⟨rfl, h.symm⟩
  | some t =>
    rw [hh] at h
    simp at h

theorem free_pass_spec {σ : Type} (cur : Tid) (page : PageId) :
    ∀ (n i : Nat) (s : FrameState σ) (r : Option Nat) (s' : FrameState σ),
      free_pass cur page n i s = .ok (r, s') →
      s'.hand = s.hand ∧ s'.pm = s.pm ∧ s'.frame_table.length = s.frame_table.length ∧
      (∃ es, s'.trace = s.trace ++ es ∧ ∀ e ∈ es, e.is_scan_op = true) ∧
      (r = none → s'.scan_lock = s.scan_lock) ∧
      (∀ k, r = some k → s'.scan_lock.holder = none ∧ holds_frame cur page s' k) := by
  intro n
  induction n with
  | zero =>
    intro i s r s' h
    simp only [free_pass, Except.ok.injEq, Prod.mk.injEq] at h
    obtain ⟨rfl, rfl⟩ := h
    refine ⟨rfl, rfl, rfl, ?_, fun _ => rfl, fun k hk => by cases hk⟩
    exact ⟨[], by simp, by simp⟩
  | succ n ih =>
    intro i s r s' h
    simp only [free_pass] at h
    split at h
    · cases h
    · rename_i f hf
      split at h
      · obtain ⟨h1, h2, h3, ⟨es, h4, h5⟩, h6, h7⟩ := ih _ _ _ _ h
        refine ⟨h1, h2, h3, ?_, h6, h7⟩
        refine ⟨.try_acquire (.frame i) false :: es, ?_, ?_⟩
        · rw [h4]; simp [FrameState.log]
        · intro e he
          simp at he
          rcases he with rfl | he
          · rfl
          · exact h5 e he
      · rename_i l hl
        obtain ⟨_, rfl⟩ := lock_try_acquire_true cur f.lock l hl
        split at h
        · simp only [Except.ok.injEq, Prod.mk.injEq] at h
          obtain ⟨rfl, rfl⟩ := h
          have hi : i < s.frame_table.length := by
            rcases Nat.lt_or_ge i s.frame_table.length with h1 | h1
            · exact h1
            · rw [List.getElem?_eq_none h1] at hf; cases hf
          refine ⟨rfl, rfl, by simp, ?_, (fun hr => by cases hr), ?_⟩
          · refine ⟨_, rfl, ?_⟩
            intro e he
            simp at he
            rcases he with rfl | rfl <;> rfl
          · intro k hk
            cases hk
            exact ⟨rfl, ⟨⟨some cur⟩, f.base, some page⟩,
              by simp [List.getElem?_set_self hi], rfl, rfl⟩
        · obtain ⟨h1, h2, h3, ⟨es, h4, h5⟩, h6, h7⟩ := ih _ _ _ _ h
          refine ⟨h1, h2, by simpa using h3, ?_, h6, h7⟩
          refine ⟨.try_acquire (.frame i) true :: .release (.frame i) :: es, ?_, ?_⟩
          · rw [h4]; simp
          · intro e he
            simp at he
            rcases he with rfl | rfl | he
            · rfl
            · rfl
            · exact h5 e he

theorem evict_pass_spec {σ : Type} (pm : PageManager σ) (cur : Tid) (page : PageId) :
    ∀ (n : Nat) (s : FrameState σ) (r : Option Nat) (s' : FrameState σ),
      evict_pass pm cur page n s = .ok (r, s') →
      s'.frame_table.length = s.frame_table.length ∧
      s'.scan_lock.holder = none ∧
      (s.hand < s.frame_table.length → s'.hand < s'.frame_table.length) ∧
      (∃ es, s'.trace = s.trace ++ es ∧ ∀ e ∈ es, e.in_attempt = true) ∧
      (∀ k, r = some k → holds_frame cur page s' k) := by
  intro n
  induction n with
  | zero =>
    intro s r s' h
    simp only [evict_pass, Except.ok.injEq, Prod.mk.injEq] at h
    obtain ⟨rfl, rfl⟩ := h
    refine ⟨rfl, rfl, fun h => h, ?_, fun k hk => by cases hk⟩
    refine ⟨_, rfl, ?_⟩
    intro e he
    simp at he
    subst he
    rfl
  | succ n ih =>
    intro s r s' h
    simp only [evict_pass] at h
    split at h
    · cases h
    · rename_i f hf
      have hi : s.hand < s.frame_table.length := by
        rcases Nat.lt_or_ge s.hand s.frame_table.length with h1 | h1
        · exact h1
        · rw [List.getElem?_eq_none h1] at hf; cases hf
      have hnext : (if s.hand + 1 ≥ s.frame_cnt then 0 else s.hand + 1) < s.frame_table.length := by
        unfold FrameState.frame_cnt
        split <;> omega
      split at h
      · obtain ⟨h1, h2, h3, ⟨es, h4, h5⟩, h7⟩ := ih _ _ _ h
        refine ⟨h1, h2, fun _ => h3 hnext, ?_, h7⟩
        refine ⟨.try_acquire (.frame s.hand) false :: es, ?_, ?_⟩
        · rw [h4]; simp [FrameState.log]
        · intro e he
          simp at he
          rcases he with rfl | he
          · rfl
          · exact h5 e he
      · rename_i l hl
        obtain ⟨_, rfl⟩ := lock_try_acquire_true cur f.lock l hl
        split at h
        · simp only [Except.ok.injEq, Prod.mk.injEq] at h
          obtain ⟨rfl, rfl⟩ := h
          refine ⟨by simp, rfl, fun _ => by simpa using hnext, ?_, ?_⟩
          · refine ⟨_, rfl, ?_⟩
            intro e he
            simp at he
            rcases he with rfl | rfl <;> rfl
          · intro k hk
            cases hk
            exact ⟨⟨⟨some cur⟩, f.base, some page⟩,
              by simp [List.getElem?_set_self hi], rfl, rfl⟩
        · rename_i q hq
          split at h
          · obtain ⟨h1, h2, h3, ⟨es, h4, h5⟩, h7⟩ := ih _ _ _ h
            refine ⟨by simpa using h1, h2, fun _ => h3 (by simpa using hnext), ?_, h7⟩
            refine ⟨.try_acquire (.frame s.hand) true :: .accessed q true ::
                .release (.frame s.hand) :: es, ?_, ?_⟩
            · rw [h4]; simp
            · intro e he
              simp at he
              rcases he with rfl | rfl | rfl | he
              · rfl
              · rfl
              · rfl
              · exact h5 e he
          · split at h
            · simp only [Except.ok.injEq, Prod.mk.injEq] at h
              obtain ⟨rfl, rfl⟩ := h
              refine ⟨by simp, rfl, fun _ => by simpa using hnext, ?_,
                fun k hk => by cases hk⟩
              refine ⟨_, rfl, ?_⟩
              intro e he
              simp at he
              rcases he with rfl | rfl | rfl | rfl | rfl <;> rfl
            · simp only [Except.ok.injEq, Prod.mk.injEq] at h
              obtain ⟨rfl, rfl⟩ := h
              refine ⟨by simp, rfl, fun _ => by simpa using hnext, ?_, ?_⟩
              · refine ⟨_, rfl, ?_⟩
                intro e he
                simp at he
                rcases he with rfl | rfl | rfl | rfl <;> rfl
              · intro k hk
                cases hk
                exact ⟨⟨⟨some cur⟩, f.base, some page⟩,
                  by simp [List.getElem?_set_self hi], rfl, rfl⟩

theorem free_pass_error {σ : Type} (cur : Tid) (page : PageId) :
    ∀ (n i : Nat) (s : FrameState σ) (e : Fault),
      free_pass cur page n i s = .error e → e = .bad_access := by
  intro n
  induction n with
  | zero =>
    intro i s e h
    simp [free_pass] at h
  | succ n ih =>
    intro i s e h
    simp only [free_pass] at h
    split at h
    · simp only [Except.error.injEq] at h
      exact h.symm
    · split at h
      · exact ih _ _ _ h
      · split at h
        · cases h
        · exact ih _ _ _ h

theorem evict_pass_error {σ : Type} (pm : PageManager σ) (cur : Tid) (page : PageId) :
    ∀ (n : Nat) (s : FrameState σ) (e : Fault),
      evict_pass pm cur page n s = .error e → e = .bad_access := by
  intro n
  induction n with
  | zero =>
    intro s e h
    simp [evict_pass] at h
  | succ n ih =>
    intro s e h
    simp only [evict_pass] at h
    split at h
    · simp only [Except.error.injEq] at h
      exact h.symm
    · split at h
      · exact ih _ _ h
      · split at h
        · cases h
        · split at h
          · exact ih _ _ h
          · split at h <;> cases h

theorem free_pass_total {σ : Type} (cur : Tid) (page : PageId) :
    ∀ (n i : Nat) (s : FrameState σ), i + n = s.frame_table.length →
      ∃ r s', free_pass cur page n i s = .ok (r, s') := by
  intro n
  induction n with
  | zero =>
    intro i s _
    exact ⟨none, s, rfl⟩
  | succ n ih =>
    intro i s hlen
    have hi : i < s.frame_table.length := by omega
    have hg : s.frame_table[i]? = some s.frame_table[i] := List.getElem?_eq_getElem hi
    simp only [free_pass, hg]
    split
    · exact ih _ _ (by simp [FrameState.log]; omega)
    · split
      · exact ⟨_, _, rfl⟩
      · exact ih _ _ (by simp; omega)

theorem evict_pass_total {σ : Type} (pm : PageManager σ) (cur : Tid) (page : PageId) :
    ∀ (n : Nat) (s : FrameState σ), (n = 0 ∨ s.hand < s.frame_table.length) →
      ∃ r s', evict_pass pm cur page n s = .ok (r, s') := by
  intro n
  induction n with
  | zero =>
    intro s _
    exact ⟨_, _, rfl⟩
  | succ n ih =>
    intro s hh
    have hi : s.hand < s.frame_table.length := by
      rcases hh with h | h
      · cases h
      · exact h
    have hg : s.frame_table[s.hand]? = some s.frame_table[s.hand] := List.getElem?_eq_getElem hi
    have hnext : (if s.hand + 1 ≥ s.frame_cnt then 0 else s.hand + 1) < s.frame_table.length := by
      unfold FrameState.frame_cnt
      split <;> omega
    simp only [evict_pass, hg]
    split
    · exact ih _ (Or.inr (by simpa [FrameState.log] using hnext))
    · split
      · exact ⟨_, _, rfl⟩
      · split
        · exact ih _ (Or.inr (by simpa using hnext))
        · split <;> exact ⟨_, _, rfl⟩

/-! ## Theorems: one attempt -/

theorem attempts_append (a b : List Event) : attempts (a ++ b) = attempts a + attempts b := by
  simp [attempts]

theorem attempts_in_attempt (es : List Event) (h : ∀ e ∈ es, e.in_attempt = true) :
    attempts es = 0 := by
  unfold attempts
  rw [List.count_eq_zero]
  intro hmem
  have := h _ hmem
  simp [Event.in_attempt] at this

theorem sleeps_in_attempt (es : List Event) (h : ∀ e ∈ es, e.in_attempt = true) :
    sleeps es = [] := by
  unfold sleeps
  rw [List.filter_eq_nil_iff]
  intro e he
  have := h e he
  cases e <;> simp_all [Event.in_attempt]

theorem in_attempt_of_scan_op (e : Event) (h : e.is_scan_op = true) : e.in_attempt = true := by
  cases e <;> simp_all [Event.is_scan_op, Event.in_attempt]

/-- What any returning attempt does: it takes the scan lock once and releases
it, keeps the table's length and the cursor's range, and a returned frame is
locked by the caller and bound to `page`. -/
theorem try_spec {σ : Type} (pm : PageManager σ) (cur : Tid) (page : PageId)
    (s : FrameState σ) (r : Option Nat) (s' : FrameState σ)
    (h : try_frame_alloc_and_lock pm cur page s = .ok (r, s')) :
    s.scan_lock.holder = none ∧ s'.scan_lock.holder = none ∧
    s'.frame_table.length = s.frame_table.length ∧
    (s.hand < s.frame_table.length → s'.hand < s'.frame_table.length) ∧
    (∃ es, s'.trace = s.trace ++ .acquire .scan_lock :: es ∧ ∀ e ∈ es, e.in_attempt = true) ∧
    (∀ k, r = some k → holds_frame cur page s' k) := by
  unfold try_frame_alloc_and_lock at h
  cases hs : s.scan_lock.holder with
  | some t => simp [lock_acquire, hs] at h
  | none =>
    simp only [lock_acquire, hs] at h
    split at h
    · cases h
    · rename_i k s1 hfp
      simp only [Except.ok.injEq, Prod.mk.injEq] at h
      obtain ⟨rfl, rfl⟩ := h
      obtain ⟨h1, _, h3, ⟨es, h4, h5⟩, _, h7⟩ := free_pass_spec cur page _ _ _ _ _ hfp
      obtain ⟨h8, h9⟩ := h7 k rfl
      refine ⟨rfl, h8, h3, ?_, ?_, ?_⟩
      · intro hh
        rw [h1, h3]
        exact hh
      · refine ⟨es, ?_, fun e he => in_attempt_of_scan_op e (h5 e he)⟩
        rw [h4]
        simp
      · intro k' hk'
        cases hk'
        exact h9
    · rename_i s1 hfp
      obtain ⟨h1, _, h3, ⟨es, h4, h5⟩, _, _⟩ := free_pass_spec cur page _ _ _ _ _ hfp
      obtain ⟨g1, g2, g3, ⟨es', g4, g5⟩, g6⟩ := evict_pass_spec pm cur page _ _ _ _ h
      refine ⟨rfl, g2, by rw [g1, h3], ?_, ?_, g6⟩
      · intro hh
        apply g3
        rw [h1, h3]
        exact hh
      · refine ⟨es ++ es', ?_, ?_⟩
        · rw [g4, h4]
          simp
        · intro e he
          rcases List.mem_append.mp he with he | he
          · exact in_attempt_of_scan_op e (h5 e he)
          · exact g5 e he

theorem try_error {σ : Type} (pm : PageManager σ) (cur : Tid) (page : PageId)
    (s : FrameState σ) (e : Fault)
    (h : try_frame_alloc_and_lock pm cur page s = .error e) : e ≠ .assert_failed := by
  unfold try_frame_alloc_and_lock at h
  cases hs : s.scan_lock.holder with
  | some t =>
    simp only [lock_acquire, hs, Except.error.injEq] at h
    subst h
    decide
  | none =>
    simp only [lock_acquire, hs] at h
    split at h
    · rename_i e' hfp
      simp only [Except.error.injEq] at h
      subst h
      rw [free_pass_error cur page _ _ _ _ hfp]
      decide
    · cases h
    · rw [evict_pass_error pm cur page _ _ _ h]
      decide

theorem try_total {σ : Type} (pm : PageManager σ) (cur : Tid) (page : PageId)
    (s : FrameState σ) (h : s.ready) :
    ∃ r s', try_frame_alloc_and_lock pm cur page s = .ok (r, s') := by
  obtain ⟨hs, hh⟩ := h
  unfold try_frame_alloc_and_lock
  simp only [lock_acquire, hs]
  obtain ⟨r, s1, hfp⟩ := free_pass_total cur page s.frame_table.length 0
    { s with scan_lock := ⟨some cur⟩, trace := s.trace ++ [.acquire .scan_lock] } (by simp)
  simp only [FrameState.frame_cnt]
  rw [hfp]
  cases r with
  | some k => exact ⟨_, _, rfl⟩
  | none =>
    obtain ⟨h1, _, h3, _, _, _⟩ := free_pass_spec cur page _ _ _ _ _ hfp
    apply evict_pass_total
    rcases hh with hh | hh
    · left
      rw [h3]
      simp only at hh ⊢
      rw [hh]
    · right
      rw [h1, h3]
      exact hh

theorem try_ready {σ : Type} (pm : PageManager σ) (cur : Tid) (page : PageId)
    (s : FrameState σ) (r : Option Nat) (s' : FrameState σ) (hr : s.ready)
    (h : try_frame_alloc_and_lock pm cur page s = .ok (r, s')) : s'.ready := by
  obtain ⟨_, h2, h3, h4, _, _⟩ := try_spec pm cur page s r s' h
  refine ⟨h2, ?_⟩
  rcases hr.2 with hh | hh
  · left; rw [h3]; exact hh
  · right; exact h4 hh

/-! ## Theorems: the outer retry -/

theorem alloc_loop_spec {σ : Type} (pm : PageManager σ) (cur : Tid) (page : PageId) :
    ∀ (n : Nat) (s : FrameState σ) (r : Option Nat) (s' : FrameState σ),
      alloc_loop pm cur page n s = .ok (r, s') →
      ∃ failed, failed ≤ n ∧ (r = none → failed = n) ∧ (r.isSome = true → failed < n) ∧
        sleeps s'.trace = sleeps s.trace ++ List.replicate failed (.sleep 1000) ∧
        attempts s'.trace = attempts s.trace + failed + (if r.isSome then 1 else 0) ∧
        (∀ k, r = some k → holds_frame cur page s' k ∧ s'.scan_lock.holder = none ∧
          ∃ s0, try_frame_alloc_and_lock pm cur page s0 = .ok (some k, s')) := by
  intro n
  induction n with
  | zero =>
    intro s r s' h
    simp only [alloc_loop, Except.ok.injEq, Prod.mk.injEq] at h
    obtain ⟨rfl, rfl⟩ := h
    exact ⟨0, Nat.le_refl 0, fun _ => rfl, (fun h => by cases h), (by simp), (by simp),
      (fun k hk => by cases hk)⟩
  | succ n ih =>
    intro s r s' h
    simp only [alloc_loop] at h
    split at h
    · cases h
    · rename_i k s1 htry
      obtain ⟨_, h2, _, _, ⟨es, h5, h6⟩, h7⟩ := try_spec pm cur page s _ _ htry
      split at h
      · cases h
      · split at h
        · simp only [Except.ok.injEq, Prod.mk.injEq] at h
          obtain ⟨rfl, rfl⟩ := h
          refine ⟨0, Nat.zero_le _, (fun h => by cases h), fun _ => Nat.succ_pos n, ?_, ?_, ?_⟩
          · rw [h5, sleeps_append]
            have : sleeps (Event.acquire LockName.scan_lock :: es) = [] := by
              have h0 := sleeps_append [Event.acquire LockName.scan_lock] es
              simp only [List.singleton_append] at h0
              rw [h0, sleeps_in_attempt es h6]
              simp [sleeps]
            rw [this]
            simp
          · rw [h5, attempts_append]
            have : attempts (Event.acquire LockName.scan_lock :: es) = 1 := by
              have h0 := attempts_append [Event.acquire LockName.scan_lock] es
              simp only [List.singleton_append] at h0
              rw [h0, attempts_in_attempt es h6]
              simp [attempts]
            rw [this]
            simp
          · intro k' hk'
            cases hk'
            exact ⟨h7 k rfl, h2, s, htry⟩
        · cases h
    · rename_i s1 htry
      obtain ⟨_, _, _, _, ⟨es, h5, h6⟩, _⟩ := try_spec pm cur page s _ _ htry
      obtain ⟨failed, g1, g2, g3, g4, g5, g6⟩ := ih _ _ _ h
      refine ⟨failed + 1, (by omega), (fun hr => by rw [g2 hr]),
        (fun hr => by have := g3 hr; omega), ?_, ?_, g6⟩
      · rw [g4]
        simp only [FrameState.log]
        rw [h5, sleeps_append, sleeps_append]
        have : sleeps (Event.acquire LockName.scan_lock :: es) = [] := by
          have h0 := sleeps_append [Event.acquire LockName.scan_lock] es
          simp only [List.singleton_append] at h0
          rw [h0, sleeps_in_attempt es h6]
          simp [sleeps]
        rw [this]
        simp [sleeps, List.replicate_succ]
      · rw [g5]
        simp only [FrameState.log]
        rw [h5, attempts_append, attempts_append]
        have : attempts (Event.acquire LockName.scan_lock :: es) = 1 := by
          have h0 := attempts_append [Event.acquire LockName.scan_lock] es
          simp only [List.singleton_append] at h0
          rw [h0, attempts_in_attempt es h6]
          simp [attempts]
        rw [this]
        simp [attempts]
        omega

theorem alloc_loop_no_assert {σ : Type} (pm : PageManager σ) (cur : Tid) (page : PageId) :
    ∀ (n : Nat) (s : FrameState σ), alloc_loop pm cur page n s ≠ .error .assert_failed := by
  intro n
  induction n with
  | zero =>
    intro s h
    simp [alloc_loop] at h
  | succ n ih =>
    intro s h
    simp only [alloc_loop] at h
    split at h
    · rename_i e htry
      simp only [Except.error.injEq] at h
      subst h
      exact try_error pm cur page s _ htry rfl
    · rename_i k s1 htry
      obtain ⟨_, _, _, _, _, h7⟩ := try_spec pm cur page s _ _ htry
      obtain ⟨f, hf, hl, _⟩ := h7 k rfl
      rw [hf] at h
      simp [lock_held_by_current_thread, hl] at h
    · exact ih _ h

theorem alloc_loop_total {σ : Type} (pm : PageManager σ) (cur : Tid) (page : PageId) :
    ∀ (n : Nat) (s : FrameState σ), s.ready →
      ∃ r s', alloc_loop pm cur page n s = .ok (r, s') := by
  intro n
  induction n with
  | zero =>
    intro s _
    exact ⟨none, s, rfl⟩
  | succ n ih =>
    intro s hr
    obtain ⟨r, s1, htry⟩ := try_total pm cur page s hr
    have hr1 := try_ready pm cur page s r s1 hr htry
    simp only [alloc_loop, htry]
    cases r with
    | some k =>
      obtain ⟨_, _, _, _, _, h7⟩ := try_spec pm cur page s _ _ htry
      obtain ⟨f, hf, hl, _⟩ := h7 k rfl
      simp only [hf, lock_held_by_current_thread, hl, decide_True, if_true]
      exact ⟨_, _, rfl⟩
    | none =>
      exact ih _ ⟨hr1.1, hr1.2⟩

/-- An attempt takes no sleep and counts as one attempt. -/
theorem try_trace_counts {σ : Type} (pm : PageManager σ) (cur : Tid) (page : PageId)
    (s : FrameState σ) (r : Option Nat) (s1 : FrameState σ)
    (h : try_frame_alloc_and_lock pm cur page s = .ok (r, s1)) :
    sleeps s1.trace = sleeps s.trace ∧ attempts s1.trace = attempts s.trace + 1 := by
  obtain ⟨_, _, _, _, ⟨es, h5, h6⟩, _⟩ := try_spec pm cur page s _ _ h
  refine ⟨?_, ?_⟩
  · rw [h5, sleeps_append]
    have : sleeps (Event.acquire LockName.scan_lock :: es) = [] := by
      have h0 := sleeps_append [Event.acquire LockName.scan_lock] es
      simp only [List.singleton_append] at h0
      rw [h0, sleeps_in_attempt es h6]
      simp [sleeps]
    rw [this]
    simp
  · rw [h5, attempts_append]
    have : attempts (Event.acquire LockName.scan_lock :: es) = 1 := by
      have h0 := attempts_append [Event.acquire LockName.scan_lock] es
      simp only [List.singleton_append] at h0
      rw [h0, attempts_in_attempt es h6]
      simp [attempts]
    rw [this]

/-- After `j` failed attempts the loop goes on with what is left of its bound,
having taken `j` sleeps and made `j` attempts. -/
theorem alloc_loop_after_failed {σ : Type} (pm : PageManager σ) (cur : Tid) (page : PageId) :
    ∀ (j : Nat) (s sj : FrameState σ), failed_attempts pm cur page j s = some sj →
      (∀ n, alloc_loop pm cur page (j + n) s = alloc_loop pm cur page n sj) ∧
      sleeps sj.trace = sleeps s.trace ++ List.replicate j (.sleep 1000) ∧
      attempts sj.trace = attempts s.trace + j := by
  intro j
  induction j with
  | zero =>
    intro s sj h
    simp only [failed_attempts, Option.some.injEq] at h
    subst h
    exact ⟨fun n => by rw [Nat.zero_add], by simp, rfl⟩
  | succ j ih =>
    intro s sj h
    simp only [failed_attempts] at h
    split at h
    · rename_i s1 htry
      obtain ⟨g1, g2, g3⟩ := ih _ _ h
      obtain ⟨t1, t2⟩ := try_trace_counts pm cur page s none s1 htry
      refine ⟨?_, ?_, ?_⟩
      · intro n
        have e : j + 1 + n = (j + n) + 1 := by omega
        rw [e]
        simp only [alloc_loop, htry]
        exact g1 n
      · rw [g2]
        simp only [FrameState.log]
        rw [sleeps_append, t1]
        simp [sleeps, List.replicate_succ]
      · rw [g3]
        simp only [FrameState.log]
        rw [attempts_append, t2]
        simp [attempts]
        omega
    · cases h

/-- A successful attempt ends the loop with its frame and state. -/
theorem alloc_loop_success {σ : Type} (pm : PageManager σ) (cur : Tid) (page : PageId)
    (n : Nat) (s : FrameState σ) (k : Nat) (s' : FrameState σ)
    (h : try_frame_alloc_and_lock pm cur page s = .ok (some k, s')) :
    alloc_loop pm cur page (n + 1) s = .ok (some k, s') := by
  obtain ⟨_, _, _, _, _, h7⟩ := try_spec pm cur page s _ _ h
  obtain ⟨f, hf, hl, _⟩ := h7 k rfl
  simp only [alloc_loop, h, hf, lock_held_by_current_thread, hl, decide_True, if_true]

/-- Every returning run of the loop is a run of failed attempts, followed
either by the end of the bound or by one successful attempt. -/
theorem alloc_loop_failed_prefix {σ : Type} (pm : PageManager σ) (cur : Tid) (page : PageId) :
    ∀ (n : Nat) (s : FrameState σ) (r : Option Nat) (s' : FrameState σ),
      alloc_loop pm cur page n s = .ok (r, s') →
      ∃ j sj, failed_attempts pm cur page j s = some sj ∧
        ((r = none ∧ j = n ∧ s' = sj) ∨
         (∃ k, r = some k ∧ j < n ∧
            try_frame_alloc_and_lock pm cur page sj = .ok (some k, s'))) := by
  intro n
  induction n with
  | zero =>
    intro s r s' h
    simp only [alloc_loop, Except.ok.injEq, Prod.mk.injEq] at h
    obtain ⟨rfl, rfl⟩ := h
    exact ⟨0, s, rfl, Or.inl ⟨rfl, rfl, rfl⟩⟩
  | succ n ih =>
    intro s r s' h
    simp only [alloc_loop] at h
    split at h
    · cases h
    · rename_i k s1 htry
      split at h
      · cases h
      · split at h
        · simp only [Except.ok.injEq, Prod.mk.injEq] at h
          obtain ⟨rfl, rfl⟩ := h
          exact ⟨0, s, rfl, Or.inr ⟨k, rfl, Nat.succ_pos n, htry⟩⟩
        · cases h
    · rename_i s1 htry
      obtain ⟨j, sj, g1, g2⟩ := ih _ _ _ h
      refine ⟨j + 1, sj, by simp only [failed_attempts, htry]; exact g1, ?_⟩
      rcases g2 with ⟨a, b, c⟩ | ⟨k, a, b, c⟩
      · exact Or.inl ⟨a, by omega, c⟩
      · exact Or.inr ⟨k, a, by omega, c⟩

/-- C4. Bounded retry: `frame_alloc_and_lock` never fails an assertion; from a
state in which an attempt can run it returns; and whenever it returns, the
number `failed` of failed attempts satisfies: at most 3 attempts were made in
all, exactly `failed` sleeps of 1000 ms were taken, a failure result means
`failed = 3` (three attempts, three sleeps), and a success result is the frame
and state of the successful attempt, the `failed + 1`-th one.  Forward, for
every sequence of attempt outcomes: when the first `j` attempts fail, `j`
sleeps have been taken; with `j = 3` the call returns NULL in that state, and
with `j < 3` and the next attempt returning frame `k`, the call returns frame
`k` in that attempt's state, after exactly `j` sleeps and `j + 1` attempts.
Every returning call is of one of these two kinds. -/
theorem alloc_retry_bounded {σ : Type} (pm : PageManager σ) (cur : Tid) (page : PageId)
    (s : FrameState σ) :
    frame_alloc_and_lock pm cur page s ≠ .error .assert_failed ∧
    (s.ready → ∃ r s', frame_alloc_and_lock pm cur page s = .ok (r, s')) ∧
    (∀ r s', frame_alloc_and_lock pm cur page s = .ok (r, s') →
      ∃ failed,
        failed + (if r.isSome then 1 else 0) ≤ 3 ∧
        attempts s'.trace = attempts s.trace + failed + (if r.isSome then 1 else 0) ∧
        sleeps s'.trace = sleeps s.trace ++ List.replicate failed (.sleep 1000) ∧
        (r = none → failed = 3) ∧
        (∀ k, r = some k →
          ∃ s0, try_frame_alloc_and_lock pm cur page s0 = .ok (some k, s'))) ∧
    (∀ j sj, failed_attempts pm cur page j s = some sj →
      sleeps sj.trace = sleeps s.trace ++ List.replicate j (.sleep 1000) ∧
      attempts sj.trace = attempts s.trace + j ∧
      (j = 3 → frame_alloc_and_lock pm cur page s = .ok (none, sj)) ∧
      (j < 3 → ∀ k s', try_frame_alloc_and_lock pm cur page sj = .ok (some k, s') →
        frame_alloc_and_lock pm cur page s = .ok (some k, s') ∧
        sleeps s'.trace = sleeps s.trace ++ List.replicate j (.sleep 1000) ∧
        attempts s'.trace = attempts s.trace + (j + 1))) ∧
    (∀ r s', frame_alloc_and_lock pm cur page s = .ok (r, s') →
      ∃ j sj, failed_attempts pm cur page j s = some sj ∧
        ((r = none ∧ j = 3 ∧ s' = sj) ∨
         (∃ k, r = some k ∧ j < 3 ∧
            try_frame_alloc_and_lock pm cur page sj = .ok (some k, s')))) := by
  refine ⟨alloc_loop_no_assert pm cur page 3 s, alloc_loop_total pm cur page 3 s, ?_, ?_,
    alloc_loop_failed_prefix pm cur page 3 s⟩
  · intro r s' h
    obtain ⟨failed, g1, g2, g3, g4, g5, g6⟩ := alloc_loop_spec pm cur page 3 s r s' h
    refine ⟨failed, ?_, g5, g4, g2, fun k hk => (g6 k hk).2.2⟩
    cases r with
    | none => simpa using g1
    | some k =>
      have := g3 rfl
      simp
      omega
  · intro j sj hj
    obtain ⟨g1, g2, g3⟩ := alloc_loop_after_failed pm cur page j s sj hj
    refine ⟨g2, g3, ?_, ?_⟩
    · intro h3
      subst h3
      have := g1 0
      simp only [Nat.add_zero] at this
      unfold frame_alloc_and_lock
      rw [this]
      rfl
    · intro hlt k s' htry
      obtain ⟨t1, t2⟩ := try_trace_counts pm cur page sj (some k) s' htry
      refine ⟨?_, by rw [t1, g2], by rw [t2, g3, Nat.add_assoc]⟩
      have e : 3 = j + ((2 - j) + 1) := by omega
      have := g1 ((2 - j) + 1)
      rw [← e] at this
      unfold frame_alloc_and_lock
      rw [this]
      exact alloc_loop_success pm cur page (2 - j) sj k s' htry

/-- C5. Whenever `frame_alloc_and_lock page` returns a frame, that frame's lock is
held by the calling thread, its page association is `page`, and the scan lock
is free; the assertion in `frame_alloc_and_lock` never fails.  This is for
every table state and every behaviour of the two collaborators. -/
theorem alloc_success_locked {σ : Type} (pm : PageManager σ) (cur : Tid) (page : PageId)
    (s : FrameState σ) :
    frame_alloc_and_lock pm cur page s ≠ .error .assert_failed ∧
    ∀ k s', frame_alloc_and_lock pm cur page s = .ok (some k, s') →
      holds_frame cur page s' k ∧ s'.scan_lock.holder = none := by
  refine ⟨alloc_loop_no_assert pm cur page 3 s, ?_⟩
  intro k s' h
  obtain ⟨_, _, _, _, _, _, g6⟩ := alloc_loop_spec pm cur page 3 s _ s' h
  exact ⟨(g6 k rfl).1, (g6 k rfl).2.1⟩

/-! ## Theorems: the eviction pass, step by step -/

theorem next_hand (h n : Nat) (hh : h < n) : (if h + 1 ≥ n then 0 else h + 1) = (h + 1) % n := by
  split
  · have : h + 1 = n := by omega
    rw [this, Nat.mod_self]
  · rw [Nat.mod_eq_of_lt (by omega)]

theorem getElem?_lt {α : Type} (l : List α) (i : Nat) (a : α) (h : l[i]? = some a) :
    i < l.length := by
  rcases Nat.lt_or_ge i l.length with h1 | h1
  · exact h1
  · rw [List.getElem?_eq_none h1] at h; cases h

/-- One visit of the eviction pass to an unlocked frame whose page was not
accessed recently and whose write-back succeeds: the frame is the victim. -/
theorem evict_pass_victim {σ : Type} (pm : PageManager σ) (cur : Tid) (page : PageId)
    (n : Nat) (s : FrameState σ) (f : Frame) (q : PageId) (w w' : σ)
    (hf : s.frame_table[s.hand]? = some f) (hl : f.lock.holder = none)
    (hq : f.page = some q)
    (hA : pm.page_accessed_recently q s.pm = (false, w))
    (hB : pm.page_out q w = (true, w')) :
    evict_pass pm cur page (n + 1) s = .ok (some s.hand,
      { s with
        hand := (s.hand + 1) % s.frame_table.length
        frame_table :=
          s.frame_table.set s.hand { lock := ⟨some cur⟩, base := f.base, page := some page }
        scan_lock := ⟨none⟩
        pm := w'
        trace := s.trace ++
          [.try_acquire (.frame s.hand) true, .accessed q false, .release .scan_lock,
           .page_out q true] }) := by
  have hi := getElem?_lt _ _ _ hf
  simp only [evict_pass, hf, lock_try_acquire, hl, hq, hA, hB, lock_release,
    FrameState.frame_cnt, next_hand _ _ hi]

/-- One visit of the eviction pass to an unlocked frame whose page was accessed
recently: the frame is passed over and only the cursor, the page manager and
the trace change. -/
theorem evict_pass_second_chance {σ : Type} (pm : PageManager σ) (cur : Tid) (page : PageId)
    (n : Nat) (s : FrameState σ) (f : Frame) (q : PageId) (w : σ)
    (hf : s.frame_table[s.hand]? = some f) (hl : f.lock.holder = none)
    (hq : f.page = some q)
    (hA : pm.page_accessed_recently q s.pm = (true, w)) :
    evict_pass pm cur page (n + 1) s =
      evict_pass pm cur page n
        { s with
          hand := (s.hand + 1) % s.frame_table.length
          pm := w
          trace := s.trace ++
            [.try_acquire (.frame s.hand) true, .accessed q true, .release (.frame s.hand)] } := by
  have hi := getElem?_lt _ _ _ hf
  have hset : s.frame_table.set s.hand
      { lock := lock_release ⟨some cur⟩, base := f.base, page := some q } = s.frame_table := by
    rw [← hq]
    have := frame_relock_same f ⟨some cur⟩ hl
    simp only at this
    rw [this]
    exact set_same _ _ _ hf
  simp only [evict_pass, hf, lock_try_acquire, hl, hq, hA, FrameState.frame_cnt,
    next_hand _ _ hi, hset]

/-- A successful first attempt is the result of `frame_alloc_and_lock`. -/
theorem alloc_first_attempt {σ : Type} (pm : PageManager σ) (cur : Tid) (page : PageId)
    (s : FrameState σ) (k : Nat) (s' : FrameState σ)
    (h : try_frame_alloc_and_lock pm cur page s = .ok (some k, s')) :
    frame_alloc_and_lock pm cur page s = .ok (some k, s') := by
  obtain ⟨_, _, _, _, _, h7⟩ := try_spec pm cur page s _ _ h
  obtain ⟨f, hf, hl, _⟩ := h7 k rfl
  simp only [frame_alloc_and_lock, alloc_loop, h, hf, lock_held_by_current_thread, hl,
    decide_True, if_true]

/-- C2. Eviction at the cursor: in a table whose frames are all occupied and
unlocked, with no resident page reporting "accessed recently", the cursor at
`s.hand` and write-back of the page `q` resident there succeeding,
`frame_alloc_and_lock pageY` returns frame `s.hand` on its first attempt (one
attempt, no sleep), rebound to `pageY` and locked by the caller.  Exactly one
accessed-bit query and one write-back are made, both on `q`; with write-back
clearing the frame association of the page it persists (its interface), `q` has
no frame afterwards.  The cursor advances by one modulo the table size and
every other frame is as before. -/
theorem alloc_evicts_at_cursor {σ : Type} (pm : PageManager σ) (cur : Tid) (pageY : PageId)
    (s : FrameState σ) (f : Frame) (q : PageId) (frame_of : σ → PageId → Option Nat)
    (hscan : s.scan_lock.holder = none)
    (hall : ∀ (j : Nat) (g : Frame),
      s.frame_table[j]? = some g → g.lock.holder = none ∧ g.page ≠ none)
    (hf : s.frame_table[s.hand]? = some f) (hq : f.page = some q)
    (hacc : ∀ (j : Nat) (g : Frame) (p : PageId), s.frame_table[j]? = some g →
      g.page = some p → (pm.page_accessed_recently p s.pm).1 = false)
    (hwb : (pm.page_out q (pm.page_accessed_recently q s.pm).2).1 = true)
    (hiface : ∀ p w, (pm.page_out p w).1 = true → frame_of (pm.page_out p w).2 p = none) :
    ∃ s', frame_alloc_and_lock pm cur pageY s = .ok (some s.hand, s') ∧
      s'.frame_table =
        s.frame_table.set s.hand { lock := ⟨some cur⟩, base := f.base, page := some pageY } ∧
      s'.scan_lock.holder = none ∧
      s'.hand = (s.hand + 1) % s.frame_table.length ∧
      s'.pm = (pm.page_out q (pm.page_accessed_recently q s.pm).2).2 ∧
      frame_of s'.pm q = none ∧
      queries s'.trace = queries s.trace ++ [.accessed q false] ∧
      write_backs s'.trace = write_backs s.trace ++ [.page_out q true] ∧
      attempts s'.trace = attempts s.trace + 1 ∧
      sleeps s'.trace = sleeps s.trace := by
  have hi := getElem?_lt _ _ _ hf
  obtain ⟨es, hes, hrun⟩ := free_pass_none cur pageY s.frame_table.length 0
    { s with scan_lock := ⟨some cur⟩, trace := s.trace ++ [.acquire .scan_lock] }
    (by simp)
    (by
      intro j g _ h3 hfree
      exact (hall j g h3).2 hfree.2)
  have hA : pm.page_accessed_recently q s.pm = (false, (pm.page_accessed_recently q s.pm).2) := by
    have := hacc s.hand f q hf hq
    rw [← this]
  have hB : pm.page_out q (pm.page_accessed_recently q s.pm).2
      = (true, (pm.page_out q (pm.page_accessed_recently q s.pm).2).2) := by
    rw [← hwb]
  obtain ⟨m, hm⟩ : ∃ m, s.frame_table.length * 2 = m + 1 := ⟨s.frame_table.length * 2 - 1, by omega⟩
  have hev := evict_pass_victim pm cur pageY m
    { s with scan_lock := ⟨some cur⟩, trace := (s.trace ++ [.acquire .scan_lock]) ++ es }
    f q _ _ hf (hall _ _ hf).1 hq hA hB
  have htry : try_frame_alloc_and_lock pm cur pageY s = .ok (some s.hand,
      { s with
        hand := (s.hand + 1) % s.frame_table.length
        frame_table :=
          s.frame_table.set s.hand { lock := ⟨some cur⟩, base := f.base, page := some pageY }
        scan_lock := ⟨none⟩
        pm := (pm.page_out q (pm.page_accessed_recently q s.pm).2).2
        trace := ((s.trace ++ [.acquire .scan_lock]) ++ es) ++
          [.try_acquire (.frame s.hand) true, .accessed q false, .release .scan_lock,
           .page_out q true] }) := by
    simp only [try_frame_alloc_and_lock, lock_acquire, hscan, FrameState.frame_cnt]
    rw [hrun]
    simp only [hm]
    exact hev
  refine ⟨_, alloc_first_attempt pm cur pageY s _ _ htry, rfl, rfl, rfl, rfl, ?_, ?_, ?_, ?_, ?_⟩
  · exact hiface q _ hwb
  · simp only [queries_append, queries_scan_ops es hes]
    simp [queries]
  · simp only [write_backs_append, write_backs_scan_ops es hes]
    simp [write_backs]
  · simp only [attempts_append, attempts_in_attempt es (fun e he => in_attempt_of_scan_op e (hes e he))]
    simp [attempts]
  · simp only [sleeps_append, sleeps_scan_ops es hes]
    simp [sleeps]

/-! ## Scenarios A, B and E -/

/-- Scenario A: with four frames, all free, an attempt for page 10 by thread 1
returns frame 0. -/
theorem try_alloc_takes_lowest_free_frame_scenario_A :
    ∃ s', try_frame_alloc_and_lock page_manager 1 10 scenario_A = .ok (some 0, s') ∧
      s'.frame_table =
        scenario_A.frame_table.set 0
          { lock := ⟨some 1⟩, base := free_frame.base, page := some 10 } ∧
      s'.scan_lock.holder = none ∧ s'.hand = scenario_A.hand ∧ s'.pm = scenario_A.pm ∧
      queries s'.trace = queries scenario_A.trace ∧
      write_backs s'.trace = write_backs scenario_A.trace :=
  try_alloc_takes_lowest_free_frame page_manager 1 10 scenario_A 0 free_frame rfl rfl
    ⟨rfl, rfl⟩ (fun j _ hj => absurd hj (Nat.not_lt_zero j))

/-- Scenario B: with four occupied frames, none recently accessed, and the
cursor at 2, allocation for page 10 evicts page 102 from frame 2. -/
theorem alloc_evicts_at_cursor_scenario_B :
    ∃ s', frame_alloc_and_lock page_manager 1 10 scenario_B = .ok (some 2, s') ∧
      s'.frame_table =
        scenario_B.frame_table.set 2 { lock := ⟨some 1⟩, base := (frame_with 102).base, page := some 10 } ∧
      s'.scan_lock.holder = none ∧
      s'.hand = 3 ∧
      s'.pm = (page_out 102 (page_accessed_recently 102 scenario_B.pm).2).2 ∧
      (s'.pm.pages 102).frame = none ∧
      queries s'.trace = queries scenario_B.trace ++ [.accessed 102 false] ∧
      write_backs s'.trace = write_backs scenario_B.trace ++ [.page_out 102 true] ∧
      attempts s'.trace = attempts scenario_B.trace + 1 ∧
      sleeps s'.trace = sleeps scenario_B.trace :=
  alloc_evicts_at_cursor page_manager 1 10 scenario_B (frame_with 102) 102
    (fun w p => (w.pages p).frame) rfl
    (by
      intro j g h
      rcases j with _ | _ | _ | _ | j
      all_goals simp [scenario_B, frame_with] at h
      all_goals subst h
      all_goals simp)
    rfl rfl
    (by intro j g p _ _; rfl)
    rfl
    (by
      intro p w h
      simp only [page_manager, page_out] at h ⊢
      split at h
      · rename_i hok
        simp [hok]
      · cases h)

/-- Scenario E: with every frame locked by another thread, allocation returns,
and it returns failure after three attempts and three sleeps.  Scenario G: the
first attempt fails on the write-back of page 100, the second is the first to
succeed, and the call returns its frame 1 after exactly one sleep.  Scenario
A: the first attempt succeeds and the call returns frame 0 with no sleep. -/
theorem alloc_retry_bounded_scenarios_E_G_A :
    (∃ r s', frame_alloc_and_lock page_manager 1 10 scenario_E = .ok (r, s')) ∧
    (∃ s', frame_alloc_and_lock page_manager 1 10 scenario_E = .ok (none, s') ∧
      sleeps s'.trace = [.sleep 1000, .sleep 1000, .sleep 1000] ∧
      attempts s'.trace = 3) ∧
    (∃ s1 s', try_frame_alloc_and_lock page_manager 1 10 scenario_G = .ok (none, s1) ∧
      try_frame_alloc_and_lock page_manager 1 10 (s1.log [.sleep 1000]) = .ok (some 1, s') ∧
      frame_alloc_and_lock page_manager 1 10 scenario_G = .ok (some 1, s') ∧
      sleeps s'.trace = [.sleep 1000] ∧ attempts s'.trace = 2) ∧
    (∃ s', try_frame_alloc_and_lock page_manager 1 10 scenario_A = .ok (some 0, s') ∧
      frame_alloc_and_lock page_manager 1 10 scenario_A = .ok (some 0, s') ∧
      sleeps s'.trace = [] ∧ attempts s'.trace = 1) :=
  ⟨(alloc_retry_bounded page_manager 1 10 scenario_E).2.1 ⟨rfl, Or.inr (by decide)⟩,
    ⟨_, rfl, rfl, rfl⟩,
    ⟨_, _, rfl, rfl,
      ((alloc_retry_bounded page_manager 1 10 scenario_G).2.2.2.1 1 _ rfl).2.2.2
        (by decide) 1 _ rfl⟩,
    ⟨_, rfl,
      ((alloc_retry_bounded page_manager 1 10 scenario_A).2.2.2.1 0 _ rfl).2.2.2
        (by decide) 0 _ rfl⟩⟩

/-- Scenario A: the frame returned by `frame_alloc_and_lock` is locked by the
caller and bound to the page. -/
theorem alloc_success_locked_scenario_A :
    ∃ s', frame_alloc_and_lock page_manager 1 10 scenario_A = .ok (some 0, s') ∧
      holds_frame 1 10 s' 0 ∧ s'.scan_lock.holder = none :=
  ⟨_, rfl, (alloc_success_locked page_manager 1 10 scenario_A).2 0 _ rfl⟩

/-! ## Theorems: second chance -/

theorem cursor_steps_distinct (h n i j : Nat) (hi : i < j) (hj : j < n) :
    (h + i) % n ≠ (h + j) % n := by
  intro heq
  have h1 : Nat.ModEq n (h + i) (h + j) := heq
  have h2 : Nat.ModEq n i j := Nat.ModEq.add_left_cancel' h h1
  have h3 : i % n = j % n := h2
  rw [Nat.mod_eq_of_lt (by omega), Nat.mod_eq_of_lt hj] at h3
  omega

theorem cursor_steps_cover (h n i : Nat) (hh : h < n) (hi : i < n) :
    ∃ j, j < n ∧ (h + j) % n = i := by
  refine ⟨(i + n - h) % n, Nat.mod_lt _ (by omega), ?_⟩
  rw [Nat.add_mod_mod]
  have : h + (i + n - h) = i + n := by omega
  rw [this, Nat.add_mod_right, Nat.mod_eq_of_lt hi]

theorem cleared_not_visited (t : List Frame) (h : Nat) (a : PageId → Bool) (p : PageId) :
    ∀ j, (∀ i, i < j → resident_page t ((h + i) % t.length) ≠ p) → cleared t h a j p = a p := by
  intro j
  induction j with
  | zero => intro _; rfl
  | succ j ih =>
    intro hnv
    simp only [cleared]
    rw [Function.update_noteq (fun heq => hnv j (Nat.lt_succ_self j) heq.symm)]
    exact ih (fun i hi => hnv i (Nat.lt_succ_of_lt hi))

theorem cleared_visited (t : List Frame) (h : Nat) (a : PageId → Bool) (p : PageId) :
    ∀ j, (∃ i, i < j ∧ resident_page t ((h + i) % t.length) = p) → cleared t h a j p = false := by
  intro j
  induction j with
  | zero =>
    intro hv
    obtain ⟨i, hi, _⟩ := hv
    omega
  | succ j ih =>
    intro hv
    obtain ⟨i, hi, hp⟩ := hv
    simp only [cleared]
    by_cases heq : p = resident_page t ((h + j) % t.length)
    · rw [heq, Function.update_same]
    · rw [Function.update_noteq heq]
      apply ih
      refine ⟨i, ?_, hp⟩
      rcases Nat.lt_succ_iff_lt_or_eq.mp hi with h1 | h1
      · exact h1
      · subst h1
        exact absurd hp.symm heq

theorem resident_page_eq (t : List Frame) (i : Nat) (g : Frame) (p : PageId)
    (hg : t[i]? = some g) (hp : g.page = some p) : resident_page t i = p := by
  simp [resident_page, hg, hp]

theorem queries_second_chance (t : List Frame) (h : Nat) :
    ∀ j, queries (second_chance_events t h j) =
      (List.range j).map (fun i => Event.accessed (resident_page t ((h + i) % t.length)) true) := by
  intro j
  induction j with
  | zero => rfl
  | succ j ih =>
    simp only [second_chance_events, queries_append, ih, List.range_succ, List.map_append]
    simp [queries]

theorem write_backs_second_chance (t : List Frame) (h : Nat) :
    ∀ j, write_backs (second_chance_events t h j) = [] := by
  intro j
  induction j with
  | zero => rfl
  | succ j ih =>
    simp only [second_chance_events, write_backs_append, ih]
    simp [write_backs]

/-- In a table of occupied, unlocked frames holding distinct pages that all
report "accessed recently", `j` visits of the eviction pass (at most one round)
pass over `j` frames, clearing the indicator of each. -/
theorem evict_pass_round (cur : Tid) (page : PageId) (s : FrameState PageStore)
    (hall : ∀ (j : Nat) (g : Frame),
      s.frame_table[j]? = some g → g.lock.holder = none ∧ g.page ≠ none)
    (hdistinct : ∀ (i j : Nat) (g g' : Frame), s.frame_table[i]? = some g →
      s.frame_table[j]? = some g' → g.page = g'.page → i = j)
    (hacc : ∀ (j : Nat) (g : Frame) (p : PageId), s.frame_table[j]? = some g →
      g.page = some p → s.pm.accessed p = true)
    (hh : s.hand < s.frame_table.length) :
    ∀ (j m : Nat), j ≤ s.frame_table.length →
      evict_pass page_manager cur page (m + j) s =
        evict_pass page_manager cur page m
          { s with
            hand := (s.hand + j) % s.frame_table.length
            pm := { s.pm with accessed := cleared s.frame_table s.hand s.pm.accessed j }
            trace := s.trace ++ second_chance_events s.frame_table s.hand j } := by
  intro j
  induction j with
  | zero =>
    intro m _
    simp [cleared, second_chance_events, Nat.mod_eq_of_lt hh]
  | succ j ih =>
    intro m hj
    have hstep : m + (j + 1) = (m + 1) + j := by omega
    rw [hstep, ih (m + 1) (by omega)]
    have hk : (s.hand + j) % s.frame_table.length < s.frame_table.length :=
      Nat.mod_lt _ (by omega)
    have hg : s.frame_table[(s.hand + j) % s.frame_table.length]?
        = some s.frame_table[(s.hand + j) % s.frame_table.length] :=
      List.getElem?_eq_getElem hk
    obtain ⟨hl, hp⟩ := hall _ _ hg
    obtain ⟨p, hp'⟩ := Option.ne_none_iff_exists'.mp hp
    have hrp := resident_page_eq _ _ _ _ hg hp'
    have hnv : ∀ i, i < j →
        resident_page s.frame_table ((s.hand + i) % s.frame_table.length) ≠ p := by
      intro i hi heq
      have hki : (s.hand + i) % s.frame_table.length < s.frame_table.length :=
        Nat.mod_lt _ (by omega)
      have hgi : s.frame_table[(s.hand + i) % s.frame_table.length]?
          = some s.frame_table[(s.hand + i) % s.frame_table.length] :=
        List.getElem?_eq_getElem hki
      obtain ⟨_, hpi⟩ := hall _ _ hgi
      obtain ⟨p2, hp2⟩ := Option.ne_none_iff_exists'.mp hpi
      have hrp2 := resident_page_eq _ _ _ _ hgi hp2
      rw [hrp2] at heq
      subst heq
      have := hdistinct _ _ _ _ hgi hg (by rw [hp2, hp'])
      exact cursor_steps_distinct s.hand s.frame_table.length i j hi (by omega) this
    have hA : page_manager.page_accessed_recently p
        { s.pm with accessed := cleared s.frame_table s.hand s.pm.accessed j }
        = (true, { s.pm with
            accessed := cleared s.frame_table s.hand s.pm.accessed (j + 1) }) := by
      simp only [page_manager, page_accessed_recently, cleared, hrp]
      rw [cleared_not_visited _ _ _ _ j hnv, hacc _ _ _ hg hp']
    rw [evict_pass_second_chance page_manager cur page m _ _ p _ hg hl hp' hA]
    simp only [second_chance_events, hrp, List.append_assoc, Nat.mod_add_mod]
    rfl

/-- C3 as stated fails.  From the table `frame_init` gives for two user pages,
two allocations for page 100, each followed by `frame_unlock`, reach a table
of two occupied, unlocked frames that both hold page 100, whose indicator is
set, with the cursor at 0 and write-back succeeding.  One attempt there clears
the indicator at frame 0, finds it clear at frame 1 and evicts frame 1: it
returns frame 1, not frame 0, after 2 queries, not 3, and leaves the cursor at
0, not 1. -/
theorem second_chance_shared_page_scenario_H :
    frame_init true [fun _ => 0, fun _ => 0] scenario_H.pm = .ok scenario_H ∧
    ∃ s s', FrameReach scenario_H s ∧
      s.frame_table = [frame_with 100, frame_with 100] ∧
      s.hand = 0 ∧ s.scan_lock.holder = none ∧
      s.pm.accessed 100 = true ∧ s.pm.write_back_ok 100 = true ∧
      try_frame_alloc_and_lock page_manager 1 200 s = .ok (some 1, s') ∧
      queries s'.trace = queries s.trace ++ [.accessed 100 true, .accessed 100 false] ∧
      write_backs s'.trace = write_backs s.trace ++ [.page_out 100 true] ∧
      s'.frame_table =
        [frame_with 100, { lock := ⟨some 1⟩, base := fun _ => 0, page := some 200 }] ∧
      s'.hand = 0 :=
  ⟨rfl, _, _,
    FrameReach.after_unlock 1 1 _ _
      (FrameReach.after_alloc 1 100 _ _ (some 1)
        (FrameReach.after_unlock 1 0 _ _
          (FrameReach.after_alloc 1 100 scenario_H _ (some 0) FrameReach.start rfl) rfl)
        rfl)
      rfl,
    rfl, rfl, rfl, rfl, rfl, rfl, rfl, rfl, rfl, rfl⟩

/-- C3, amended. Second chance: in a table of `n ≥ 1` occupied, unlocked frames
holding pairwise distinct pages that all report "accessed recently" (the query
clears the indicator and nothing sets it again), with the cursor at
`h = s.hand` and write-back of the page `q` in frame `h` succeeding, one
attempt visits frames `h, h+1, ..., h+n-1` (mod `n`), clearing each indicator
without evicting, and on visit `n+1` evicts frame `h`.  It returns frame `h`
bound to the new page and locked by the caller, makes exactly `n+1`
accessed-bit queries and exactly one write-back, and leaves the cursor at
`(h+1) mod n`. -/
theorem try_second_chance (cur : Tid) (pageX : PageId) (s : FrameState PageStore)
    (f : Frame) (q : PageId)
    (hscan : s.scan_lock.holder = none)
    (hall : ∀ (j : Nat) (g : Frame),
      s.frame_table[j]? = some g → g.lock.holder = none ∧ g.page ≠ none)
    (hdistinct : ∀ (i j : Nat) (g g' : Frame), s.frame_table[i]? = some g →
      s.frame_table[j]? = some g' → g.page = g'.page → i = j)
    (hf : s.frame_table[s.hand]? = some f) (hq : f.page = some q)
    (hacc : ∀ (j : Nat) (g : Frame) (p : PageId), s.frame_table[j]? = some g →
      g.page = some p → s.pm.accessed p = true)
    (hwb : s.pm.write_back_ok q = true) :
    ∃ s' es, (∀ e ∈ es, e.is_scan_op = true) ∧
      try_frame_alloc_and_lock page_manager cur pageX s = .ok (some s.hand, s') ∧
      s'.frame_table =
        s.frame_table.set s.hand { lock := ⟨some cur⟩, base := f.base, page := some pageX } ∧
      s'.scan_lock.holder = none ∧
      s'.hand = (s.hand + 1) % s.frame_table.length ∧
      s'.trace = (((s.trace ++ [.acquire .scan_lock]) ++ es) ++
        second_chance_events s.frame_table s.hand s.frame_table.length) ++
          [.try_acquire (.frame s.hand) true, .accessed q false, .release .scan_lock,
           .page_out q true] ∧
      queries s'.trace = queries s.trace ++
        (List.range s.frame_table.length).map
          (fun i => Event.accessed
            (resident_page s.frame_table ((s.hand + i) % s.frame_table.length)) true) ++
        [.accessed q false] ∧
      (queries s'.trace).length = (queries s.trace).length + (s.frame_table.length + 1) ∧
      write_backs s'.trace = write_backs s.trace ++ [.page_out q true] ∧
      (∀ (i : Nat) (g : Frame) (p : PageId), s.frame_table[i]? = some g → g.page = some p →
        s'.pm.accessed p = false) ∧
      (s'.pm.pages q).frame = none ∧
      (∀ p, p ≠ q → s'.pm.pages p = s.pm.pages p) := by
  have hi := getElem?_lt _ _ _ hf
  obtain ⟨es, hes, hrun⟩ := free_pass_none cur pageX s.frame_table.length 0
    { s with scan_lock := ⟨some cur⟩, trace := s.trace ++ [.acquire .scan_lock] }
    (by simp)
    (by
      intro j g _ h3 hfree
      exact (hall j g h3).2 hfree.2)
  have hbudget : s.frame_table.length * 2 = ((s.frame_table.length - 1) + 1) + s.frame_table.length := by
    omega
  have hround := evict_pass_round cur pageX
    { s with scan_lock := ⟨some cur⟩, trace := (s.trace ++ [.acquire .scan_lock]) ++ es }
    hall hdistinct hacc hi s.frame_table.length ((s.frame_table.length - 1) + 1) (Nat.le_refl _)
  have hback : (s.hand + s.frame_table.length) % s.frame_table.length = s.hand := by
    rw [Nat.add_mod_right, Nat.mod_eq_of_lt hi]
  simp only [hback] at hround
  have hrq : resident_page s.frame_table s.hand = q := resident_page_eq _ _ _ _ hf hq
  have hcl : cleared s.frame_table s.hand s.pm.accessed s.frame_table.length q = false := by
    apply cleared_visited
    refine ⟨0, by omega, ?_⟩
    rw [Nat.add_zero, Nat.mod_eq_of_lt hi]
    exact hrq
  have hA : page_manager.page_accessed_recently q
      { s.pm with accessed := cleared s.frame_table s.hand s.pm.accessed s.frame_table.length }
      = (false, { s.pm with
          accessed := Function.update
            (cleared s.frame_table s.hand s.pm.accessed s.frame_table.length) q false }) := by
    simp only [page_manager, page_accessed_recently, hcl]
  have hB : page_manager.page_out q
      { s.pm with
        accessed := Function.update
          (cleared s.frame_table s.hand s.pm.accessed s.frame_table.length) q false }
      = (true, { s.pm with
          accessed := Function.update
            (cleared s.frame_table s.hand s.pm.accessed s.frame_table.length) q false
          pages := Function.update s.pm.pages q { s.pm.pages q with frame := none } }) := by
    simp only [page_manager, page_out, hwb, if_true]
  have hvic := evict_pass_victim page_manager cur pageX (s.frame_table.length - 1)
    { s with
      scan_lock := ⟨some cur⟩
      pm := { s.pm with
        accessed := cleared s.frame_table s.hand s.pm.accessed s.frame_table.length }
      trace := ((s.trace ++ [.acquire .scan_lock]) ++ es) ++
        second_chance_events s.frame_table s.hand s.frame_table.length }
    f q _ _ hf (hall _ _ hf).1 hq hA hB
  refine ⟨{ s with
      hand := (s.hand + 1) % s.frame_table.length
      frame_table :=
        s.frame_table.set s.hand { lock := ⟨some cur⟩, base := f.base, page := some pageX }
      scan_lock := ⟨none⟩
      pm := { s.pm with
        accessed := Function.update
          (cleared s.frame_table s.hand s.pm.accessed s.frame_table.length) q false
        pages := Function.update s.pm.pages q { s.pm.pages q with frame := none } }
      trace := (((s.trace ++ [.acquire .scan_lock]) ++ es) ++
        second_chance_events s.frame_table s.hand s.frame_table.length) ++
          [.try_acquire (.frame s.hand) true, .accessed q false, .release .scan_lock,
           .page_out q true] }, es, hes, ?_, ?_⟩
  · simp only [try_frame_alloc_and_lock, lock_acquire, hscan, FrameState.frame_cnt]
    rw [hrun]
    simp only [hbudget]
    rw [hround]
    exact hvic
  · refine ⟨rfl, rfl, rfl, rfl, ?_, ?_, ?_, ?_, ?_, ?_⟩
    · simp only [queries_append, queries_scan_ops es hes, queries_second_chance]
      simp [queries]
    · simp only [queries_append, queries_scan_ops es hes, queries_second_chance]
      simp [queries]
    · simp only [write_backs_append, write_backs_scan_ops es hes, write_backs_second_chance]
      simp [write_backs]
    · intro i g p hg hp
      show Function.update
        (cleared s.frame_table s.hand s.pm.accessed s.frame_table.length) q false p = false
      by_cases hpq : p = q
      · rw [hpq, Function.update_same]
      · rw [Function.update_noteq hpq]
        apply cleared_visited
        obtain ⟨j, hj, hji⟩ := cursor_steps_cover s.hand s.frame_table.length i hi
          (getElem?_lt _ _ _ hg)
        exact ⟨j, hj, by rw [hji]; exact resident_page_eq _ _ _ _ hg hp⟩
    · show (Function.update s.pm.pages q { s.pm.pages q with frame := none } q).frame = none
      rw [Function.update_same]
    · intro p hp
      show Function.update s.pm.pages q { s.pm.pages q with frame := none } p = s.pm.pages p
      rw [Function.update_noteq hp]

/-- Scenario C: four occupied frames, all recently accessed, cursor at 2: the
attempt clears the four indicators and then evicts frame 2. -/
theorem try_second_chance_scenario_C :
    ∃ s', try_frame_alloc_and_lock page_manager 1 10 scenario_C = .ok (some 2, s') ∧
      queries s'.trace =
        [.accessed 102 true, .accessed 103 true, .accessed 100 true, .accessed 101 true,
         .accessed 102 false] ∧
      write_backs s'.trace = [.page_out 102 true] ∧
      s'.hand = 3 := by
  obtain ⟨s', es, _, h1, _, _, h4, _, h6, _, h8, _⟩ :=
    try_second_chance 1 10 scenario_C (frame_with 102) 102 rfl
      (by
        intro j g h
        rcases j with _ | _ | _ | _ | j
        all_goals simp [scenario_C, scenario_B, frame_with] at h
        all_goals subst h
        all_goals simp)
      (by
        intro i j g g' hg hg' hp
        rcases i with _ | _ | _ | _ | i
        all_goals simp [scenario_C, scenario_B, frame_with] at hg
        all_goals subst hg
        all_goals rcases j with _ | _ | _ | _ | j
        all_goals simp [scenario_C, scenario_B, frame_with] at hg'
        all_goals subst hg'
        all_goals simp at hp
        all_goals rfl)
      rfl rfl
      (by intro j g p _ _; rfl)
      rfl
  exact ⟨s', h1, h6, h8, h4⟩

/-! ## Theorems: the slot bitmap -/

theorem bitmap_scan_none (b : List Bool) : bitmap_scan b = none ↔ ∀ x ∈ b, x = true := by
  induction b with
  | nil => simp [bitmap_scan]
  | cons x t ih =>
    cases x with
    | false => simp [bitmap_scan]
    | true => simp [bitmap_scan, ih]

theorem bitmap_scan_some (b : List Bool) :
    ∀ idx, b[idx]? = some false → (∀ j, j < idx → b[j]? = some true) →
      bitmap_scan b = some idx := by
  induction b with
  | nil =>
    intro idx h _
    simp at h
  | cons x t ih =>
    intro idx h hlow
    cases idx with
    | zero =>
      simp only [List.getElem?_cons_zero, Option.some.injEq] at h
      subst h
      rfl
    | succ k =>
      have hx := hlow 0 (Nat.succ_pos k)
      simp only [List.getElem?_cons_zero, Option.some.injEq] at hx
      subst hx
      simp only [List.getElem?_cons_succ] at h
      have := ih k h (fun j hj => by
        have := hlow (j + 1) (by omega)
        simpa using this)
      simp [bitmap_scan, this]

theorem map_range_succ {α : Type} (g : Nat → α) (n : Nat) :
    (List.range (n + 1)).map g = g 0 :: (List.range n).map (fun j => g (j + 1)) := by
  simp [List.range_succ_eq_map, Function.comp_def]

theorem lock_eq_free (l : Lock) (h : l.holder = none) : l = ⟨none⟩ := by
  cases l
  simp only at h
  subst h
  rfl

/-! ## Theorems: `swap_out` -/

/-- With no free bit, `swap_out` returns false and only the trace grows. -/
theorem swap_out_no_slot (c : Consts) (cur : Tid) (p : PageId) (fi : Nat) (f : Frame)
    (s : SwapState)
    (hp : has_locked_frame cur p fi f s)
    (hlock : s.swap_lock.holder = none)
    (hfull : ∀ x ∈ s.swap_bitmap, x = true) :
    swap_out c cur p s =
      .ok (false, { s with trace := s.trace ++ [.acquire .swap_lock, .release .swap_lock] }) := by
  obtain ⟨h1, h2, h3⟩ := hp
  have hscan := (bitmap_scan_none s.swap_bitmap).mpr hfull
  have hl := lock_eq_free _ hlock
  simp only [swap_out, h1, h2, lock_held_by_current_thread, h3, lock_acquire, hlock,
    bitmap_scan_and_flip, hscan, lock_release, decide_True, Bool.not_true]
  simp only [Bool.false_eq_true, if_false]
  rw [← hl]

theorem swap_out_loop_spec (c : Consts) (p : PageId) :
    ∀ (n i : Nat) (s : SwapState) (d : Block) (fi : Nat) (f : Frame),
      s.swap_device = some d → (s.pages p).frame = some fi → s.frame_table[fi]? = some f →
      (s.pages p).sector + i + n ≤ d.size → d.size < 2 ^ 32 →
      ∃ d', swap_out_loop c p n i s =
          .ok { s with
                swap_device := some d'
                trace := s.trace ++
                  (List.range n).map (fun j => Event.block_write ((s.pages p).sector + i + j)) } ∧
        d'.size = d.size ∧
        (∀ j k, j < n → k < c.BLOCK_SECTOR_SIZE →
          d'.data ((s.pages p).sector + i + j) k = f.base ((i + j) * c.BLOCK_SECTOR_SIZE + k)) ∧
        (∀ sec, (sec < (s.pages p).sector + i ∨ (s.pages p).sector + i + n ≤ sec) →
          d'.data sec = d.data sec) := by
  intro n
  induction n with
  | zero =>
    intro i s d fi f hd _ _ _ _
    refine ⟨d, ?_, rfl, fun j k hj => by omega, fun _ _ => rfl⟩
    simp only [swap_out_loop, List.range_zero, List.map_nil, List.append_nil, ← hd]
  | succ n ih =>
    intro i s d fi f hd hfr hf hle hsz
    have hin : (s.pages p).sector + i < d.size := by omega
    have hmod : ((s.pages p).sector + i) % 2 ^ 32 = (s.pages p).sector + i :=
      Nat.mod_eq_of_lt (by omega)
    obtain ⟨d', hrun, hs', hw, hrest⟩ := ih (i + 1)
      { s with
        swap_device := some { d with
          data := Function.update d.data ((s.pages p).sector + i)
            (fun k => if k < c.BLOCK_SECTOR_SIZE then f.base (i * c.BLOCK_SECTOR_SIZE + k)
              else d.data ((s.pages p).sector + i) k) }
        trace := s.trace ++ [.block_write ((s.pages p).sector + i)] }
      _ fi f rfl hfr hf (by simp only; omega) hsz
    refine ⟨d', ?_, hs', ?_, ?_⟩
    · simp only [swap_out_loop, hd, hfr, hf, hmod, block_write, hin, if_true]
      rw [hrun]
      have hfun : (fun j => Event.block_write ((s.pages p).sector + i + (j + 1)))
          = (fun j => Event.block_write ((s.pages p).sector + (i + 1) + j)) := by
        funext j
        congr 1
        omega
      simp only [map_range_succ, hfun, List.append_assoc, List.singleton_append, Nat.add_zero]
    · intro j k hj hk
      cases j with
      | zero =>
        have h1 := hrest ((s.pages p).sector + i) (Or.inl (by simp only; omega))
        simp only [Nat.add_zero]
        rw [h1]
        simp only [Function.update_same, hk, if_true]
      | succ j =>
        have h1 := hw j k (by omega) hk
        simp only at h1
        have e1 : (s.pages p).sector + i + (j + 1) = (s.pages p).sector + (i + 1) + j := by omega
        have e2 : i + (j + 1) = i + 1 + j := by omega
        rw [e1, e2]
        exact h1
    · intro sec hsec
      have h1 := hrest sec (by
        simp only
        rcases hsec with h | h
        · left; omega
        · right; omega)
      rw [h1]
      simp only
      rw [Function.update_noteq]
      omega

/-- A free bit of a sized swap area lies on the device: there is a device, and
the slot's sectors end within it. -/
theorem sized_slot_on_device (c : Consts) (s : SwapState) (idx : Nat)
    (hsized : s.sized c) (hidx : idx < s.swap_bitmap.length) :
    ∃ d, s.swap_device = some d ∧ d.size < 2 ^ 32 ∧ 0 < c.SECTORS_PER_PAGE ∧
      idx * c.SECTORS_PER_PAGE + c.SECTORS_PER_PAGE ≤ d.size := by
  unfold SwapState.sized at hsized
  cases hd : s.swap_device with
  | none =>
    rw [hd] at hsized
    simp only at hsized
    rw [hsized] at hidx
    simp at hidx
  | some d =>
    rw [hd] at hsized
    simp only at hsized
    obtain ⟨h1, h2⟩ := hsized
    have hpos : 0 < c.SECTORS_PER_PAGE := by
      rcases Nat.eq_zero_or_pos c.SECTORS_PER_PAGE with h0 | h0
      · rw [h0, Nat.div_zero] at h2
        omega
      · exact h0
    refine ⟨d, rfl, h1, hpos, ?_⟩
    have h3 : idx + 1 ≤ d.size / c.SECTORS_PER_PAGE := by omega
    have h4 := (Nat.le_div_iff_mul_le hpos).mp h3
    have h5 : (idx + 1) * c.SECTORS_PER_PAGE
        = idx * c.SECTORS_PER_PAGE + c.SECTORS_PER_PAGE := by
      rw [Nat.add_mul, Nat.one_mul]
    omega

/-- With lowest free bit `idx`, `swap_out` takes slot `idx` and writes the
frame to its sectors. -/
theorem swap_out_slot (c : Consts) (cur : Tid) (p : PageId) (fi : Nat) (f : Frame)
    (s : SwapState) (idx : Nat)
    (hp : has_locked_frame cur p fi f s)
    (hlock : s.swap_lock.holder = none)
    (hsized : s.sized c)
    (hidx : s.swap_bitmap[idx]? = some false)
    (hlow : ∀ j, j < idx → s.swap_bitmap[j]? = some true) :
    ∃ s' d d', swap_out c cur p s = .ok (true, s') ∧
      s'.swap_bitmap = s.swap_bitmap.set idx true ∧
      s'.pages p =
        { s.pages p with
          sector := idx * c.SECTORS_PER_PAGE
          private_ := false, file := none, file_offset := 0, file_bytes := 0 } ∧
      (∀ p', p' ≠ p → s'.pages p' = s.pages p') ∧
      s'.frame_table = s.frame_table ∧
      s'.swap_lock = s.swap_lock ∧
      s.swap_device = some d ∧ s'.swap_device = some d' ∧ d'.size = d.size ∧
      (∀ i k, i < c.SECTORS_PER_PAGE → k < c.BLOCK_SECTOR_SIZE →
        d'.data (idx * c.SECTORS_PER_PAGE + i) k = f.base (i * c.BLOCK_SECTOR_SIZE + k)) ∧
      (∀ sec, (sec < idx * c.SECTORS_PER_PAGE ∨
          idx * c.SECTORS_PER_PAGE + c.SECTORS_PER_PAGE ≤ sec) → d'.data sec = d.data sec) ∧
      s'.trace = s.trace ++ [.acquire .swap_lock, .release .swap_lock] ++
        (List.range c.SECTORS_PER_PAGE).map
          (fun i => Event.block_write (idx * c.SECTORS_PER_PAGE + i)) := by
  obtain ⟨h1, h2, h3⟩ := hp
  have hscan := bitmap_scan_some s.swap_bitmap idx hidx hlow
  have hl := lock_eq_free _ hlock
  obtain ⟨d, hd, hsz, _, hfit⟩ := sized_slot_on_device c s idx hsized (getElem?_lt _ _ _ hidx)
  have hmod : (idx * c.SECTORS_PER_PAGE) % 2 ^ 32 = idx * c.SECTORS_PER_PAGE :=
    Nat.mod_eq_of_lt (by omega)
  obtain ⟨d', hrun, hs', hw, hrest⟩ := swap_out_loop_spec c p c.SECTORS_PER_PAGE 0
    { s with
      swap_bitmap := s.swap_bitmap.set idx true
      swap_lock := ⟨none⟩
      pages := Function.update s.pages p
        { s.pages p with sector := idx * c.SECTORS_PER_PAGE }
      trace := s.trace ++ [.acquire .swap_lock, .release .swap_lock] }
    d fi f hd (by simp [h1]) h2 (by simp; omega) hsz
  simp only [Function.update_same, Nat.add_zero, Nat.zero_add, h1] at hrun hw hrest
  refine ⟨{ s with
      swap_device := some d'
      swap_bitmap := s.swap_bitmap.set idx true
      swap_lock := ⟨none⟩
      pages := Function.update
        (Function.update s.pages p { s.pages p with sector := idx * c.SECTORS_PER_PAGE }) p
        { s.pages p with
          sector := idx * c.SECTORS_PER_PAGE
          private_ := false, file := none, file_offset := 0, file_bytes := 0 }
      trace := (s.trace ++ [.acquire .swap_lock, .release .swap_lock]) ++
        (List.range c.SECTORS_PER_PAGE).map
          (fun i => Event.block_write (idx * c.SECTORS_PER_PAGE + i)) }, d, d', ?_, ?_⟩
  · simp only [swap_out, h1, h2, lock_held_by_current_thread, h3, lock_acquire, hlock,
      bitmap_scan_and_flip, hscan, lock_release, decide_True, Bool.not_true, hmod]
    simp only [Bool.false_eq_true, if_false]
    rw [hrun]
    simp only [Function.update_same]
  · refine ⟨rfl, ?_, ?_, rfl, hl.symm, hd, rfl, hs', hw, hrest, rfl⟩
    · simp only [Function.update_same]
    · intro p' hp'
      simp only [Function.update_noteq hp']

/-- C7. With no free bit in the bitmap (in particular with an empty bitmap),
`swap_out` on a page whose frame the caller holds returns false and changes
nothing: the bitmap, every page's fields, every frame and its memory, the
device and the lock are as before, and the trace gains only the taking and
releasing of the bitmap lock, so no sector is written. -/
theorem swap_out_full_changes_nothing (c : Consts) (cur : Tid) (p : PageId) (fi : Nat)
    (f : Frame) (s : SwapState)
    (hp : has_locked_frame cur p fi f s)
    (hlock : s.swap_lock.holder = none)
    (hfull : ∀ x ∈ s.swap_bitmap, x = true) :
    swap_out c cur p s =
      .ok (false, { s with trace := s.trace ++ [.acquire .swap_lock, .release .swap_lock] }) := by
  obtain ⟨hframe, hentry, hheld⟩ := hp
  have hscan : bitmap_scan s.swap_bitmap = none := (bitmap_scan_none s.swap_bitmap).mpr hfull
  have hfree : s.swap_lock = ⟨none⟩ := lock_eq_free _ hlock
  simp only [swap_out, hframe, hentry, lock_held_by_current_thread, hheld, lock_acquire, hlock,
    bitmap_scan_and_flip, hscan, lock_release, decide_True, Bool.not_true]
  simp only [Bool.false_eq_true, if_false]
  rw [← hfree]

/-- Scenario D with both slots taken: `swap_out` of page 2 returns false and
changes nothing. -/
theorem swap_out_full_changes_nothing_scenario_D :
    swap_out small_consts 1 2 scenario_D_full =
      .ok (false, { scenario_D_full with
        trace := scenario_D_full.trace ++ [.acquire .swap_lock, .release .swap_lock] }) :=
  swap_out_full_changes_nothing small_consts 1 2 2
    { lock := ⟨some 1⟩, base := fun a => 20 + a, page := some 2 } scenario_D_full
    ⟨rfl, rfl, rfl⟩ rfl (by decide)

/-- C10. `swap_out` on success: in a swap area sized as `swap_init` sizes it, for
a page `p` whose frame the caller holds and a bitmap whose lowest free bit is
`idx`, `swap_out p` returns true; it sets bit `idx` and no other; `p`'s sector
becomes `idx * SECTORS_PER_PAGE`, its provenance is cleared and its frame
association kept; exactly `SECTORS_PER_PAGE` sectors are written, sector
`idx * SECTORS_PER_PAGE + i` receiving the frame's bytes from
`i * BLOCK_SECTOR_SIZE`; every other sector, every other page and every frame
(memory included) are as before, and the bitmap lock is free again. -/
theorem swap_out_success_postcondition (c : Consts) (cur : Tid) (p : PageId) (fi : Nat)
    (f : Frame) (s : SwapState) (idx : Nat)
    (hp : has_locked_frame cur p fi f s)
    (hlock : s.swap_lock.holder = none)
    (hsized : s.sized c)
    (hidx : s.swap_bitmap[idx]? = some false)
    (hlow : ∀ j, j < idx → s.swap_bitmap[j]? = some true) :
    ∃ s' d d', swap_out c cur p s = .ok (true, s') ∧
      s'.swap_bitmap = s.swap_bitmap.set idx true ∧
      s'.pages p =
        { s.pages p with
          sector := idx * c.SECTORS_PER_PAGE
          private_ := false, file := none, file_offset := 0, file_bytes := 0 } ∧
      (∀ p', p' ≠ p → s'.pages p' = s.pages p') ∧
      s'.frame_table = s.frame_table ∧
      s'.swap_lock = s.swap_lock ∧
      s.swap_device = some d ∧ s'.swap_device = some d' ∧ d'.size = d.size ∧
      (∀ i k, i < c.SECTORS_PER_PAGE → k < c.BLOCK_SECTOR_SIZE →
        d'.data (idx * c.SECTORS_PER_PAGE + i) k = f.base (i * c.BLOCK_SECTOR_SIZE + k)) ∧
      (∀ sec, (sec < idx * c.SECTORS_PER_PAGE ∨
          idx * c.SECTORS_PER_PAGE + c.SECTORS_PER_PAGE ≤ sec) → d'.data sec = d.data sec) ∧
      s'.trace = s.trace ++ [.acquire .swap_lock, .release .swap_lock] ++
        (List.range c.SECTORS_PER_PAGE).map
          (fun i => Event.block_write (idx * c.SECTORS_PER_PAGE + i)) :=
  swap_out_slot c cur p fi f s idx hp hlock hsized hidx hlow

/-- Scenario D with slot 0 taken: `swap_out` of page 1 takes slot 1, sets the
page's sector to 2 and writes sectors 2 and 3. -/
theorem swap_out_success_postcondition_scenario_D :
    ∃ s', swap_out small_consts 1 1 { scenario_D with swap_bitmap := [true, false] }
        = .ok (true, s') ∧
      s'.swap_bitmap = [true, true] ∧ (s'.pages 1).sector = 2 ∧
      s'.trace = [.acquire .swap_lock, .release .swap_lock, .block_write 2, .block_write 3] := by
  obtain ⟨s', _, _, h1, h2, h3, _, _, _, _, _, _, _, _, h12⟩ :=
    swap_out_success_postcondition small_consts 1 1 1
      { lock := ⟨some 1⟩, base := fun a => 10 + a, page := some 1 }
      { scenario_D with swap_bitmap := [true, false] } 1
      ⟨rfl, rfl, rfl⟩ rfl
      (by
        unfold SwapState.sized
        exact ⟨by decide, by decide⟩)
      rfl
      (by
        intro j hj
        have : j = 0 := by omega
        subst this
        rfl)
  exact ⟨s', h1, h2, by rw [h3]; rfl, h12⟩

/-! ## Theorems: swap without a device -/

theorem swap_out_empty_bitmap (c : Consts) (cur : Tid) (p : PageId) (s s' : SwapState)
    (r : Bool) (hb : s.swap_bitmap = []) (hlock : s.swap_lock.holder = none)
    (h : swap_out c cur p s = .ok (r, s')) :
    r = false ∧
      s' = { s with trace := s.trace ++ [.acquire .swap_lock, .release .swap_lock] } := by
  have hfree : s.swap_lock = ⟨none⟩ := lock_eq_free _ hlock
  unfold swap_out at h
  split at h
  · cases h
  · split at h
    · cases h
    · split at h
      · cases h
      · simp only [lock_acquire, hlock, hb, bitmap_scan_and_flip, bitmap_scan, lock_release,
          Except.ok.injEq, Prod.mk.injEq] at h
        obtain ⟨h1, h2⟩ := h
        refine ⟨h1.symm, ?_⟩
        rw [← h2, ← hfree, hb]

theorem swap_in_needs_device (c : Consts) (cur : Tid) (p : PageId) (s s' : SwapState)
    (hd : s.swap_device = none) (hb : s.swap_bitmap = [])
    (h : swap_in c cur p s = .ok s') : False := by
  unfold swap_in at h
  split at h
  · cases h
  · split at h
    · cases h
    · split at h
      · cases h
      · split at h
        · cases h
        · split at h
          · cases h
          · rename_i s1 hloop
            cases hn : c.SECTORS_PER_PAGE with
            | zero =>
              rw [hn] at hloop
              simp only [swap_in_loop, Except.ok.injEq] at hloop
              subst hloop
              simp [bitmap_reset, hb] at h
            | succ n =>
              rw [hn] at hloop
              simp [swap_in_loop, hd] at hloop

theorem swap_reach_disabled (c : Consts) (s0 s : SwapState) (hr : SwapReach c s0 s)
    (hd : s0.swap_device = none) (hb : s0.swap_bitmap = []) (hl : s0.swap_lock.holder = none) :
    s.swap_device = none ∧ s.swap_bitmap = [] ∧ s.swap_lock.holder = none := by
  induction hr with
  | start => exact ⟨hd, hb, hl⟩
  | after_out cur p s s' r _ hout ih =>
    obtain ⟨h1, h2, h3⟩ := ih
    obtain ⟨_, hs'⟩ := swap_out_empty_bitmap c cur p s s' r h2 h3 hout
    subst hs'
    exact ⟨h1, h2, h3⟩
  | after_in cur p s s' _ hin ih =>
    obtain ⟨h1, h2, _⟩ := ih
    exact (swap_in_needs_device c cur p s s' h1 h2 hin).elim
  | after_kernel s ft pg _ ih => exact ih

/-- C9. Missing swap device: `swap_init` with no swap device (and the bitmap
allocated) does not fail and creates a bitmap of size 0; in every state
reachable afterwards, `swap_out` on a page whose frame the caller holds returns
false, and every `swap_out` call that returns at all returns false, the state
differing only by the trace of the bitmap lock being taken and released. -/
theorem swap_disabled_without_device (c : Consts) (frame_table : List Frame)
    (pages : PageId → Page) :
    ∃ s0, swap_init c none true frame_table pages = .ok s0 ∧
      s0.swap_bitmap.length = 0 ∧
      ∀ s, SwapReach c s0 s →
        (∀ cur p fi f, has_locked_frame cur p fi f s →
          swap_out c cur p s = .ok (false,
            { s with trace := s.trace ++ [.acquire .swap_lock, .release .swap_lock] })) ∧
        (∀ cur p r s', swap_out c cur p s = .ok (r, s') →
          r = false ∧
            s' = { s with trace := s.trace ++ [.acquire .swap_lock, .release .swap_lock] }) := by
  refine ⟨_, rfl, rfl, ?_⟩
  intro s hr
  obtain ⟨_, h2, h3⟩ := swap_reach_disabled c _ s hr rfl rfl rfl
  refine ⟨?_, ?_⟩
  · intro cur p fi f hp
    exact swap_out_no_slot c cur p fi f s hp h3 (by rw [h2]; simp)
  · intro cur p r s' h
    exact swap_out_empty_bitmap c cur p s s' r h2 h3 h

/-- With no swap device and the frames and pages of scenario D, `swap_init`
succeeds, and `swap_out` of page 0, whose frame thread 1 holds, returns false
and changes nothing but the trace. -/
theorem swap_disabled_without_device_scenario :
    ∃ s0, swap_init small_consts none true scenario_D.frame_table scenario_D.pages = .ok s0 ∧
      s0.swap_bitmap = [] ∧
      swap_out small_consts 1 0 s0 = .ok (false,
        { s0 with trace := s0.trace ++ [.acquire .swap_lock, .release .swap_lock] }) := by
  obtain ⟨s0, h0, _, h⟩ :=
    swap_disabled_without_device small_consts scenario_D.frame_table scenario_D.pages
  simp only [swap_init, if_true, Except.ok.injEq] at h0
  subst h0
  exact ⟨_, rfl, rfl, (h _ SwapReach.start).1 1 0 0 _ ⟨rfl, rfl, rfl⟩⟩

/-! ## Theorems: filling the swap area -/

theorem set_replicate_boundary (k n : Nat) :
    (List.replicate k true ++ List.replicate (n + 1) false).set k true
      = List.replicate (k + 1) true ++ List.replicate n false := by
  induction k with
  | zero => simp [List.replicate_succ]
  | succ k ih =>
    rw [List.replicate_succ, List.cons_append, List.set_cons_succ, ih]
    simp [List.replicate_succ]

theorem sized_of_same_size (c : Consts) (s s' : SwapState) (d d' : Block)
    (hd : s.swap_device = some d) (hd' : s'.swap_device = some d') (hsz : d'.size = d.size)
    (hlen : s'.swap_bitmap.length = s.swap_bitmap.length) (h : s.sized c) : s'.sized c := by
  unfold SwapState.sized at h ⊢
  rw [hd] at h
  rw [hd']
  simp only at h ⊢
  rw [hsz, hlen]
  exact h

/-- From a bitmap whose first `k` bits are taken and whose other bits are free,
`swap_out` of one page after another takes slots `k, k+1, ...` in call order. -/
theorem swap_out_each_fills (c : Consts) (cur : Tid) :
    ∀ (ps : List PageId) (k : Nat) (s : SwapState),
      s.sized c → s.swap_lock.holder = none →
      s.swap_bitmap = List.replicate k true ++ List.replicate ps.length false →
      ps.Nodup →
      (∀ p ∈ ps, ∃ fi f, has_locked_frame cur p fi f s) →
      ∃ s', swap_out_each c cur ps s = .ok (List.replicate ps.length true, s') ∧
        s'.swap_bitmap = List.replicate (k + ps.length) true ∧
        s'.swap_lock.holder = none ∧
        s'.frame_table = s.frame_table ∧
        (∀ p, (s'.pages p).frame = (s.pages p).frame) ∧
        (∀ j p, ps[j]? = some p → (s'.pages p).sector = (k + j) * c.SECTORS_PER_PAGE) ∧
        (∀ p, p ∉ ps → s'.pages p = s.pages p) := by
  intro ps
  induction ps with
  | nil =>
    intro k s _ hl hb _ _
    refine ⟨s, rfl, ?_, hl, rfl, fun _ => rfl, ?_, fun _ _ => rfl⟩
    · simpa using hb
    · intro j p hj
      simp at hj
  | cons p t ih =>
    intro k s hsized hl hb hnd hfr
    obtain ⟨fi, f, hp⟩ := hfr p (List.mem_cons_self p t)
    have hidx : s.swap_bitmap[k]? = some false := by
      rw [hb, List.getElem?_append_right (by simp)]
      simp [List.getElem?_replicate]
    have hlow : ∀ j, j < k → s.swap_bitmap[j]? = some true := by
      intro j hj
      rw [hb, List.getElem?_append_left (by simpa using hj)]
      simp [List.getElem?_replicate, hj]
    obtain ⟨s1, d, d', hout, hbm, hpg, hothers, hft, hlk, hd, hd', hsz, _, _, _⟩ :=
      swap_out_slot c cur p fi f s k hp hl hsized hidx hlow
    have hframe1 : ∀ p', (s1.pages p').frame = (s.pages p').frame := by
      intro p'
      by_cases hpp : p' = p
      · subst hpp
        rw [hpg]
      · rw [hothers p' hpp]
    have hb1 : s1.swap_bitmap = List.replicate (k + 1) true ++ List.replicate t.length false := by
      rw [hbm, hb]
      exact set_replicate_boundary k t.length
    have hsized1 : s1.sized c :=
      sized_of_same_size c s s1 d d' hd hd' hsz (by rw [hbm]; simp) hsized
    have hl1 : s1.swap_lock.holder = none := by rw [hlk]; exact hl
    obtain ⟨s', hrun, g1, g2, g3, g4, g5, g6⟩ := ih (k + 1) s1 hsized1 hl1 hb1
      (List.nodup_cons.mp hnd).2
      (by
        intro p' hp'
        obtain ⟨fi', f', h1, h2, h3⟩ := hfr p' (List.mem_cons_of_mem p hp')
        exact ⟨fi', f', by rw [hframe1]; exact h1, by rw [hft]; exact h2, h3⟩)
    refine ⟨s', ?_, ?_, g2, by rw [g3, hft], fun p' => by rw [g4, hframe1], ?_, ?_⟩
    · simp only [swap_out_each, hout, hrun, List.length_cons, List.replicate_succ]
    · rw [g1]
      congr 1
      simp only [List.length_cons]
      omega
    · intro j p' hj
      cases j with
      | zero =>
        simp only [List.getElem?_cons_zero, Option.some.injEq] at hj
        subst hj
        rw [g6 p (List.nodup_cons.mp hnd).1, hpg]
        simp
      | succ j =>
        simp only [List.getElem?_cons_succ] at hj
        rw [g5 j p' hj]
        congr 1
        omega
    · intro p' hp'
      have h1 : p' ≠ p := fun h => hp' (h ▸ List.mem_cons_self p t)
      have h2 : p' ∉ t := fun h => hp' (List.mem_cons_of_mem p h)
      rw [g6 p' h2, hothers p' h1]

/-- C8. Swap capacity: from a swap area of exactly `N` slots, all free, `N`
consecutive `swap_out` calls on `N` distinct pages whose frames the caller
holds all succeed; the `j`-th call (from 0) is assigned slot `j`, so the slots
are pairwise distinct; and a further `swap_out` before any `swap_in` returns
false and leaves the bitmap (and everything but the trace) unchanged. -/
theorem swap_capacity (c : Consts) (cur : Tid) (N : Nat) (ps : List PageId) (q : PageId)
    (s : SwapState)
    (hsized : s.sized c) (hlock : s.swap_lock.holder = none)
    (hfree : s.swap_bitmap = List.replicate N false)
    (hlen : ps.length = N) (hnd : ps.Nodup)
    (hfr : ∀ p ∈ ps, ∃ fi f, has_locked_frame cur p fi f s)
    (hq : ∃ fi f, has_locked_frame cur q fi f s) :
    ∃ s', swap_out_each c cur ps s = .ok (List.replicate N true, s') ∧
      (∀ (j : Nat) (p : PageId), ps[j]? = some p →
        (s'.pages p).sector = j * c.SECTORS_PER_PAGE) ∧
      (∀ (i j : Nat) (p p' : PageId), ps[i]? = some p → ps[j]? = some p' → i ≠ j →
        (s'.pages p).sector ≠ (s'.pages p').sector) ∧
      s'.swap_bitmap = List.replicate N true ∧
      swap_out c cur q s' = .ok (false,
        { s' with trace := s'.trace ++ [.acquire .swap_lock, .release .swap_lock] }) := by
  subst hlen
  obtain ⟨s', hrun, g1, g2, g3, g4, g5, _⟩ := swap_out_each_fills c cur ps 0 s hsized hlock
    (by simpa using hfree) hnd hfr
  have hsec : ∀ j p, ps[j]? = some p → (s'.pages p).sector = j * c.SECTORS_PER_PAGE := by
    intro j p hj
    rw [g5 j p hj, Nat.zero_add]
  obtain ⟨fi, f, h1, h2, h3⟩ := hq
  refine ⟨s', hrun, hsec, ?_, by simpa using g1, ?_⟩
  · intro i j p p' hi hj hij heq
    rw [hsec i p hi, hsec j p' hj] at heq
    have hi' := getElem?_lt _ _ _ hi
    obtain ⟨_, _, _, hpos, _⟩ := sized_slot_on_device c s i hsized (by rw [hfree]; simpa using hi')
    exact hij (Nat.eq_of_mul_eq_mul_right hpos heq)
  · apply swap_out_no_slot c cur q fi f s' ⟨by rw [g4]; exact h1, by rw [g3]; exact h2, h3⟩ g2
    intro x hx
    rw [g1] at hx
    exact (List.mem_replicate.mp hx).2

/-- Scenario D: with 2 slots, `swap_out` of pages 0 and 1 succeeds with slots
0 and 1 (sectors 0 and 2), and `swap_out` of page 2 then returns false. -/
theorem swap_capacity_scenario_D :
    ∃ s', swap_out_each small_consts 1 [0, 1] scenario_D = .ok ([true, true], s') ∧
      (s'.pages 0).sector = 0 ∧ (s'.pages 1).sector = 2 ∧
      s'.swap_bitmap = [true, true] ∧
      swap_out small_consts 1 2 s' = .ok (false,
        { s' with trace := s'.trace ++ [.acquire .swap_lock, .release .swap_lock] }) := by
  obtain ⟨s', h1, h2, _, h4, h5⟩ := swap_capacity small_consts 1 2 [0, 1] 2 scenario_D
    (by
      unfold SwapState.sized
      exact ⟨by decide, by decide⟩)
    rfl rfl rfl (by decide)
    (by
      intro p hp
      simp only [List.mem_cons, List.mem_singleton, List.not_mem_nil, or_false] at hp
      rcases hp with rfl | rfl
      · exact ⟨0, _, rfl, rfl, rfl⟩
      · exact ⟨1, _, rfl, rfl, rfl⟩)
    ⟨2, _, rfl, rfl, rfl⟩
  exact ⟨s', h1, h2 0 0 rfl, h2 1 1 rfl, h4, h5⟩

/-! ## Theorems: `swap_in` and the round trip -/

theorem lowest_free_bit (b : List Bool) (h : false ∈ b) :
    ∃ idx : Nat, b[idx]? = some false ∧ ∀ j : Nat, j < idx → b[j]? = some true := by
  induction b with
  | nil => simp at h
  | cons x t ih =>
    cases x with
    | false => exact ⟨0, by simp, fun j hj => by omega⟩
    | true =>
      have ht : false ∈ t := by simpa using h
      obtain ⟨idx, h1, h2⟩ := ih ht
      refine ⟨idx + 1, by simpa using h1, ?_⟩
      intro j hj
      cases j with
      | zero => simp
      | succ j =>
        simp only [List.getElem?_cons_succ]
        exact h2 j (by omega)

theorem swap_in_loop_spec (c : Consts) (p : PageId) :
    ∀ (n i : Nat) (s : SwapState) (d : Block) (fi : Nat) (f : Frame),
      s.swap_device = some d → (s.pages p).frame = some fi → s.frame_table[fi]? = some f →
      (s.pages p).sector + i + n ≤ d.size → d.size < 2 ^ 32 →
      ∃ m, swap_in_loop c p n i s =
          .ok { s with
                frame_table := s.frame_table.set fi { f with base := m }
                trace := s.trace ++
                  (List.range n).map (fun j => Event.block_read ((s.pages p).sector + i + j)) } ∧
        (∀ j k, j < n → k < c.BLOCK_SECTOR_SIZE →
          m ((i + j) * c.BLOCK_SECTOR_SIZE + k) = d.data ((s.pages p).sector + i + j) k) ∧
        (∀ a, (a < i * c.BLOCK_SECTOR_SIZE ∨ (i + n) * c.BLOCK_SECTOR_SIZE ≤ a) →
          m a = f.base a) := by
  intro n
  induction n with
  | zero =>
    intro i s d fi f _ _ hf _ _
    refine ⟨f.base, ?_, fun j k hj => by omega, fun _ _ => rfl⟩
    simp only [swap_in_loop, List.range_zero, List.map_nil, List.append_nil,
      set_same _ _ _ hf]
  | succ n ih =>
    intro i s d fi f hd hfr hf hle hsz
    have hfi := getElem?_lt _ _ _ hf
    have hin : (s.pages p).sector + i < d.size := by omega
    have hmod : ((s.pages p).sector + i) % 2 ^ 32 = (s.pages p).sector + i :=
      Nat.mod_eq_of_lt (by omega)
    have hmul : (i + 1) * c.BLOCK_SECTOR_SIZE = i * c.BLOCK_SECTOR_SIZE + c.BLOCK_SECTOR_SIZE := by
      rw [Nat.add_mul, Nat.one_mul]
    obtain ⟨m, hrun, hr, hrest⟩ := ih (i + 1)
      { s with
        frame_table := s.frame_table.set fi
          { f with
            base := fun a =>
              if i * c.BLOCK_SECTOR_SIZE ≤ a ∧ a < i * c.BLOCK_SECTOR_SIZE + c.BLOCK_SECTOR_SIZE
              then d.data ((s.pages p).sector + i) (a - i * c.BLOCK_SECTOR_SIZE) else f.base a }
        trace := s.trace ++ [.block_read ((s.pages p).sector + i)] }
      d fi
      { f with
        base := fun a =>
          if i * c.BLOCK_SECTOR_SIZE ≤ a ∧ a < i * c.BLOCK_SECTOR_SIZE + c.BLOCK_SECTOR_SIZE
          then d.data ((s.pages p).sector + i) (a - i * c.BLOCK_SECTOR_SIZE) else f.base a }
      hd hfr (List.getElem?_set_self hfi) (by simp only; omega) hsz
    refine ⟨m, ?_, ?_, ?_⟩
    · simp only [swap_in_loop, hd, hfr, hf, hmod, block_read, hin, if_true]
      simp only [hd] at hrun
      rw [hrun]
      have hfun : (fun j => Event.block_read ((s.pages p).sector + i + (j + 1)))
          = (fun j => Event.block_read ((s.pages p).sector + (i + 1) + j)) := by
        funext j
        congr 1
        omega
      simp only [map_range_succ, hfun, List.append_assoc, List.singleton_append, Nat.add_zero,
        List.set_set]
    · intro j k hj hk
      cases j with
      | zero =>
        have h1 := hrest (i * c.BLOCK_SECTOR_SIZE + k) (Or.inl (by rw [hmul]; omega))
        simp only [Nat.add_zero]
        rw [h1]
        simp only
        rw [if_pos ⟨by omega, by omega⟩]
        congr 1
        omega
      | succ j =>
        have h1 := hr j k (by omega) hk
        simp only at h1
        have e1 : (s.pages p).sector + i + (j + 1) = (s.pages p).sector + (i + 1) + j := by omega
        have e2 : i + (j + 1) = i + 1 + j := by omega
        rw [e1, e2]
        exact h1
    · intro a ha
      have hmul2 : (i + 1 + n) * c.BLOCK_SECTOR_SIZE
          = (i + (n + 1)) * c.BLOCK_SECTOR_SIZE := by
        congr 1
        omega
      have hge : (i + 1) * c.BLOCK_SECTOR_SIZE ≤ (i + (n + 1)) * c.BLOCK_SECTOR_SIZE :=
        Nat.mul_le_mul_right _ (by omega)
      have h1 := hrest a (by
        rcases ha with h | h
        · left; rw [hmul]; omega
        · right; rw [hmul2]; exact h)
      rw [h1]
      simp only
      rw [if_neg]
      intro hcon
      rcases ha with h | h
      · omega
      · rw [hmul] at hge
        omega

/-- What `swap_in` does when its assertions hold and the page's sectors lie on
the device: it reads the sectors into the frame, clears the slot's bit and
resets the page's sector. -/
theorem swap_in_run (c : Consts) (cur : Tid) (p : PageId) (fi : Nat) (g : Frame)
    (t : SwapState) (d : Block)
    (hp : has_locked_frame cur p fi g t)
    (hd : t.swap_device = some d) (hsz : d.size < 2 ^ 32)
    (hne : (t.pages p).sector ≠ NO_SECTOR)
    (hfit : (t.pages p).sector + c.SECTORS_PER_PAGE ≤ d.size)
    (hbit : (t.pages p).sector / c.SECTORS_PER_PAGE < t.swap_bitmap.length) :
    ∃ m, swap_in c cur p t =
        .ok { t with
              frame_table := t.frame_table.set fi { g with base := m }
              swap_bitmap := t.swap_bitmap.set ((t.pages p).sector / c.SECTORS_PER_PAGE) false
              pages := Function.update t.pages p { t.pages p with sector := NO_SECTOR }
              trace := t.trace ++
                (List.range c.SECTORS_PER_PAGE).map
                  (fun j => Event.block_read ((t.pages p).sector + j)) } ∧
      (∀ j k, j < c.SECTORS_PER_PAGE → k < c.BLOCK_SECTOR_SIZE →
        m (j * c.BLOCK_SECTOR_SIZE + k) = d.data ((t.pages p).sector + j) k) ∧
      (∀ a, c.SECTORS_PER_PAGE * c.BLOCK_SECTOR_SIZE ≤ a → m a = g.base a) := by
  obtain ⟨h1, h2, h3⟩ := hp
  obtain ⟨m, hrun, hr, hrest⟩ := swap_in_loop_spec c p c.SECTORS_PER_PAGE 0 t d fi g hd h1 h2
    (by omega) hsz
  simp only [Nat.add_zero, Nat.zero_add] at hrun hr hrest
  refine ⟨m, ?_, hr, fun a ha => hrest a (Or.inr ha)⟩
  simp only [swap_in, h1, h2, lock_held_by_current_thread, h3, decide_True, Bool.not_true,
    Bool.false_eq_true, if_false, hne, hrun, bitmap_reset, hbit, if_true]

/-- C6. Swap round trip: in a swap area sized as `swap_init` sizes it, with the
sector size dividing the page size, for a page `p` whose frame the caller holds
and a bitmap with at least one free slot, `swap_out p` succeeds, and whatever
is then written to the frame's memory, `swap_in p` returns with the frame's
`PGSIZE` bytes equal to those it held when `swap_out` was called, the bitmap
equal to the bitmap before `swap_out`, and `p`'s sector reference equal to
the sentinel `(block_sector_t) -1`. -/
theorem swap_round_trip (c : Consts) (cur : Tid) (p : PageId) (fi : Nat) (f : Frame)
    (s : SwapState)
    (hdiv : c.BLOCK_SECTOR_SIZE ∣ c.PGSIZE)
    (hp : has_locked_frame cur p fi f s)
    (hlock : s.swap_lock.holder = none)
    (hsized : s.sized c)
    (hfree : false ∈ s.swap_bitmap) :
    ∃ s1, swap_out c cur p s = .ok (true, s1) ∧
      ∀ m : Nat → Nat,
        ∃ s2 f2,
          swap_in c cur p { s1 with frame_table := s1.frame_table.set fi { f with base := m } }
            = .ok s2 ∧
          s2.frame_table[fi]? = some f2 ∧
          (∀ a, a < c.PGSIZE → f2.base a = f.base a) ∧
          s2.swap_bitmap = s.swap_bitmap ∧
          (s2.pages p).sector = NO_SECTOR := by
  obtain ⟨idx, hidx, hlow⟩ := lowest_free_bit s.swap_bitmap hfree
  have hilt := getElem?_lt _ _ _ hidx
  obtain ⟨s1, d, d', hout, hbm, hpg, _, hft, _, hd, hd', hsz, hw, _, _⟩ :=
    swap_out_slot c cur p fi f s idx hp hlock hsized hidx hlow
  obtain ⟨d0, hd0, hlt, hpos, hfit⟩ := sized_slot_on_device c s idx hsized hilt
  rw [hd] at hd0
  cases hd0
  obtain ⟨h1, h2, h3⟩ := hp
  have hfi := getElem?_lt _ _ _ h2
  have hsec : (s1.pages p).sector = idx * c.SECTORS_PER_PAGE := by rw [hpg]
  have hcover : c.SECTORS_PER_PAGE * c.BLOCK_SECTOR_SIZE = c.PGSIZE :=
    Nat.div_mul_cancel hdiv
  have hbpos : 0 < c.BLOCK_SECTOR_SIZE := by
    rcases Nat.eq_zero_or_pos c.BLOCK_SECTOR_SIZE with h0 | h0
    · unfold Consts.SECTORS_PER_PAGE at hpos
      rw [h0, Nat.div_zero] at hpos
      omega
    · exact h0
  refine ⟨s1, hout, ?_⟩
  intro m
  obtain ⟨m', hin, hr, _⟩ := swap_in_run c cur p fi { f with base := m }
    { s1 with frame_table := s1.frame_table.set fi { f with base := m } } d'
    ⟨by simp only; rw [hpg]; exact h1,
     by simp only; rw [hft]; exact List.getElem?_set_self hfi,
     h3⟩
    hd' (by rw [hsz]; exact hlt)
    (by
      simp only
      rw [hsec]
      unfold NO_SECTOR
      omega)
    (by simp only; rw [hsec, hsz]; exact hfit)
    (by
      simp only
      rw [hsec, Nat.mul_div_cancel _ hpos, hbm]
      simpa using hilt)
  refine ⟨_, { lock := f.lock, base := m', page := f.page }, hin, ?_, ?_, ?_, ?_⟩
  · simp only
    rw [List.set_set, hft]
    exact List.getElem?_set_self hfi
  · intro a ha
    simp only
    have hlt1 : a / c.BLOCK_SECTOR_SIZE < c.SECTORS_PER_PAGE := by
      rw [Nat.div_lt_iff_lt_mul hbpos, hcover]
      exact ha
    have hlt2 : a % c.BLOCK_SECTOR_SIZE < c.BLOCK_SECTOR_SIZE := Nat.mod_lt _ hbpos
    have hsplit : a / c.BLOCK_SECTOR_SIZE * c.BLOCK_SECTOR_SIZE + a % c.BLOCK_SECTOR_SIZE = a :=
      Nat.div_add_mod' a c.BLOCK_SECTOR_SIZE
    have h5 := hr (a / c.BLOCK_SECTOR_SIZE) (a % c.BLOCK_SECTOR_SIZE) hlt1 hlt2
    simp only at h5
    rw [hsplit, hsec, hw _ _ hlt1 hlt2, hsplit] at h5
    exact h5
  · simp only
    rw [hsec, Nat.mul_div_cancel _ hpos, hbm, List.set_set]
    exact set_same _ _ _ hidx
  · simp only [Function.update_same]

/-- Scenario D: page 1 is swapped out to slot 0, its frame is overwritten with
zeros, and `swap_in` brings back the frame's 4 bytes, frees the slot and
resets the page's sector. -/
theorem swap_round_trip_scenario_D :
    ∃ s1, swap_out small_consts 1 1 scenario_D = .ok (true, s1) ∧
      ∃ s2 f2,
        swap_in small_consts 1 1
          { s1 with
            frame_table := s1.frame_table.set 1
              { lock := ⟨some 1⟩, base := fun _ => 0, page := some 1 } } = .ok s2 ∧
        s2.frame_table[1]? = some f2 ∧
        (∀ a, a < 4 → f2.base a = 10 + a) ∧
        s2.swap_bitmap = [false, false] ∧
        (s2.pages 1).sector = NO_SECTOR := by
  obtain ⟨s1, h1, h2⟩ := swap_round_trip small_consts 1 1 1
    { lock := ⟨some 1⟩, base := fun a => 10 + a, page := some 1 } scenario_D
    (by decide) ⟨rfl, rfl, rfl⟩ rfl
    (by
      unfold SwapState.sized
      exact ⟨by decide, by decide⟩)
    (by decide)
  exact ⟨s1, h1, h2 (fun _ => 0)⟩

/-! ## Theorems: reading the trace of a scan -/

theorem visits_append (a b : List Event) : visits (a ++ b) = visits a ++ visits b := by
  simp [visits]

theorem lock_state_append (l : LockName) (h : Bool) (a b : List Event) :
    lock_state l h (a ++ b) = lock_state l (lock_state l h a) b := by
  simp [lock_state, List.foldl_append]

theorem io_free_append (l : LockName) :
    ∀ (a b : List Event) (h : Bool),
      io_free l h (a ++ b) = (io_free l h a && io_free l (lock_state l h a) b) := by
  intro a
  induction a with
  | nil => intro b h; simp [io_free, lock_state]
  | cons e t ih =>
    intro b h
    have := ih b (lock_step l h e)
    simp only [lock_state] at this
    simp only [List.cons_append, io_free, lock_state, List.foldl_cons, Bool.and_assoc]
    rw [← this]
    rfl

theorem frame_step_scan_lock (e : Event) (he : e.is_frame_step = true) (h : Bool) :
    lock_step .scan_lock h e = h ∧ e.is_io = false ∧ e ≠ .acquire .scan_lock ∧
      e ≠ .release .scan_lock := by
  cases e with
  | try_acquire l ok =>
    cases l <;> simp_all [Event.is_frame_step, lock_step, Event.is_io]
  | release l =>
    cases l <;> simp_all [Event.is_frame_step, lock_step, Event.is_io]
  | accessed p r => simp [lock_step, Event.is_io]
  | acquire l => simp [Event.is_frame_step] at he
  | page_out p ok => simp [Event.is_frame_step] at he
  | sleep ms => simp [Event.is_frame_step] at he
  | block_read x => simp [Event.is_frame_step] at he
  | block_write x => simp [Event.is_frame_step] at he

theorem frame_steps_scan_lock (es : List Event) (hes : ∀ e ∈ es, e.is_frame_step = true) :
    ∀ h : Bool, lock_state .scan_lock h es = h ∧ io_free .scan_lock h es = true ∧
      es.count (.acquire .scan_lock) = 0 ∧ es.count (.release .scan_lock) = 0 := by
  induction es with
  | nil => intro h; simp [lock_state, io_free]
  | cons e t ih =>
    intro h
    obtain ⟨h1, h2, h3, h4⟩ := frame_step_scan_lock e (hes e (List.mem_cons_self e t)) h
    obtain ⟨g1, g2, g3, g4⟩ := ih (fun x hx => hes x (List.mem_cons_of_mem e hx)) h
    refine ⟨?_, ?_, ?_, ?_⟩
    · simp only [lock_state, List.foldl_cons, h1]
      exact g1
    · simp only [io_free, h1, h2, Bool.false_and, Bool.not_false, Bool.true_and]
      exact g2
    · rw [List.count_cons, g3]
      simp [h3]
    · rw [List.count_cons, g4]
      simp [h4]

theorem frame_steps_no_write_back (es : List Event)
    (hes : ∀ e ∈ es, e.is_frame_step = true) : write_backs es = [] := by
  unfold write_backs
  rw [List.filter_eq_nil_iff]
  intro e he
  have := hes e he
  cases e <;> simp_all [Event.is_frame_step]

theorem in_attempt_of_frame_step (e : Event) (h : e.is_frame_step = true) :
    e.in_attempt = true := by
  cases e with
  | try_acquire l ok => rfl
  | release l => rfl
  | accessed p r => rfl
  | acquire l => simp [Event.is_frame_step] at h
  | page_out p ok => simp [Event.is_frame_step] at h
  | sleep ms => simp [Event.is_frame_step] at h
  | block_read x => simp [Event.is_frame_step] at h
  | block_write x => simp [Event.is_frame_step] at h

/-! ## Theorems: the shape of every run of the two passes -/

/-- Every returning run of the free-frame pass from index `i`: it visits frames
`i, i+1, ...` in order, changing nothing, and either ends after all `n`
remaining frames or stops at the first free frame `i + m`, which it claims. -/
theorem free_pass_shape {σ : Type} (cur : Tid) (page : PageId) :
    ∀ (n i : Nat) (s : FrameState σ) (r : Option Nat) (s' : FrameState σ),
      free_pass cur page n i s = .ok (r, s') →
      ∃ es m, (∀ e ∈ es, e.is_frame_step = true) ∧
        visits es = (List.range m).map (fun j => i + j) ∧
        s'.hand = s.hand ∧ s'.pm = s.pm ∧
        ((r = none ∧ m = n ∧ s'.frame_table = s.frame_table ∧ s'.scan_lock = s.scan_lock ∧
            s'.trace = s.trace ++ es) ∨
         (∃ f, r = some (i + m) ∧ m < n ∧ s.frame_table[i + m]? = some f ∧ f.is_free ∧
            s'.frame_table = s.frame_table.set (i + m)
              { lock := ⟨some cur⟩, base := f.base, page := some page } ∧
            s'.scan_lock = ⟨none⟩ ∧
            s'.trace = s.trace ++ es ++
              [.try_acquire (.frame (i + m)) true, .release .scan_lock])) := by
  intro n
  induction n with
  | zero =>
    intro i s r s' h
    simp only [free_pass, Except.ok.injEq, Prod.mk.injEq] at h
    obtain ⟨rfl, rfl⟩ := h
    exact ⟨[], 0, by simp, rfl, rfl, rfl, Or.inl ⟨rfl, rfl, rfl, rfl, by simp⟩⟩
  | succ n ih =>
    intro i s r s' h
    simp only [free_pass] at h
    split at h
    · cases h
    · rename_i f hf
      have hshift : (fun j => i + (j + 1)) = (fun j => i + 1 + j) := by
        funext j
        omega
      split at h
      · obtain ⟨es, m, h1, h2, h3, h4, h5⟩ := ih _ _ _ _ h
        have e1 : i + 1 + m = i + (m + 1) := by omega
        refine ⟨.try_acquire (.frame i) false :: es, m + 1, ?_, ?_, h3, h4, ?_⟩
        · intro e he
          simp only [List.mem_cons] at he
          rcases he with rfl | he
          · rfl
          · exact h1 e he
        · have hv : visits (Event.try_acquire (LockName.frame i) false :: es) = i :: visits es := by
            simp [visits]
          rw [hv, h2, map_range_succ, hshift]
          rfl
        · rcases h5 with ⟨g1, g2, g3, g4, g5⟩ | ⟨f', g1, g2, g3, g4, g5, g6, g7⟩
          · left
            refine ⟨g1, by omega, g3, g4, ?_⟩
            rw [g5]
            simp [FrameState.log]
          · right
            rw [e1] at g1 g3 g5 g7
            refine ⟨f', g1, by omega, g3, g4, g5, g6, ?_⟩
            rw [g7]
            simp [FrameState.log]
      · rename_i l hl
        obtain ⟨hfree, rfl⟩ := lock_try_acquire_true cur f.lock l hl
        split at h
        · rename_i hnone
          simp only [Except.ok.injEq, Prod.mk.injEq] at h
          obtain ⟨rfl, rfl⟩ := h
          refine ⟨[], 0, by simp, rfl, rfl, rfl, Or.inr ⟨f, rfl, Nat.succ_pos n, hf, ?_, rfl, rfl, ?_⟩⟩
          · refine ⟨hfree, ?_⟩
            cases hp : f.page with
            | none => rfl
            | some q => rw [hp] at hnone; simp at hnone
          · simp
        · have hset : s.frame_table.set i { f with lock := lock_release ⟨some cur⟩ }
              = s.frame_table := by
            rw [frame_relock_same f _ hfree]
            exact set_same _ _ _ hf
          rw [hset] at h
          obtain ⟨es, m, h1, h2, h3, h4, h5⟩ := ih _ _ _ _ h
          have e1 : i + 1 + m = i + (m + 1) := by omega
          refine ⟨.try_acquire (.frame i) true :: .release (.frame i) :: es, m + 1,
            ?_, ?_, h3, h4, ?_⟩
          · intro e he
            simp only [List.mem_cons] at he
            rcases he with rfl | rfl | he
            · rfl
            · rfl
            · exact h1 e he
          · have hv : visits (Event.try_acquire (LockName.frame i) true ::
                Event.release (LockName.frame i) :: es) = i :: visits es := by
              simp [visits]
            rw [hv, h2, map_range_succ, hshift]
            rfl
          · rcases h5 with ⟨g1, g2, g3, g4, g5⟩ | ⟨f', g1, g2, g3, g4, g5, g6, g7⟩
            · left
              refine ⟨g1, by omega, g3, g4, ?_⟩
              rw [g5]
              simp
            · right
              rw [e1] at g1 g3 g5 g7
              refine ⟨f', g1, by omega, g3, g4, g5, g6, ?_⟩
              rw [g7]
              simp

theorem cursor_shift (h n i : Nat) : ((h + 1) % n + i) % n = (h + (i + 1)) % n := by
  rw [Nat.mod_add_mod]
  congr 1
  omega

theorem visits_shift (h n j : Nat) (hh : h < n) :
    h :: (List.range j).map (fun i => ((h + 1) % n + i) % n)
      = (List.range (j + 1)).map (fun i => (h + i) % n) := by
  rw [map_range_succ]
  have h0 : (h + 0) % n = h := by rw [Nat.add_zero, Nat.mod_eq_of_lt hh]
  have hf : (fun i => ((h + 1) % n + i) % n) = (fun i => (h + (i + 1)) % n) := by
    funext i
    exact cursor_shift h n i
  rw [h0, hf]

/-- Every returning run of the eviction pass with budget `b`: it passes over `j`
frames in cyclic order from the cursor, changing only the cursor, and then
either has used up its budget (`j = b`), or at frame `k`, the next in order,
claims it (unoccupied), evicts its page (write-back succeeded) or gives up
(write-back failed). -/
theorem evict_pass_shape {σ : Type} (pm : PageManager σ) (cur : Tid) (page : PageId) :
    ∀ (b : Nat) (s : FrameState σ) (r : Option Nat) (s' : FrameState σ),
      s.hand < s.frame_table.length →
      evict_pass pm cur page b s = .ok (r, s') →
      ∃ es j, (∀ e ∈ es, e.is_frame_step = true) ∧
        visits es = (List.range j).map (fun i => (s.hand + i) % s.frame_table.length) ∧
        ((r = none ∧ j = b ∧ s'.frame_table = s.frame_table ∧
            s'.hand = (s.hand + b) % s.frame_table.length ∧
            s'.trace = s.trace ++ es ++ [.release .scan_lock]) ∨
         (∃ k f, j < b ∧ k = (s.hand + j) % s.frame_table.length ∧
            s.frame_table[k]? = some f ∧ f.lock.holder = none ∧
            s'.hand = (s.hand + (j + 1)) % s.frame_table.length ∧
            ((f.page = none ∧ r = some k ∧
                s'.frame_table = s.frame_table.set k
                  { lock := ⟨some cur⟩, base := f.base, page := some page } ∧
                s'.trace = s.trace ++ es ++
                  [.try_acquire (.frame k) true, .release .scan_lock]) ∨
             (∃ q, f.page = some q ∧ r = some k ∧
                s'.frame_table = s.frame_table.set k
                  { lock := ⟨some cur⟩, base := f.base, page := some page } ∧
                s'.trace = s.trace ++ es ++
                  [.try_acquire (.frame k) true, .accessed q false, .release .scan_lock,
                   .page_out q true]) ∨
             (∃ q, f.page = some q ∧ r = none ∧ s'.frame_table = s.frame_table ∧
                s'.trace = s.trace ++ es ++
                  [.try_acquire (.frame k) true, .accessed q false, .release .scan_lock,
                   .page_out q false, .release (.frame k)])))) := by
  intro b
  induction b with
  | zero =>
    intro s r s' hh h
    simp only [evict_pass, Except.ok.injEq, Prod.mk.injEq] at h
    obtain ⟨rfl, rfl⟩ := h
    refine ⟨[], 0, by simp, rfl, Or.inl ⟨rfl, rfl, rfl, ?_, by simp⟩⟩
    simp [Nat.mod_eq_of_lt hh]
  | succ b ih =>
    intro s r s' hh h
    have hnext : (s.hand + 1) % s.frame_table.length < s.frame_table.length :=
      Nat.mod_lt _ (by omega)
    have h0 : (s.hand + 0) % s.frame_table.length = s.hand := by
      rw [Nat.add_zero, Nat.mod_eq_of_lt hh]
    -- a visit that passes over the frame, followed by the rest of the pass
    have key : ∀ (pre : List Event) (s1 : FrameState σ),
        (∀ e ∈ pre, e.is_frame_step = true) → visits pre = [s.hand] →
        s1.frame_table = s.frame_table → s1.hand = (s.hand + 1) % s.frame_table.length →
        s1.trace = s.trace ++ pre → evict_pass pm cur page b s1 = .ok (r, s') →
        ∃ es j, (∀ e ∈ es, e.is_frame_step = true) ∧
          visits es = (List.range j).map (fun i => (s.hand + i) % s.frame_table.length) ∧
          ((r = none ∧ j = b + 1 ∧ s'.frame_table = s.frame_table ∧
              s'.hand = (s.hand + (b + 1)) % s.frame_table.length ∧
              s'.trace = s.trace ++ es ++ [.release .scan_lock]) ∨
           (∃ k f, j < b + 1 ∧ k = (s.hand + j) % s.frame_table.length ∧
              s.frame_table[k]? = some f ∧ f.lock.holder = none ∧
              s'.hand = (s.hand + (j + 1)) % s.frame_table.length ∧
              ((f.page = none ∧ r = some k ∧
                  s'.frame_table = s.frame_table.set k
                    { lock := ⟨some cur⟩, base := f.base, page := some page } ∧
                  s'.trace = s.trace ++ es ++
                    [.try_acquire (.frame k) true, .release .scan_lock]) ∨
               (∃ q, f.page = some q ∧ r = some k ∧
                  s'.frame_table = s.frame_table.set k
                    { lock := ⟨some cur⟩, base := f.base, page := some page } ∧
                  s'.trace = s.trace ++ es ++
                    [.try_acquire (.frame k) true, .accessed q false, .release .scan_lock,
                     .page_out q true]) ∨
               (∃ q, f.page = some q ∧ r = none ∧ s'.frame_table = s.frame_table ∧
                  s'.trace = s.trace ++ es ++
                    [.try_acquire (.frame k) true, .accessed q false, .release .scan_lock,
                     .page_out q false, .release (.frame k)])))) := by
      intro pre s1 hpre hvis hft hhand htr hrun
      obtain ⟨es, j, g1, g2, g3⟩ := ih s1 r s' (by rw [hhand, hft]; exact hnext) hrun
      rw [hft, hhand] at g2
      refine ⟨pre ++ es, j + 1, ?_, ?_, ?_⟩
      · intro e he
        rcases List.mem_append.mp he with he | he
        · exact hpre e he
        · exact g1 e he
      · rw [visits_append, hvis, g2]
        exact visits_shift _ _ _ hh
      · rcases g3 with ⟨a1, a2, a3, a4, a5⟩ | ⟨k, f, a1, a2, a3, a4, a5, a6⟩
        · left
          refine ⟨a1, by omega, by rw [a3, hft], ?_, ?_⟩
          · rw [a4, hft, hhand]
            exact cursor_shift _ _ _
          · rw [a5, htr]
            simp
        · right
          rw [hft, hhand] at a2 a5
          rw [hft] at a3
          rw [cursor_shift] at a2 a5
          refine ⟨k, f, by omega, a2, a3, a4, a5, ?_⟩
          rw [hft, htr] at a6
          rcases a6 with ⟨c1, c2, c3, c4⟩ | ⟨q, c1, c2, c3, c4⟩ | ⟨q, c1, c2, c3, c4⟩
          · exact Or.inl ⟨c1, c2, c3, by rw [c4]; simp⟩
          · exact Or.inr (Or.inl ⟨q, c1, c2, c3, by rw [c4]; simp⟩)
          · exact Or.inr (Or.inr ⟨q, c1, c2, c3, by rw [c4]; simp⟩)
    simp only [evict_pass, FrameState.frame_cnt, next_hand _ _ hh] at h
    split at h
    · cases h
    · rename_i f hf
      split at h
      · refine key [.try_acquire (.frame s.hand) false] _ ?_ ?_ ?_ ?_ ?_ h
        · intro e he
          simp only [List.mem_singleton] at he
          subst he
          rfl
        · simp [visits]
        · rfl
        · rfl
        · rfl
      · rename_i l hl
        obtain ⟨hfree, rfl⟩ := lock_try_acquire_true cur f.lock l hl
        split at h
        · rename_i hnone
          simp only [Except.ok.injEq, Prod.mk.injEq] at h
          obtain ⟨rfl, rfl⟩ := h
          refine ⟨[], 0, by simp, rfl, Or.inr ⟨s.hand, f, Nat.succ_pos b, h0.symm, hf, hfree, rfl,
            Or.inl ⟨hnone, rfl, rfl, by simp⟩⟩⟩
        · rename_i q hq
          split at h
          · rename_i w hA
            have hset : s.frame_table.set s.hand { f with lock := lock_release ⟨some cur⟩ }
                = s.frame_table := by
              rw [frame_relock_same f _ hfree]
              exact set_same _ _ _ hf
            rw [hset] at h
            refine key [.try_acquire (.frame s.hand) true, .accessed q true,
                .release (.frame s.hand)] _ ?_ ?_ ?_ ?_ ?_ h
            · intro e he
              simp only [List.mem_cons, List.mem_singleton, List.not_mem_nil, or_false] at he
              rcases he with rfl | rfl | rfl <;> rfl
            · simp [visits]
            · rfl
            · rfl
            · rfl
          · rename_i w hA
            have hset : s.frame_table.set s.hand { f with lock := lock_release ⟨some cur⟩ }
                = s.frame_table := by
              rw [frame_relock_same f _ hfree]
              exact set_same _ _ _ hf
            split at h
            · simp only [Except.ok.injEq, Prod.mk.injEq] at h
              obtain ⟨rfl, rfl⟩ := h
              refine ⟨[], 0, by simp, rfl, Or.inr ⟨s.hand, f, Nat.succ_pos b, h0.symm, hf, hfree,
                rfl, Or.inr (Or.inr ⟨q, hq, rfl, hset, by simp⟩)⟩⟩
            · simp only [Except.ok.injEq, Prod.mk.injEq] at h
              obtain ⟨rfl, rfl⟩ := h
              refine ⟨[], 0, by simp, rfl, Or.inr ⟨s.hand, f, Nat.succ_pos b, h0.symm, hf, hfree,
                rfl, Or.inr (Or.inl ⟨q, hq, rfl, rfl, by simp⟩)⟩⟩

theorem evict_pass_hand_in_range {σ : Type} (pm : PageManager σ) (cur : Tid) (page : PageId)
    (b : Nat) (s : FrameState σ) (r : Option Nat) (s' : FrameState σ)
    (h : evict_pass pm cur page (b + 1) s = .ok (r, s')) : s.hand < s.frame_table.length := by
  simp only [evict_pass] at h
  split at h
  · cases h
  · rename_i f hf
    exact getElem?_lt _ _ _ hf

theorem map_zero_add_range (m : Nat) : (List.range m).map (fun j => 0 + j) = List.range m := by
  have : (fun j : Nat => 0 + j) = id := by
    funext j
    simp
  rw [this, List.map_id]

/-- Every returning attempt: the scan lock was free; the free-frame pass visits
frames `0, 1, ...` and either claims the first free one, or visits all `n`
frames, after which the eviction pass visits `j` frames in cyclic order from
the cursor and ends in one of its four ways. -/
theorem try_shape {σ : Type} (pm : PageManager σ) (cur : Tid) (page : PageId)
    (s : FrameState σ) (r : Option Nat) (s' : FrameState σ)
    (h : try_frame_alloc_and_lock pm cur page s = .ok (r, s')) :
    s.scan_lock.holder = none ∧
    ∃ es1 m, (∀ e ∈ es1, e.is_frame_step = true) ∧ visits es1 = List.range m ∧
      ((∃ f, m < s.frame_table.length ∧ r = some m ∧ s.frame_table[m]? = some f ∧ f.is_free ∧
          s'.frame_table = s.frame_table.set m
            { lock := ⟨some cur⟩, base := f.base, page := some page } ∧
          s'.hand = s.hand ∧
          s'.trace = s.trace ++ [.acquire .scan_lock] ++ es1 ++
            [.try_acquire (.frame m) true, .release .scan_lock]) ∨
       (m = s.frame_table.length ∧
        ∃ es2 j, (∀ e ∈ es2, e.is_frame_step = true) ∧
          visits es2 = (List.range j).map (fun i => (s.hand + i) % s.frame_table.length) ∧
          ((r = none ∧ j = s.frame_table.length * 2 ∧ s'.frame_table = s.frame_table ∧
              s'.hand = s.hand ∧
              s'.trace = s.trace ++ [.acquire .scan_lock] ++ es1 ++ es2 ++
                [.release .scan_lock]) ∨
           (∃ k f, j < s.frame_table.length * 2 ∧ k = (s.hand + j) % s.frame_table.length ∧
              s.frame_table[k]? = some f ∧ f.lock.holder = none ∧
              s'.hand = (k + 1) % s.frame_table.length ∧
              ((f.page = none ∧ r = some k ∧
                  s'.frame_table = s.frame_table.set k
                    { lock := ⟨some cur⟩, base := f.base, page := some page } ∧
                  s'.trace = s.trace ++ [.acquire .scan_lock] ++ es1 ++ es2 ++
                    [.try_acquire (.frame k) true, .release .scan_lock]) ∨
               (∃ q, f.page = some q ∧ r = some k ∧
                  s'.frame_table = s.frame_table.set k
                    { lock := ⟨some cur⟩, base := f.base, page := some page } ∧
                  s'.trace = s.trace ++ [.acquire .scan_lock] ++ es1 ++ es2 ++
                    [.try_acquire (.frame k) true, .accessed q false, .release .scan_lock,
                     .page_out q true]) ∨
               (∃ q, f.page = some q ∧ r = none ∧ s'.frame_table = s.frame_table ∧
                  s'.trace = s.trace ++ [.acquire .scan_lock] ++ es1 ++ es2 ++
                    [.try_acquire (.frame k) true, .accessed q false, .release .scan_lock,
                     .page_out q false, .release (.frame k)])))))) := by
  unfold try_frame_alloc_and_lock at h
  cases hs : s.scan_lock.holder with
  | some t => simp [lock_acquire, hs] at h
  | none =>
    refine ⟨rfl, ?_⟩
    simp only [lock_acquire, hs, FrameState.frame_cnt] at h
    split at h
    · cases h
    · rename_i k s1 hfp
      simp only [Except.ok.injEq, Prod.mk.injEq] at h
      obtain ⟨rfl, rfl⟩ := h
      obtain ⟨es1, m, h1, h2, h3, _, h5⟩ := free_pass_shape cur page _ _ _ _ _ hfp
      rw [map_zero_add_range] at h2
      refine ⟨es1, m, h1, h2, Or.inl ?_⟩
      rcases h5 with ⟨g1, _⟩ | ⟨f, g1, g2, g3, g4, g5, _, g7⟩
      · cases g1
      · simp only [Nat.zero_add, Option.some.injEq] at g1 g3 g5 g7
        subst g1
        exact ⟨f, g2, rfl, g3, g4, g5, h3, g7⟩
    · rename_i s1 hfp
      obtain ⟨es1, m, h1, h2, h3, _, h5⟩ := free_pass_shape cur page _ _ _ _ _ hfp
      rw [map_zero_add_range] at h2
      rcases h5 with ⟨_, g2, g3, _, g5⟩ | ⟨f, g1, _⟩
      swap
      · cases g1
      simp only at g2 g3 g5 h3
      refine ⟨es1, m, h1, h2, Or.inr ⟨g2, ?_⟩⟩
      rw [g3] at h
      cases hlen : s.frame_table.length with
      | zero =>
        rw [hlen] at h
        simp only [Nat.zero_mul, evict_pass, Except.ok.injEq, Prod.mk.injEq] at h
        obtain ⟨rfl, rfl⟩ := h
        refine ⟨[], 0, by simp, rfl, Or.inl ⟨rfl, rfl, g3, h3, ?_⟩⟩
        simp only [g5, List.append_nil]
      | succ n =>
        rw [hlen] at h
        have hb : (n + 1) * 2 = (n * 2 + 1) + 1 := by omega
        rw [hb] at h
        have hh1 := evict_pass_hand_in_range pm cur page _ _ _ _ h
        obtain ⟨es2, j, e1, e2, e3⟩ := evict_pass_shape pm cur page _ _ _ _ hh1 h
        rw [g3, h3] at e2 e3
        rw [g3, h3] at hh1
        rw [hlen] at e2 e3 hh1
        rw [← hb] at e3
        refine ⟨es2, j, e1, e2, ?_⟩
        rcases e3 with ⟨a1, a2, a3, a4, a5⟩ | ⟨k, f, a1, a2, a3, a4, a5, a6⟩
        · left
          refine ⟨a1, by omega, a3, ?_, ?_⟩
          · rw [a4]
            have : s.hand + (n + 1) * 2 = s.hand + (n + 1) + (n + 1) := by omega
            rw [this, Nat.add_mod_right, Nat.add_mod_right, Nat.mod_eq_of_lt hh1]
          · rw [a5, g5]
        · right
          refine ⟨k, f, by omega, a2, a3, a4, ?_, ?_⟩
          · rw [a5, a2, Nat.mod_add_mod]
            rfl
          · rw [g5] at a6
            exact a6

/-! ## Theorems: a failed write-back -/

theorem frame_steps_no_page_out (es : List Event) (hes : ∀ e ∈ es, e.is_frame_step = true)
    (q : PageId) (ok : Bool) : Event.page_out q ok ∉ es := by
  intro hmem
  have := hes _ hmem
  simp [Event.is_frame_step] at this

/-- An attempt whose trace records a failed write-back of page `q`: it reports
failure, leaves the table as it was, and ended at a victim frame `k` holding
`q`, with the cursor one past `k`. -/
theorem try_write_back_failed {σ : Type} (pm : PageManager σ) (cur : Tid) (page : PageId)
    (s : FrameState σ) (r : Option Nat) (s' : FrameState σ) (es : List Event) (q : PageId)
    (h : try_frame_alloc_and_lock pm cur page s = .ok (r, s'))
    (htr : s'.trace = s.trace ++ es) (hfail : Event.page_out q false ∈ es) :
    r = none ∧ s'.frame_table = s.frame_table ∧
    ∃ k f pre, s.frame_table[k]? = some f ∧ f.page = some q ∧ f.lock.holder = none ∧
      s'.hand = (k + 1) % s.frame_table.length ∧
      write_backs pre = [] ∧
      es = pre ++ [.try_acquire (.frame k) true, .accessed q false, .release .scan_lock,
        .page_out q false, .release (.frame k)] := by
  obtain ⟨_, es1, m, h1, _, hcase⟩ := try_shape pm cur page s r s' h
  have hpre : ∀ es2 : List Event, (∀ e ∈ es2, e.is_frame_step = true) →
      write_backs ([Event.acquire LockName.scan_lock] ++ es1 ++ es2) = [] := by
    intro es2 h2
    rw [write_backs_append, write_backs_append, frame_steps_no_write_back es1 h1,
      frame_steps_no_write_back es2 h2]
    simp [write_backs]
  have hnot : ∀ es2 : List Event, (∀ e ∈ es2, e.is_frame_step = true) →
      Event.page_out q false ∉ [Event.acquire LockName.scan_lock] ++ es1 ++ es2 := by
    intro es2 h2 hmem
    rcases List.mem_append.mp hmem with hmem | hmem
    · rcases List.mem_append.mp hmem with hmem | hmem
      · simp at hmem
      · exact frame_steps_no_page_out es1 h1 q false hmem
    · exact frame_steps_no_page_out es2 h2 q false hmem
  rcases hcase with ⟨f, _, _, _, _, _, _, g7⟩ | ⟨_, es2, j, e1, _, hout⟩
  · exfalso
    rw [htr, List.append_assoc, List.append_assoc] at g7
    have hes := List.append_cancel_left g7
    rw [hes] at hfail
    have := hnot [] (by simp)
    simp only [List.append_nil] at this
    rcases List.mem_append.mp hfail with hmem | hmem
    · simp at hmem
    · rcases List.mem_append.mp hmem with hmem | hmem
      · exact frame_steps_no_page_out es1 h1 q false hmem
      · simp at hmem
  · rcases hout with ⟨_, _, _, _, a5⟩ | ⟨k, f, _, _, a3, a4, a5, a6⟩
    · exfalso
      rw [htr, List.append_assoc, List.append_assoc, List.append_assoc] at a5
      have hes := List.append_cancel_left a5
      rw [hes] at hfail
      rcases List.mem_append.mp hfail with hmem | hmem
      · simp at hmem
      · rcases List.mem_append.mp hmem with hmem | hmem
        · exact frame_steps_no_page_out es1 h1 q false hmem
        · rcases List.mem_append.mp hmem with hmem | hmem
          · exact frame_steps_no_page_out es2 e1 q false hmem
          · simp at hmem
    · rcases a6 with ⟨_, _, _, c4⟩ | ⟨q', _, _, _, c4⟩ | ⟨q', c1, c2, c3, c4⟩
      · exfalso
        rw [htr, List.append_assoc, List.append_assoc, List.append_assoc] at c4
        have hes := List.append_cancel_left c4
        rw [hes] at hfail
        rcases List.mem_append.mp hfail with hmem | hmem
        · simp at hmem
        · rcases List.mem_append.mp hmem with hmem | hmem
          · exact frame_steps_no_page_out es1 h1 q false hmem
          · rcases List.mem_append.mp hmem with hmem | hmem
            · exact frame_steps_no_page_out es2 e1 q false hmem
            · simp at hmem
      · exfalso
        rw [htr, List.append_assoc, List.append_assoc, List.append_assoc] at c4
        have hes := List.append_cancel_left c4
        rw [hes] at hfail
        rcases List.mem_append.mp hfail with hmem | hmem
        · simp at hmem
        · rcases List.mem_append.mp hmem with hmem | hmem
          · exact frame_steps_no_page_out es1 h1 q false hmem
          · rcases List.mem_append.mp hmem with hmem | hmem
            · exact frame_steps_no_page_out es2 e1 q false hmem
            · simp at hmem
      · have hes : es = ([Event.acquire LockName.scan_lock] ++ es1 ++ es2) ++
            [.try_acquire (.frame k) true, .accessed q' false, .release .scan_lock,
              .page_out q' false, .release (.frame k)] := by
          rw [htr] at c4
          simp only [List.append_assoc] at c4 ⊢
          exact List.append_cancel_left c4
        have hq : q' = q := by
          rw [hes] at hfail
          rcases List.mem_append.mp hfail with hmem | hmem
          · exact absurd hmem (hnot es2 e1)
          · simp at hmem
            exact hmem.symm
        subst hq
        exact ⟨c2, c3, k, f, _, a3, c1, a4, a5, hpre es2 e1, hes⟩

/-- C15. Write-back failure within one attempt: whenever an attempt selects a
victim frame and the write-back of its page `q` returns false (the attempt's
trace records `page_out q false`), the attempt returns failure with the scan
lock released and the whole table as it was before the attempt: the victim
frame `k` is unlocked again and still holds `q`, not the requested page, every
other frame is unchanged, and the cursor points at the frame after `k` modulo
the table size.  That write-back is the attempt's only one and is followed
only by the release of the victim's lock. -/
theorem try_write_back_failure {σ : Type} (pm : PageManager σ) (cur : Tid) (page : PageId)
    (s : FrameState σ) (r : Option Nat) (s' : FrameState σ) (es : List Event) (q : PageId)
    (h : try_frame_alloc_and_lock pm cur page s = .ok (r, s'))
    (htr : s'.trace = s.trace ++ es) (hfail : Event.page_out q false ∈ es) :
    r = none ∧ s'.scan_lock.holder = none ∧ s'.frame_table = s.frame_table ∧
    ∃ k f pre, s'.frame_table[k]? = some f ∧ f.page = some q ∧ f.lock.holder = none ∧
      s'.hand = (k + 1) % s.frame_table.length ∧
      write_backs es = [.page_out q false] ∧
      es = pre ++ [.try_acquire (.frame k) true, .accessed q false, .release .scan_lock,
        .page_out q false, .release (.frame k)] := by
  obtain ⟨h1, h2, k, f, pre, h3, h4, h5, h6, h7, h8⟩ :=
    try_write_back_failed pm cur page s r s' es q h htr hfail
  obtain ⟨_, g2, _⟩ := try_spec pm cur page s r s' h
  refine ⟨h1, g2, h2, k, f, pre, by rw [h2]; exact h3, h4, h5, h6, ?_, h8⟩
  rw [h8, write_backs_append, h7]
  simp [write_backs]

/-- Scenario F: the only frame holds page 100, whose write-back fails; the
attempt returns failure, the table is as before and the cursor is back at 0. -/
theorem try_write_back_failure_scenario_F :
    ∃ s', try_frame_alloc_and_lock page_manager 1 10 scenario_F = .ok (none, s') ∧
      s'.scan_lock.holder = none ∧ s'.frame_table = scenario_F.frame_table ∧
      s'.hand = 0 ∧ write_backs s'.trace = [.page_out 100 false] := by
  obtain ⟨_, h2, h3, k, f, pre, _, _, _, _, h8, _⟩ :=
    try_write_back_failure page_manager 1 10 scenario_F none _
      [.acquire .scan_lock, .try_acquire (.frame 0) true, .release (.frame 0),
       .try_acquire (.frame 0) true, .accessed 100 false, .release .scan_lock,
       .page_out 100 false, .release (.frame 0)] 100 rfl rfl (by decide)
  exact ⟨_, rfl, h2, h3, rfl, rfl⟩

theorem alloc_loop_trace {σ : Type} (pm : PageManager σ) (cur : Tid) (page : PageId) :
    ∀ (n : Nat) (s : FrameState σ) (r : Option Nat) (s' : FrameState σ),
      alloc_loop pm cur page n s = .ok (r, s') → ∃ es, s'.trace = s.trace ++ es := by
  intro n
  induction n with
  | zero =>
    intro s r s' h
    simp only [alloc_loop, Except.ok.injEq, Prod.mk.injEq] at h
    obtain ⟨_, rfl⟩ := h
    exact ⟨[], by simp⟩
  | succ n ih =>
    intro s r s' h
    simp only [alloc_loop] at h
    split at h
    · cases h
    · rename_i k s1 htry
      obtain ⟨_, _, _, _, ⟨es, h5, _⟩, _⟩ := try_spec pm cur page s _ _ htry
      split at h
      · cases h
      · split at h
        · simp only [Except.ok.injEq, Prod.mk.injEq] at h
          obtain ⟨_, rfl⟩ := h
          exact ⟨_, h5⟩
        · cases h
    · rename_i s1 htry
      obtain ⟨_, _, _, _, ⟨es, h5, _⟩, _⟩ := try_spec pm cur page s _ _ htry
      obtain ⟨es', h'⟩ := ih _ _ _ h
      refine ⟨.acquire .scan_lock :: es ++ .sleep 1000 :: es', ?_⟩
      rw [h']
      simp only [FrameState.log]
      rw [h5]
      simp

/-- C13 as stated fails.  In scenario F the write-back of the first attempt
fails, and `frame_alloc_and_lock` then sleeps, makes a second and a third
attempt, each with a further failed write-back and sleep, and only then
returns failure. -/
theorem write_back_failure_is_retried_scenario_F :
    ∃ s', frame_alloc_and_lock page_manager 1 10 scenario_F = .ok (none, s') ∧
      s'.trace =
        [.acquire .scan_lock, .try_acquire (.frame 0) true, .release (.frame 0),
         .try_acquire (.frame 0) true, .accessed 100 false, .release .scan_lock,
         .page_out 100 false, .release (.frame 0), .sleep 1000,
         .acquire .scan_lock, .try_acquire (.frame 0) true, .release (.frame 0),
         .try_acquire (.frame 0) true, .accessed 100 false, .release .scan_lock,
         .page_out 100 false, .release (.frame 0), .sleep 1000,
         .acquire .scan_lock, .try_acquire (.frame 0) true, .release (.frame 0),
         .try_acquire (.frame 0) true, .accessed 100 false, .release .scan_lock,
         .page_out 100 false, .release (.frame 0), .sleep 1000] ∧
      write_backs s'.trace =
        [.page_out 100 false, .page_out 100 false, .page_out 100 false] ∧
      sleeps s'.trace = [.sleep 1000, .sleep 1000, .sleep 1000] ∧
      attempts s'.trace = 3 :=
  ⟨_, rfl, rfl, rfl, rfl, rfl⟩

/-- C13, amended. When the write-back of an attempt's victim fails, that attempt
reports failure at once, with no further write-back within the attempt;
`frame_alloc_and_lock` treats it as any failed attempt: it sleeps 1000 ms and
goes on with the attempts that remain of its three, so the failure reaches the
caller only when the retry bound is used up (or is overtaken by a later
attempt's success).  The same holds at any attempt of the call: with `n + 1`
iterations of the loop left, the loop goes on with `n` after the sleep. -/
theorem write_back_failure_then_retry {σ : Type} (pm : PageManager σ) (cur : Tid)
    (page : PageId) (s : FrameState σ) (r : Option Nat) (s1 : FrameState σ)
    (es : List Event) (q : PageId)
    (h : try_frame_alloc_and_lock pm cur page s = .ok (r, s1))
    (htr : s1.trace = s.trace ++ es) (hfail : Event.page_out q false ∈ es) :
    r = none ∧ write_backs es = [.page_out q false] ∧
    frame_alloc_and_lock pm cur page s = alloc_loop pm cur page 2 (s1.log [.sleep 1000]) ∧
    (∀ r' s', frame_alloc_and_lock pm cur page s = .ok (r', s') →
      ∃ rest, s'.trace = s1.trace ++ .sleep 1000 :: rest) ∧
    ∀ n, alloc_loop pm cur page (n + 1) s = alloc_loop pm cur page n (s1.log [.sleep 1000]) := by
  obtain ⟨h1, _, k, f, pre, _, _, _, _, h7, h8⟩ :=
    try_write_back_failed pm cur page s r s1 es q h htr hfail
  subst h1
  have hloop : frame_alloc_and_lock pm cur page s
      = alloc_loop pm cur page 2 (s1.log [.sleep 1000]) := by
    simp only [frame_alloc_and_lock, alloc_loop, h]
  refine ⟨rfl, ?_, hloop, ?_, ?_⟩
  · rw [h8, write_backs_append, h7]
    simp [write_backs]
  · intro r' s' hret
    rw [hloop] at hret
    obtain ⟨rest, hrest⟩ := alloc_loop_trace pm cur page 2 _ _ _ hret
    refine ⟨rest, ?_⟩
    rw [hrest]
    simp [FrameState.log]
  · intro n
    simp only [alloc_loop, h]

/-- Scenario F: after the first attempt's failed write-back, the call goes on
to sleep and retry. -/
theorem write_back_failure_then_retry_scenario_F :
    ∃ s1, try_frame_alloc_and_lock page_manager 1 10 scenario_F = .ok (none, s1) ∧
      frame_alloc_and_lock page_manager 1 10 scenario_F
        = alloc_loop page_manager 1 10 2 (s1.log [.sleep 1000]) :=
  ⟨_, rfl,
    (write_back_failure_then_retry page_manager 1 10 scenario_F none _
      [.acquire .scan_lock, .try_acquire (.frame 0) true, .release (.frame 0),
       .try_acquire (.frame 0) true, .accessed 100 false, .release .scan_lock,
       .page_out 100 false, .release (.frame 0)] 100 rfl rfl (by decide)).2.2.1⟩

/-! ## Theorems: the bound on one attempt -/

theorem cyclic_round_count (h n k : Nat) :
    ((List.range n).map (fun i => (h + i) % n)).count k ≤ 1 := by
  have hnd : ((List.range n).map (fun i => (h + i) % n)).Nodup := by
    apply List.Nodup.map_on _ (List.nodup_range n)
    intro x hx y hy hxy
    have hx' := List.mem_range.mp hx
    have hy' := List.mem_range.mp hy
    rcases Nat.lt_trichotomy x y with hlt | heq | hgt
    · exact absurd hxy (cursor_steps_distinct h n x y hlt hy')
    · exact heq
    · exact absurd hxy.symm (cursor_steps_distinct h n y x hgt hx')
  exact List.nodup_iff_count_le_one.mp hnd k

theorem cyclic_visits_count (h n j k : Nat) (hj : j ≤ 2 * n) :
    ((List.range j).map (fun i => (h + i) % n)).count k ≤ 2 := by
  have hsub : ((List.range j).map (fun i => (h + i) % n)).Sublist
      ((List.range (n + n)).map (fun i => (h + i) % n)) :=
    List.Sublist.map _ (List.range_sublist.mpr (by omega))
  have h1 := List.Sublist.count_le hsub k
  have hfun : (fun i => (h + (n + i)) % n) = (fun i => (h + i) % n) := by
    funext i
    have : h + (n + i) = h + i + n := by omega
    rw [this, Nat.add_mod_right]
  have h2 : (List.range (n + n)).map (fun i => (h + i) % n)
      = (List.range n).map (fun i => (h + i) % n) ++
        (List.range n).map (fun i => (h + i) % n) := by
    rw [List.range_add, List.map_append, List.map_map]
    have : ((fun i => (h + i) % n) ∘ fun x => n + x) = (fun i => (h + (n + i)) % n) := rfl
    rw [this, hfun]
  rw [h2, List.count_append] at h1
  have h3 := cyclic_round_count h n k
  omega

/-- C16. Termination bound of one attempt: from a state in which an attempt can
run, `try_frame_alloc_and_lock` returns (for every table size including 0,
every state of the frames' locks and every page manager); and any returning
attempt makes at most `n` frame visits in the free-frame pass, in index order,
and at most `2n` in the eviction pass, in cyclic order from the cursor, so that
no frame is visited more than twice by the eviction pass; it makes no
write-back in the free-frame pass and at most one in the eviction pass. -/
theorem try_terminates_within_bounds {σ : Type} (pm : PageManager σ) (cur : Tid)
    (page : PageId) (s : FrameState σ) :
    (s.ready → ∃ r s', try_frame_alloc_and_lock pm cur page s = .ok (r, s')) ∧
    ∀ r s', try_frame_alloc_and_lock pm cur page s = .ok (r, s') →
      ∃ free_es evict_es,
        s'.trace = s.trace ++ .acquire .scan_lock :: (free_es ++ evict_es) ∧
        (∃ m, m ≤ s.frame_table.length ∧ visits free_es = List.range m) ∧
        (∃ j, j ≤ 2 * s.frame_table.length ∧
          visits evict_es =
            (List.range j).map (fun i => (s.hand + i) % s.frame_table.length)) ∧
        (∀ k, (visits evict_es).count k ≤ 2) ∧
        write_backs free_es = [] ∧
        (write_backs evict_es).length ≤ 1 := by
  refine ⟨try_total pm cur page s, ?_⟩
  intro r s' h
  obtain ⟨_, es1, m, h1, h2, hcase⟩ := try_shape pm cur page s r s' h
  have hw1 := frame_steps_no_write_back es1 h1
  rcases hcase with ⟨f, g1, _, _, _, _, _, g7⟩ | ⟨g1, es2, j, e1, e2, hout⟩
  · refine ⟨es1 ++ [.try_acquire (.frame m) true, .release .scan_lock], [], ?_,
      ⟨m + 1, by omega, ?_⟩, ⟨0, by omega, by simp [visits]⟩, by simp [visits], ?_, by simp [write_backs]⟩
    · rw [g7]
      simp
    · rw [visits_append, h2, List.range_succ]
      simp [visits]
    · rw [write_backs_append, hw1]
      simp [write_backs]
  · have hw2 := frame_steps_no_write_back es2 e1
    have hcount : ∀ (tail : List Event) (j' : Nat), j' ≤ 2 * s.frame_table.length →
        visits (es2 ++ tail)
          = (List.range j').map (fun i => (s.hand + i) % s.frame_table.length) →
        ∀ k, (visits (es2 ++ tail)).count k ≤ 2 := by
      intro tail j' hj' hv k
      rw [hv]
      exact cyclic_visits_count _ _ _ _ hj'
    rcases hout with ⟨_, a2, _, _, a5⟩ | ⟨k, f, a1, a2, _, _, _, a6⟩
    · have hv : visits (es2 ++ [Event.release LockName.scan_lock])
          = (List.range j).map (fun i => (s.hand + i) % s.frame_table.length) := by
        rw [visits_append, e2]
        simp [visits]
      refine ⟨es1, es2 ++ [.release .scan_lock], ?_, ⟨m, by omega, h2⟩,
        ⟨j, by omega, hv⟩, hcount _ j (by omega) hv, hw1, ?_⟩
      · rw [a5]
        simp
      · rw [write_backs_append, hw2]
        simp [write_backs]
    · have hv : ∀ tail : List Event, visits tail = [k] →
          visits (es2 ++ tail)
            = (List.range (j + 1)).map (fun i => (s.hand + i) % s.frame_table.length) := by
        intro tail ht
        rw [visits_append, e2, ht, List.range_succ, List.map_append, a2]
        rfl
      rcases a6 with ⟨_, _, _, c4⟩ | ⟨q, _, _, _, c4⟩ | ⟨q, _, _, _, c4⟩
      · have hv' := hv [.try_acquire (.frame k) true, .release .scan_lock] (by simp [visits])
        refine ⟨es1, es2 ++ [.try_acquire (.frame k) true, .release .scan_lock], ?_,
          ⟨m, by omega, h2⟩, ⟨j + 1, by omega, hv'⟩, hcount _ (j + 1) (by omega) hv', hw1, ?_⟩
        · rw [c4]
          simp
        · rw [write_backs_append, hw2]
          simp [write_backs]
      · have hv' := hv [.try_acquire (.frame k) true, .accessed q false, .release .scan_lock,
          .page_out q true] (by simp [visits])
        refine ⟨es1, es2 ++ [.try_acquire (.frame k) true, .accessed q false,
            .release .scan_lock, .page_out q true], ?_,
          ⟨m, by omega, h2⟩, ⟨j + 1, by omega, hv'⟩, hcount _ (j + 1) (by omega) hv', hw1, ?_⟩
        · rw [c4]
          simp
        · rw [write_backs_append, hw2]
          simp [write_backs]
      · have hv' := hv [.try_acquire (.frame k) true, .accessed q false, .release .scan_lock,
          .page_out q false, .release (.frame k)] (by simp [visits])
        refine ⟨es1, es2 ++ [.try_acquire (.frame k) true, .accessed q false,
            .release .scan_lock, .page_out q false, .release (.frame k)], ?_,
          ⟨m, by omega, h2⟩, ⟨j + 1, by omega, hv'⟩, hcount _ (j + 1) (by omega) hv', hw1, ?_⟩
        · rw [c4]
          simp
        · rw [write_backs_append, hw2]
          simp [write_backs]

/-- Scenario C: the attempt returns after 4 visits of the free-frame pass and
5 of the eviction pass, in cyclic order from the cursor at 2. -/
theorem try_terminates_within_bounds_scenario_C :
    ∃ s', try_frame_alloc_and_lock page_manager 1 10 scenario_C = .ok (some 2, s') ∧
      visits s'.trace = [0, 1, 2, 3, 2, 3, 0, 1, 2] ∧
      write_backs s'.trace = [.page_out 102 true] := by
  obtain ⟨_, _, _⟩ :=
    (try_terminates_within_bounds page_manager 1 10 scenario_C).1 ⟨rfl, Or.inr (by decide)⟩
  exact ⟨_, rfl, rfl, rfl⟩

/-! ## Theorems: budget exhaustion -/

theorem skips_not_free {σ : Type} (pm : PageManager σ) (t : List Frame) :
    ∀ (b h : Nat) (w : σ), skips pm t b h w → h < t.length →
      ∀ j g, j < b → t[(h + j) % t.length]? = some g → ¬ g.is_free := by
  intro b
  induction b with
  | zero =>
    intro h w _ _ j g hj
    omega
  | succ b ih =>
    intro h w hsk hh j g hj hg
    obtain ⟨f, hf, hrest⟩ := hsk
    rw [next_hand _ _ hh] at hrest
    have hnext : (h + 1) % t.length < t.length := Nat.mod_lt _ (by omega)
    cases j with
    | zero =>
      rw [Nat.add_zero, Nat.mod_eq_of_lt hh, hf] at hg
      cases hg
      rcases hrest with ⟨hl, _⟩ | ⟨_, q, hq, _⟩
      · exact fun hfree => hl hfree.1
      · intro hfree
        rw [hfree.2] at hq
        cases hq
    | succ j =>
      rw [← cursor_shift] at hg
      rcases hrest with ⟨_, hsk'⟩ | ⟨_, q, _, _, hsk'⟩
      · exact ih _ _ hsk' hnext j g (by omega) hg
      · exact ih _ _ hsk' hnext j g (by omega) hg

theorem evict_pass_skips {σ : Type} (pm : PageManager σ) (cur : Tid) (page : PageId) :
    ∀ (b : Nat) (s : FrameState σ), skips pm s.frame_table b s.hand s.pm →
      ∃ s', evict_pass pm cur page b s = .ok (none, s') ∧
        s'.frame_table = s.frame_table ∧ s'.scan_lock.holder = none ∧
        s'.hand = (if b = 0 then s.hand else (s.hand + b) % s.frame_table.length) ∧
        write_backs s'.trace = write_backs s.trace := by
  intro b
  induction b with
  | zero =>
    intro s _
    refine ⟨_, rfl, rfl, rfl, rfl, ?_⟩
    simp [write_backs]
  | succ b ih =>
    intro s hsk
    obtain ⟨f, hf, hrest⟩ := hsk
    have hh := getElem?_lt _ _ _ hf
    rw [next_hand _ _ hh] at hrest
    have hnext : (s.hand + 1) % s.frame_table.length < s.frame_table.length :=
      Nat.mod_lt _ (by omega)
    have hhand : ∀ x : Nat, x = (if b = 0 then (s.hand + 1) % s.frame_table.length
          else ((s.hand + 1) % s.frame_table.length + b) % s.frame_table.length) →
        x = (if b + 1 = 0 then s.hand else (s.hand + (b + 1)) % s.frame_table.length) := by
      intro x hx
      rw [hx, if_neg (Nat.succ_ne_zero b)]
      split
      · rename_i hb
        rw [hb]
      · exact cursor_shift _ _ _
    rcases hrest with ⟨hl, hsk'⟩ | ⟨hl, q, hq, hacc, hsk'⟩
    · obtain ⟨t, ht⟩ := Option.ne_none_iff_exists'.mp hl
      obtain ⟨s', h1, h2, h3, h4, h5⟩ := ih
        { s with
          hand := (s.hand + 1) % s.frame_table.length
          trace := s.trace ++ [.try_acquire (.frame s.hand) false] } hsk'
      refine ⟨s', ?_, h2, h3, hhand _ h4, ?_⟩
      · simp only [evict_pass, hf, lock_try_acquire, ht, FrameState.frame_cnt,
          next_hand _ _ hh, FrameState.log]
        exact h1
      · rw [h5, write_backs_append]
        simp [write_backs]
    · have hA : pm.page_accessed_recently q s.pm
          = (true, (pm.page_accessed_recently q s.pm).2) := by
        rw [← hacc]
      obtain ⟨s', h1, h2, h3, h4, h5⟩ := ih
        { s with
          hand := (s.hand + 1) % s.frame_table.length
          pm := (pm.page_accessed_recently q s.pm).2
          trace := s.trace ++
            [.try_acquire (.frame s.hand) true, .accessed q true, .release (.frame s.hand)] }
        hsk'
      refine ⟨s', ?_, h2, h3, hhand _ h4, ?_⟩
      · rw [evict_pass_second_chance pm cur page b s f q _ hf hl hq hA]
        exact h1
      · rw [h5, write_backs_append]
        simp [write_backs]

/-- With every frame locked, every visit of the eviction pass passes over its
frame. -/
theorem skips_all_locked {σ : Type} (pm : PageManager σ) (t : List Frame)
    (hall : ∀ (i : Nat) (g : Frame), t[i]? = some g → g.lock.holder ≠ none) :
    ∀ (b h : Nat) (w : σ), h < t.length → skips pm t b h w := by
  intro b
  induction b with
  | zero => intro h w _; trivial
  | succ b ih =>
    intro h w hh
    have hg : t[h]? = some t[h] := List.getElem?_eq_getElem hh
    refine ⟨t[h], hg, Or.inl ⟨hall h _ hg, ?_⟩⟩
    rw [next_hand _ _ hh]
    exact ih _ _ (Nat.mod_lt _ (by omega))

/-- C17. Budget exhaustion: when the scan lock is free and, on each of the `2n`
visits of the eviction pass, the visited frame is either not lockable or holds
a page that reports "accessed recently", the attempt returns failure with the
scan lock released, no write-back issued, the whole table as before (no page
association changed and no frame lock taken and kept by the caller), and the
cursor equal to its value before the attempt. -/
theorem try_budget_exhausted {σ : Type} (pm : PageManager σ) (cur : Tid) (page : PageId)
    (s : FrameState σ)
    (hscan : s.scan_lock.holder = none)
    (hskip : skips pm s.frame_table (s.frame_table.length * 2) s.hand s.pm) :
    ∃ s', try_frame_alloc_and_lock pm cur page s = .ok (none, s') ∧
      s'.scan_lock.holder = none ∧
      write_backs s'.trace = write_backs s.trace ∧
      s'.frame_table = s.frame_table ∧
      s'.hand = s.hand := by
  have hnofree : ∀ (j : Nat) (g : Frame), 0 ≤ j → s.frame_table[j]? = some g → ¬ g.is_free := by
    intro i g _ hg
    have hi := getElem?_lt _ _ _ hg
    have hpos : 0 < s.frame_table.length * 2 := by omega
    obtain ⟨b, hb⟩ : ∃ b, s.frame_table.length * 2 = b + 1 :=
      ⟨s.frame_table.length * 2 - 1, by omega⟩
    have hh : s.hand < s.frame_table.length := by
      have hsk := hskip
      rw [hb] at hsk
      obtain ⟨f, hf, _⟩ := hsk
      exact getElem?_lt _ _ _ hf
    obtain ⟨j, hj, hji⟩ := cursor_steps_cover s.hand s.frame_table.length i hh hi
    exact skips_not_free pm s.frame_table _ _ _ hskip hh j g (by omega) (by rw [hji]; exact hg)
  obtain ⟨es, hes, hrun⟩ := free_pass_none cur page s.frame_table.length 0
    { s with scan_lock := ⟨some cur⟩, trace := s.trace ++ [.acquire .scan_lock] }
    (by simp) hnofree
  obtain ⟨s', h1, h2, h3, h4, h5⟩ := evict_pass_skips pm cur page (s.frame_table.length * 2)
    { s with scan_lock := ⟨some cur⟩, trace := (s.trace ++ [.acquire .scan_lock]) ++ es }
    hskip
  refine ⟨s', ?_, h3, ?_, h2, ?_⟩
  · simp only [try_frame_alloc_and_lock, lock_acquire, hscan, FrameState.frame_cnt]
    rw [hrun]
    exact h1
  · rw [h5]
    simp only [write_backs_append, write_backs_scan_ops es hes]
    simp [write_backs]
  · rw [h4]
    simp only
    split
    · rfl
    · rename_i hne
      have hh : s.hand < s.frame_table.length := by
        obtain ⟨b, hb⟩ : ∃ b, s.frame_table.length * 2 = b + 1 :=
          ⟨s.frame_table.length * 2 - 1, by omega⟩
        have hsk := hskip
        rw [hb] at hsk
        obtain ⟨f, hf, _⟩ := hsk
        exact getElem?_lt _ _ _ hf
      have : s.hand + s.frame_table.length * 2
          = s.hand + s.frame_table.length + s.frame_table.length := by omega
      rw [this, Nat.add_mod_right, Nat.add_mod_right, Nat.mod_eq_of_lt hh]

/-- Scenario E: every frame is locked by another thread; the attempt fails, with
the table and the cursor as before and no write-back. -/
theorem try_budget_exhausted_scenario_E :
    ∃ s', try_frame_alloc_and_lock page_manager 1 10 scenario_E = .ok (none, s') ∧
      s'.scan_lock.holder = none ∧
      write_backs s'.trace = write_backs scenario_E.trace ∧
      s'.frame_table = scenario_E.frame_table ∧
      s'.hand = scenario_E.hand ∧
      visits s'.trace = [0, 1, 2, 3, 2, 3, 0, 1, 2, 3, 0, 1] :=
  let ⟨s', h1, h2, h3, h4, h5⟩ :=
    try_budget_exhausted page_manager 1 10 scenario_E rfl
      (skips_all_locked page_manager scenario_E.frame_table (by
        intro i g hg
        rcases i with _ | _ | _ | _ | i
        all_goals simp [scenario_E, scenario_B, frame_with] at hg
        all_goals subst hg
        all_goals simp) _ _ _ (by decide))
  ⟨s', h1, h2, h3, h4, h5, by
    have : try_frame_alloc_and_lock page_manager 1 10 scenario_E = .ok (none, _) := rfl
    rw [this] at h1
    simp only [Except.ok.injEq, Prod.mk.injEq, true_and] at h1
    rw [← h1]
    rfl⟩

/-! ## Theorems: releasing a frame -/

/-- C14. Frame release operations: for a frame `k` whose lock the caller holds,
`frame_free` leaves it with no page association and its lock released, and
`frame_unlock` leaves its lock released and its page association as it was; in
both cases every other frame, the cursor, the scan lock and the page manager
are unchanged.  If the caller does not hold the lock, each operation fails its
assertion and returns no changed state. -/
theorem frame_release_operations {σ : Type} (cur : Tid) (k : Nat) (s : FrameState σ)
    (f : Frame) (hk : s.frame_table[k]? = some f) :
    (f.lock.holder = some cur →
      frame_free cur k s = .ok
        { s with
          frame_table := s.frame_table.set k { lock := ⟨none⟩, base := f.base, page := none }
          trace := s.trace ++ [.release (.frame k)] } ∧
      frame_unlock cur k s = .ok
        { s with
          frame_table := s.frame_table.set k { lock := ⟨none⟩, base := f.base, page := f.page }
          trace := s.trace ++ [.release (.frame k)] }) ∧
    (f.lock.holder ≠ some cur →
      frame_free cur k s = .error .assert_failed ∧
      frame_unlock cur k s = .error .assert_failed) := by
  refine ⟨?_, ?_⟩
  · intro hl
    refine ⟨?_, ?_⟩
    · simp only [frame_free, hk, lock_held_by_current_thread, hl, decide_True, if_true,
        lock_release]
    · simp only [frame_unlock, hk, lock_held_by_current_thread, hl, decide_True, if_true,
        lock_release]
  · intro hl
    refine ⟨?_, ?_⟩
    · simp only [frame_free, hk, lock_held_by_current_thread, hl, decide_False]
      rfl
    · simp only [frame_unlock, hk, lock_held_by_current_thread, hl, decide_False]
      rfl

/-- Scenario E: thread 2 holds frame 1 and thread 1 does not; thread 2 frees it,
and thread 1's attempt to free or unlock it fails the assertion. -/
theorem frame_release_operations_scenario_E :
    (∃ s', frame_free 2 1 scenario_E = .ok s' ∧
      s'.frame_table =
        scenario_E.frame_table.set 1 { lock := ⟨none⟩, base := fun _ => 0, page := none } ∧
      s'.hand = scenario_E.hand ∧ s'.scan_lock = scenario_E.scan_lock) ∧
    frame_free 1 1 scenario_E = .error .assert_failed ∧
    frame_unlock 1 1 scenario_E = .error .assert_failed :=
  have h := @frame_release_operations PageStore 2 1 scenario_E
    { lock := ⟨some 2⟩, base := fun _ => 0, page := some 101 } rfl
  have h' := @frame_release_operations PageStore 1 1 scenario_E
    { lock := ⟨some 2⟩, base := fun _ => 0, page := some 101 } rfl
  ⟨⟨_, (h.1 rfl).1, rfl, rfl, rfl⟩, h'.2 (by decide)⟩

/-! ## Theorems: reachable states of the frame table -/

theorem alloc_loop_keeps {σ : Type} (pm : PageManager σ) (cur : Tid) (page : PageId) :
    ∀ (n : Nat) (s : FrameState σ) (r : Option Nat) (s' : FrameState σ),
      alloc_loop pm cur page n s = .ok (r, s') →
      s'.frame_table.length = s.frame_table.length ∧
      (s.hand < s.frame_table.length → s'.hand < s'.frame_table.length) := by
  intro n
  induction n with
  | zero =>
    intro s r s' h
    simp only [alloc_loop, Except.ok.injEq, Prod.mk.injEq] at h
    obtain ⟨_, rfl⟩ := h
    exact ⟨rfl, fun h => h⟩
  | succ n ih =>
    intro s r s' h
    simp only [alloc_loop] at h
    split at h
    · cases h
    · rename_i k s1 htry
      obtain ⟨_, _, h3, h4, _, _⟩ := try_spec pm cur page s _ _ htry
      split at h
      · cases h
      · split at h
        · simp only [Except.ok.injEq, Prod.mk.injEq] at h
          obtain ⟨_, rfl⟩ := h
          exact ⟨h3, h4⟩
        · cases h
    · rename_i s1 htry
      obtain ⟨_, _, h3, h4, _, _⟩ := try_spec pm cur page s _ _ htry
      obtain ⟨g1, g2⟩ := ih _ _ _ h
      simp only [FrameState.log] at g1 g2
      exact ⟨by rw [g1, h3], fun hh => g2 (h4 hh)⟩

theorem frame_free_keeps {σ : Type} (cur : Tid) (k : Nat) (s s' : FrameState σ)
    (h : frame_free cur k s = .ok s') :
    s'.frame_table.length = s.frame_table.length ∧ s'.hand = s.hand ∧ s'.pm = s.pm := by
  simp only [frame_free] at h
  split at h
  · cases h
  · split at h
    · simp only [Except.ok.injEq] at h
      subst h
      exact ⟨by simp, rfl, rfl⟩
    · cases h

theorem frame_unlock_keeps {σ : Type} (cur : Tid) (k : Nat) (s s' : FrameState σ)
    (h : frame_unlock cur k s = .ok s') :
    s'.frame_table.length = s.frame_table.length ∧ s'.hand = s.hand ∧ s'.pm = s.pm := by
  simp only [frame_unlock] at h
  split at h
  · cases h
  · split at h
    · simp only [Except.ok.injEq] at h
      subst h
      exact ⟨by simp, rfl, rfl⟩
    · cases h

theorem frame_lock_keeps (cur : Tid) (p : PageId) (s s' : FrameState PageStore)
    (h : frame_lock cur p s = .ok s') :
    s'.frame_table.length = s.frame_table.length ∧ s'.hand = s.hand ∧ s'.pm = s.pm := by
  simp only [frame_lock] at h
  split at h
  · simp only [Except.ok.injEq] at h
    subst h
    exact ⟨rfl, rfl, rfl⟩
  · split at h
    · cases h
    · split at h
      · cases h
      · split at h
        · split at h
          · simp only [Except.ok.injEq] at h
            subst h
            exact ⟨by simp, rfl, rfl⟩
          · cases h
        · simp only [Except.ok.injEq] at h
          subst h
          exact ⟨by simp, rfl, rfl⟩

theorem frame_reach_cursor (s0 s : FrameState PageStore) (hr : FrameReach s0 s)
    (h0 : s0.frame_table.length = 0 ∨ s0.hand < s0.frame_table.length) :
    s.frame_table.length = 0 ∨ s.hand < s.frame_table.length := by
  induction hr with
  | start => exact h0
  | after_alloc cur p s s' r _ hstep ih =>
    obtain ⟨h1, h2⟩ := alloc_loop_keeps page_manager cur p 3 s r s' hstep
    rcases ih with h | h
    · left; rw [h1]; exact h
    · right; exact h2 h
  | after_lock cur p s s' _ hstep ih =>
    obtain ⟨h1, h2, _⟩ := frame_lock_keeps cur p s s' hstep
    rw [h1, h2]
    exact ih
  | after_unlock cur k s s' _ hstep ih =>
    obtain ⟨h1, h2, _⟩ := frame_unlock_keeps cur k s s' hstep
    rw [h1, h2]
    exact ih
  | after_free cur k s s' _ hstep ih =>
    obtain ⟨h1, h2, _⟩ := frame_free_keeps cur k s s' hstep
    rw [h1, h2]
    exact ih

theorem try_no_bad_access {σ : Type} (pm : PageManager σ) (cur : Tid) (page : PageId)
    (s : FrameState σ) (h : s.frame_table.length = 0 ∨ s.hand < s.frame_table.length) :
    try_frame_alloc_and_lock pm cur page s ≠ .error .bad_access := by
  cases hs : s.scan_lock.holder with
  | some t =>
    simp [try_frame_alloc_and_lock, lock_acquire, hs]
  | none =>
    obtain ⟨r, s', hok⟩ := try_total pm cur page s ⟨hs, h⟩
    rw [hok]
    simp

/-- C19. Cursor bound: the cursor is 0 after `frame_init`; in every state reached
from there by the operations of `frame.c` it is below `frame_cnt` whenever
`frame_cnt ≥ 1`; every returning attempt keeps `frame_cnt` and keeps the cursor
below it; with the cursor in range (or the table empty) no attempt indexes the
table out of range; and with `frame_cnt = 0` an attempt touches no frame and
returns failure. -/
theorem cursor_stays_in_range :
    (∀ (user_pages : List (Nat → Nat)) (w : PageStore) (s0 : FrameState PageStore),
      frame_init true user_pages w = .ok s0 →
      s0.hand = 0 ∧
      ∀ s, FrameReach s0 s → 1 ≤ s.frame_table.length → s.hand < s.frame_table.length) ∧
    (∀ (σ : Type) (pm : PageManager σ) (cur : Tid) (page : PageId) (s : FrameState σ),
      (∀ r s', try_frame_alloc_and_lock pm cur page s = .ok (r, s') →
        s'.frame_table.length = s.frame_table.length ∧
        (s.hand < s.frame_table.length → s'.hand < s'.frame_table.length)) ∧
      ((s.frame_table.length = 0 ∨ s.hand < s.frame_table.length) →
        try_frame_alloc_and_lock pm cur page s ≠ .error .bad_access) ∧
      (s.frame_table = [] → s.scan_lock.holder = none →
        try_frame_alloc_and_lock pm cur page s = .ok (none,
          { s with trace := s.trace ++ [.acquire .scan_lock, .release .scan_lock] }))) := by
  refine ⟨?_, ?_⟩
  · intro user_pages w s0 hinit
    simp only [frame_init, if_true, Except.ok.injEq] at hinit
    subst hinit
    refine ⟨rfl, ?_⟩
    intro s hr hlen
    have h0 : (List.map (fun b => ({ lock := ⟨none⟩, base := b, page := none } : Frame))
        user_pages).length = 0 ∨
        0 < (List.map (fun b => ({ lock := ⟨none⟩, base := b, page := none } : Frame))
          user_pages).length := by omega
    rcases frame_reach_cursor _ s hr h0 with h | h
    · omega
    · exact h
  · intro σ pm cur page s
    refine ⟨?_, try_no_bad_access pm cur page s, ?_⟩
    · intro r s' h
      obtain ⟨_, _, h3, h4, _, _⟩ := try_spec pm cur page s r s' h
      exact ⟨h3, h4⟩
    · intro hnil hscan
      have hl := lock_eq_free _ hscan
      simp only [try_frame_alloc_and_lock, lock_acquire, hscan, FrameState.frame_cnt, hnil,
        List.length_nil, free_pass, Nat.zero_mul, evict_pass, lock_release]
      simp only [List.append_assoc, List.singleton_append]
      rw [← hl, ← hnil]

/-- Scenario A is what `frame_init` gives for four user pages; its cursor is 0,
and after an allocation the cursor is still below 4. -/
theorem cursor_stays_in_range_scenario_A :
    frame_init true [fun _ => 0, fun _ => 0, fun _ => 0, fun _ => 0] scenario_A.pm
      = .ok scenario_A ∧
    scenario_A.hand = 0 ∧
    ∀ s r, frame_alloc_and_lock page_manager 1 10 scenario_A = .ok (r, s) → s.hand < 4 := by
  refine ⟨rfl, rfl, ?_⟩
  intro s r h
  have h1 := (cursor_stays_in_range.1 [fun _ => 0, fun _ => 0, fun _ => 0, fun _ => 0]
    scenario_A.pm scenario_A rfl).2 s
    (FrameReach.after_alloc 1 10 scenario_A s r FrameReach.start h)
  obtain ⟨h2, _⟩ := alloc_loop_keeps page_manager 1 10 3 scenario_A r s h
  have h3 : s.frame_table.length = 4 := h2
  rw [h3] at h1
  exact h1 (by omega)

/-! ## Theorems: the page side of the binding -/

theorem evict_pass_pm {σ : Type} (pm : PageManager σ) (cur : Tid) (page : PageId)
    (P : σ → Prop)
    (hA : ∀ q w, P w → P (pm.page_accessed_recently q w).2)
    (hB : ∀ q w, P w → P (pm.page_out q w).2) :
    ∀ (b : Nat) (s : FrameState σ) (r : Option Nat) (s' : FrameState σ),
      evict_pass pm cur page b s = .ok (r, s') → P s.pm → P s'.pm := by
  intro b
  induction b with
  | zero =>
    intro s r s' h hp
    simp only [evict_pass, Except.ok.injEq, Prod.mk.injEq] at h
    obtain ⟨_, rfl⟩ := h
    exact hp
  | succ b ih =>
    intro s r s' h hp
    simp only [evict_pass] at h
    split at h
    · cases h
    · split at h
      · exact ih _ _ _ h hp
      · split at h
        · simp only [Except.ok.injEq, Prod.mk.injEq] at h
          obtain ⟨_, rfl⟩ := h
          exact hp
        · rename_i q hq
          split at h
          · rename_i w hw
            have := hA q s.pm hp
            rw [hw] at this
            exact ih _ _ _ h this
          · rename_i w hw
            have h1 := hA q s.pm hp
            rw [hw] at h1
            split at h
            · rename_i w' hw'
              have h2 := hB q w h1
              rw [hw'] at h2
              simp only [Except.ok.injEq, Prod.mk.injEq] at h
              obtain ⟨_, rfl⟩ := h
              exact h2
            · rename_i w' hw'
              have h2 := hB q w h1
              rw [hw'] at h2
              simp only [Except.ok.injEq, Prod.mk.injEq] at h
              obtain ⟨_, rfl⟩ := h
              exact h2

theorem try_pm {σ : Type} (pm : PageManager σ) (cur : Tid) (page : PageId)
    (P : σ → Prop)
    (hA : ∀ q w, P w → P (pm.page_accessed_recently q w).2)
    (hB : ∀ q w, P w → P (pm.page_out q w).2)
    (s : FrameState σ) (r : Option Nat) (s' : FrameState σ)
    (h : try_frame_alloc_and_lock pm cur page s = .ok (r, s')) (hp : P s.pm) : P s'.pm := by
  unfold try_frame_alloc_and_lock at h
  split at h
  · cases h
  · simp only at h
    split at h
    · cases h
    · rename_i k s1 hfp
      simp only [Except.ok.injEq, Prod.mk.injEq] at h
      obtain ⟨_, rfl⟩ := h
      obtain ⟨_, h2, _⟩ := free_pass_spec cur page _ _ _ _ _ hfp
      rw [h2]
      exact hp
    · rename_i s1 hfp
      obtain ⟨_, h2, _⟩ := free_pass_spec cur page _ _ _ _ _ hfp
      apply evict_pass_pm pm cur page P hA hB _ _ _ _ h
      rw [h2]
      exact hp

theorem alloc_loop_pm {σ : Type} (pm : PageManager σ) (cur : Tid) (page : PageId)
    (P : σ → Prop)
    (hA : ∀ q w, P w → P (pm.page_accessed_recently q w).2)
    (hB : ∀ q w, P w → P (pm.page_out q w).2) :
    ∀ (n : Nat) (s : FrameState σ) (r : Option Nat) (s' : FrameState σ),
      alloc_loop pm cur page n s = .ok (r, s') → P s.pm → P s'.pm := by
  intro n
  induction n with
  | zero =>
    intro s r s' h hp
    simp only [alloc_loop, Except.ok.injEq, Prod.mk.injEq] at h
    obtain ⟨_, rfl⟩ := h
    exact hp
  | succ n ih =>
    intro s r s' h hp
    simp only [alloc_loop] at h
    split at h
    · cases h
    · rename_i k s1 htry
      have h1 := try_pm pm cur page P hA hB s _ _ htry hp
      split at h
      · cases h
      · split at h
        · simp only [Except.ok.injEq, Prod.mk.injEq] at h
          obtain ⟨_, rfl⟩ := h
          exact h1
        · cases h
    · rename_i s1 htry
      have h1 := try_pm pm cur page P hA hB s _ _ htry hp
      exact ih _ _ _ h h1

/-- In every state reached by the operations of `frame.c`, each page's frame
association is what it was at the start or is empty. -/
theorem frame_reach_pages (s0 s : FrameState PageStore) (hr : FrameReach s0 s) :
    ∀ p, (s.pm.pages p).frame = (s0.pm.pages p).frame ∨ (s.pm.pages p).frame = none := by
  induction hr with
  | start => exact fun p => Or.inl rfl
  | after_alloc cur p s s' r _ hstep ih =>
    refine alloc_loop_pm page_manager cur p
      (fun w => ∀ p, (w.pages p).frame = (s0.pm.pages p).frame ∨ (w.pages p).frame = none)
      ?_ ?_ 3 s r s' hstep ih
    · intro q w hw
      exact hw
    · intro q w hw x
      simp only [page_manager, page_out]
      split
      · by_cases hx : x = q
        · right
          subst hx
          simp
        · simp only [Function.update_noteq hx]
          exact hw x
      · exact hw x
  | after_lock cur p s s' _ hstep ih =>
    obtain ⟨_, _, h3⟩ := frame_lock_keeps cur p s s' hstep
    rw [h3]
    exact ih
  | after_unlock cur k s s' _ hstep ih =>
    obtain ⟨_, _, h3⟩ := frame_unlock_keeps cur k s s' hstep
    rw [h3]
    exact ih
  | after_free cur k s s' _ hstep ih =>
    obtain ⟨_, _, h3⟩ := frame_free_keeps cur k s s' hstep
    rw [h3]
    exact ih

/-- C12 as stated fails.  From the table `frame_init` gives for four user pages,
`frame_alloc_and_lock` for page 10 reaches a state in which frame 0 has page 10
as its page association while page 10 has no frame association. -/
theorem binding_not_mutual_scenario_A :
    frame_init true [fun _ => 0, fun _ => 0, fun _ => 0, fun _ => 0] scenario_A.pm
      = .ok scenario_A ∧
    ∃ s, FrameReach scenario_A s ∧
      frame_alloc_and_lock page_manager 1 10 scenario_A = .ok (some 0, s) ∧
      (∃ f, s.frame_table[0]? = some f ∧ f.page = some 10) ∧
      (s.pm.pages 10).frame = none :=
  ⟨rfl, _, FrameReach.after_alloc 1 10 scenario_A _ (some 0) FrameReach.start rfl, rfl,
    ⟨_, rfl, rfl⟩, rfl⟩

/-- C12, amended. In every state reached from `frame_init` by
`frame_alloc_and_lock`, `frame_lock`, `frame_unlock` and `frame_free`, each
page's frame association is what it was at `frame_init` or is empty: `frame.c`
binds only the frame's side (`f->page`) and leaves recording the frame in the
page to its caller.  So, starting with no page bound, no page has a frame
association, and in particular whenever page `p` has `k` as its frame
association, frame `k` has `p` as its page association: no page refers to a
frame that is free or bound to another page. -/
theorem page_side_left_to_caller (user_pages : List (Nat → Nat)) (w : PageStore)
    (s0 s : FrameState PageStore)
    (hinit : frame_init true user_pages w = .ok s0) (hr : FrameReach s0 s) :
    (∀ p, (s.pm.pages p).frame = (w.pages p).frame ∨ (s.pm.pages p).frame = none) ∧
    ((∀ p, (w.pages p).frame = none) →
      (∀ p, (s.pm.pages p).frame = none) ∧
      ∀ p k, (s.pm.pages p).frame = some k →
        ∃ f, s.frame_table[k]? = some f ∧ f.page = some p) := by
  simp only [frame_init, if_true, Except.ok.injEq] at hinit
  subst hinit
  have h := frame_reach_pages _ s hr
  refine ⟨h, ?_⟩
  intro hnone
  have hall : ∀ p, (s.pm.pages p).frame = none := by
    intro p
    rcases h p with h1 | h1
    · rw [h1]
      exact hnone p
    · exact h1
  refine ⟨hall, ?_⟩
  intro p k hk
  rw [hall p] at hk
  cases hk

/-- Scenario A: after `frame_alloc_and_lock` for page 10, no page has a frame
association. -/
theorem page_side_left_to_caller_scenario_A :
    ∃ s, frame_alloc_and_lock page_manager 1 10 scenario_A = .ok (some 0, s) ∧
      ∀ p, (s.pm.pages p).frame = none :=
  ⟨_, rfl,
    ((page_side_left_to_caller [fun _ => 0, fun _ => 0, fun _ => 0, fun _ => 0]
      scenario_A.pm scenario_A _ rfl
      (FrameReach.after_alloc 1 10 scenario_A _ (some 0) FrameReach.start rfl)).2
      (fun _ => rfl)).1⟩

/-! ## Theorems: every returning run of `swap_out` and `swap_in` -/

theorem swap_out_pre (c : Consts) (cur : Tid) (p : PageId) (s s' : SwapState) (r : Bool)
    (h : swap_out c cur p s = .ok (r, s')) :
    (∃ fi f, has_locked_frame cur p fi f s) ∧ s.swap_lock.holder = none := by
  unfold swap_out at h
  split at h
  · cases h
  · rename_i fi hfi
    split at h
    · cases h
    · rename_i f hf
      split at h
      · cases h
      · rename_i hheld
        refine ⟨⟨fi, f, hfi, hf, ?_⟩, ?_⟩
        · simpa [lock_held_by_current_thread] using hheld
        · cases hl : s.swap_lock.holder with
          | none => rfl
          | some t => simp [lock_acquire, hl] at h

/-- Every returning `swap_out` in a sized swap area: either the bitmap was full
and nothing but the trace changed, or the lowest free slot was taken and
written. -/
theorem swap_out_cases (c : Consts) (cur : Tid) (p : PageId) (s s' : SwapState) (r : Bool)
    (hsized : s.sized c) (h : swap_out c cur p s = .ok (r, s')) :
    (r = false ∧ (∀ x ∈ s.swap_bitmap, x = true) ∧
      s' = { s with trace := s.trace ++ [.acquire .swap_lock, .release .swap_lock] }) ∨
    (r = true ∧ ∃ idx fi f d d', has_locked_frame cur p fi f s ∧
      s.swap_bitmap[idx]? = some false ∧
      s'.swap_bitmap = s.swap_bitmap.set idx true ∧
      s'.pages p =
        { s.pages p with
          sector := idx * c.SECTORS_PER_PAGE
          private_ := false, file := none, file_offset := 0, file_bytes := 0 } ∧
      (∀ p', p' ≠ p → s'.pages p' = s.pages p') ∧
      s'.frame_table = s.frame_table ∧
      s'.swap_lock = s.swap_lock ∧
      s.swap_device = some d ∧ s'.swap_device = some d' ∧ d'.size = d.size ∧
      s'.trace = s.trace ++ [.acquire .swap_lock, .release .swap_lock] ++
        (List.range c.SECTORS_PER_PAGE).map
          (fun i => Event.block_write (idx * c.SECTORS_PER_PAGE + i))) := by
  obtain ⟨⟨fi, f, hp⟩, hlock⟩ := swap_out_pre c cur p s s' r h
  by_cases hfull : ∀ x ∈ s.swap_bitmap, x = true
  · left
    have h1 := swap_out_no_slot c cur p fi f s hp hlock hfull
    rw [h1] at h
    simp only [Except.ok.injEq, Prod.mk.injEq] at h
    exact ⟨h.1.symm, hfull, h.2.symm⟩
  · right
    have hmem : false ∈ s.swap_bitmap := by
      by_contra hno
      apply hfull
      intro x hx
      cases x with
      | true => rfl
      | false => exact absurd hx hno
    obtain ⟨idx, hidx, hlow⟩ := lowest_free_bit s.swap_bitmap hmem
    obtain ⟨s'', d, d', h1, h2, h3, h4, h5, h6, h7, h8, h9, _, _, h12⟩ :=
      swap_out_slot c cur p fi f s idx hp hlock hsized hidx hlow
    rw [h1] at h
    simp only [Except.ok.injEq, Prod.mk.injEq] at h
    obtain ⟨rfl, rfl⟩ := h
    exact ⟨rfl, idx, fi, f, d, d', hp, hidx, h2, h3, h4, h5, h6, h7, h8, h9, h12⟩

theorem swap_in_loop_keeps (c : Consts) (p : PageId) :
    ∀ (n i : Nat) (s s' : SwapState), swap_in_loop c p n i s = .ok s' →
      s'.swap_bitmap = s.swap_bitmap ∧ s'.pages = s.pages ∧
      s'.swap_device = s.swap_device ∧ s'.swap_lock = s.swap_lock := by
  intro n
  induction n with
  | zero =>
    intro i s s' h
    simp only [swap_in_loop, Except.ok.injEq] at h
    subst h
    exact ⟨rfl, rfl, rfl, rfl⟩
  | succ n ih =>
    intro i s s' h
    simp only [swap_in_loop] at h
    split at h
    · cases h
    · split at h
      · cases h
      · split at h
        · cases h
        · split at h
          · cases h
          · have := ih _ _ _ h
            exact this

/-- Every returning `swap_in`: its assertions held; it cleared the bit of the
page's slot and reset the page's sector, and changed no other bit, page
sector, device size or lock. -/
theorem swap_in_cases (c : Consts) (cur : Tid) (p : PageId) (s s' : SwapState)
    (h : swap_in c cur p s = .ok s') :
    (∃ fi f, has_locked_frame cur p fi f s) ∧ (s.pages p).sector ≠ NO_SECTOR ∧
    (s.pages p).sector / c.SECTORS_PER_PAGE < s.swap_bitmap.length ∧
    s'.swap_bitmap = s.swap_bitmap.set ((s.pages p).sector / c.SECTORS_PER_PAGE) false ∧
    (s'.pages p).sector = NO_SECTOR ∧
    (∀ q, q ≠ p → s'.pages q = s.pages q) ∧
    s'.swap_device = s.swap_device ∧ s'.swap_lock = s.swap_lock := by
  unfold swap_in at h
  split at h
  · cases h
  · rename_i fi hfi
    split at h
    · cases h
    · rename_i f hf
      split at h
      · cases h
      · rename_i hheld
        split at h
        · cases h
        · rename_i hne
          split at h
          · cases h
          · rename_i s1 hloop
            obtain ⟨g1, g2, g3, g4⟩ := swap_in_loop_keeps c p _ _ _ _ hloop
            split at h
            · cases h
            · rename_i b hb
              simp only [bitmap_reset] at hb
              split at hb
              · rename_i hlt
                simp only [Except.ok.injEq] at hb h
                subst hb
                subst h
                rw [g2, g1] at hlt
                refine ⟨⟨fi, f, hfi, hf, ?_⟩, hne, hlt, ?_, ?_, ?_, g3, g4⟩
                · simpa [lock_held_by_current_thread] using hheld
                · simp only [g1, g2]
                · simp
                · intro q hq
                  simp only [Function.update_noteq hq, g2]
              · cases hb

/-! ## Theorems: the slot bitmap invariant -/

theorem slot_start_injective (c : Consts) (s : SwapState) (i j : Nat) (hsized : s.sized c)
    (hi : i < s.swap_bitmap.length)
    (h : i * c.SECTORS_PER_PAGE = j * c.SECTORS_PER_PAGE) : i = j := by
  obtain ⟨_, _, _, hpos, _⟩ := sized_slot_on_device c s i hsized hi
  exact Nat.eq_of_mul_eq_mul_right hpos h

theorem slot_start_not_sentinel (c : Consts) (s : SwapState) (i : Nat) (hsized : s.sized c)
    (hi : i < s.swap_bitmap.length) : i * c.SECTORS_PER_PAGE ≠ NO_SECTOR := by
  obtain ⟨_, _, hlt, hpos, hfit⟩ := sized_slot_on_device c s i hsized hi
  unfold NO_SECTOR
  omega

theorem sized_of_same_device (c : Consts) (s s' : SwapState)
    (hd : s'.swap_device = s.swap_device)
    (hlen : s'.swap_bitmap.length = s.swap_bitmap.length) (h : s.sized c) : s'.sized c := by
  unfold SwapState.sized at h ⊢
  rw [hd]
  cases hdev : s.swap_device with
  | none =>
    rw [hdev] at h
    simp only at h ⊢
    rw [h] at hlen
    exact List.length_eq_zero.mp hlen
  | some d =>
    rw [hdev] at h
    simp only at h ⊢
    rw [hlen]
    exact h

/-- A successful `swap_out` on a page whose sector reference is the sentinel
keeps the ownership of slots. -/
theorem slots_owned_out (c : Consts) (s s' : SwapState) (p : PageId) (idx : Nat)
    (hsized : s.sized c) (hown : slots_owned c s)
    (hp : (s.pages p).sector = NO_SECTOR)
    (hidx : s.swap_bitmap[idx]? = some false)
    (hbm : s'.swap_bitmap = s.swap_bitmap.set idx true)
    (hsec : (s'.pages p).sector = idx * c.SECTORS_PER_PAGE)
    (hothers : ∀ q, q ≠ p → s'.pages q = s.pages q) : slots_owned c s' := by
  obtain ⟨ha, hb, hc⟩ := hown
  have hlt := getElem?_lt _ _ _ hidx
  have hbit : ∀ i : Nat, s.swap_bitmap[i]? = some true → (s.swap_bitmap.set idx true)[i]? = some true := by
    intro i hi
    by_cases hii : idx = i
    · subst hii
      exact List.getElem?_set_self hlt
    · rw [List.getElem?_set_ne hii]
      exact hi
  have hclash : ∀ q, q ≠ p → (s.pages q).sector ≠ idx * c.SECTORS_PER_PAGE := by
    intro q _ hq
    rcases ha q with h1 | ⟨i, h1, h2⟩
    · rw [h1] at hq
      exact slot_start_not_sentinel c s idx hsized hlt hq.symm
    · rw [h2] at hq
      have := slot_start_injective c s i idx hsized (getElem?_lt _ _ _ h1) hq
      subst this
      rw [hidx] at h1
      cases h1
  refine ⟨?_, ?_, ?_⟩
  · intro q
    by_cases hq : q = p
    · subst hq
      right
      exact ⟨idx, by rw [hbm]; exact List.getElem?_set_self hlt, hsec⟩
    · rw [hothers q hq, hbm]
      rcases ha q with h1 | ⟨i, h1, h2⟩
      · exact Or.inl h1
      · exact Or.inr ⟨i, hbit i h1, h2⟩
  · intro p1 p2 heq hne
    by_cases h1 : p1 = p
    · by_cases h2 : p2 = p
      · rw [h1, h2]
      · exfalso
        rw [h1, hsec, hothers p2 h2] at heq
        exact hclash p2 h2 heq.symm
    · by_cases h2 : p2 = p
      · exfalso
        rw [h2, hsec, hothers p1 h1] at heq
        exact hclash p1 h1 heq
      · rw [hothers p1 h1, hothers p2 h2] at heq
        rw [hothers p1 h1] at hne
        exact hb p1 p2 heq hne
  · intro i hi
    rw [hbm] at hi
    by_cases hii : idx = i
    · subst hii
      exact ⟨p, hsec⟩
    · rw [List.getElem?_set_ne hii] at hi
      obtain ⟨q, hq⟩ := hc i hi
      have hqp : q ≠ p := by
        intro h
        subst h
        rw [hp] at hq
        exact slot_start_not_sentinel c s i hsized (getElem?_lt _ _ _ hi) hq.symm
      exact ⟨q, by rw [hothers q hqp]; exact hq⟩

/-- A returning `swap_in` keeps the ownership of slots. -/
theorem slots_owned_in (c : Consts) (s s' : SwapState) (p : PageId)
    (hsized : s.sized c) (hown : slots_owned c s)
    (hne : (s.pages p).sector ≠ NO_SECTOR)
    (hbm : s'.swap_bitmap = s.swap_bitmap.set ((s.pages p).sector / c.SECTORS_PER_PAGE) false)
    (hsec : (s'.pages p).sector = NO_SECTOR)
    (hothers : ∀ q, q ≠ p → s'.pages q = s.pages q) : slots_owned c s' := by
  obtain ⟨ha, hb, hc⟩ := hown
  obtain ⟨i0, hi0, hs0⟩ : ∃ i : Nat, s.swap_bitmap[i]? = some true ∧
      (s.pages p).sector = i * c.SECTORS_PER_PAGE := by
    rcases ha p with h1 | h1
    · exact absurd h1 hne
    · exact h1
  have hlt := getElem?_lt _ _ _ hi0
  obtain ⟨_, _, _, hpos, _⟩ := sized_slot_on_device c s i0 hsized hlt
  have hdiv : (s.pages p).sector / c.SECTORS_PER_PAGE = i0 := by
    rw [hs0, Nat.mul_div_cancel _ hpos]
  rw [hdiv] at hbm
  have hother_slot : ∀ q, q ≠ p → ∀ i : Nat, (s.pages q).sector = i * c.SECTORS_PER_PAGE →
      s.swap_bitmap[i]? = some true → i0 ≠ i := by
    intro q hq i hqi hbit hii
    subst hii
    apply hq
    apply hb q p (by rw [hqi, hs0])
    rw [hqi]
    exact slot_start_not_sentinel c s i0 hsized hlt
  refine ⟨?_, ?_, ?_⟩
  · intro q
    by_cases hq : q = p
    · subst hq
      exact Or.inl hsec
    · rw [hothers q hq, hbm]
      rcases ha q with h1 | ⟨i, h1, h2⟩
      · exact Or.inl h1
      · right
        refine ⟨i, ?_, h2⟩
        rw [List.getElem?_set_ne (hother_slot q hq i h2 h1)]
        exact h1
  · intro p1 p2 heq hnes
    have h1 : p1 ≠ p := by
      intro h
      subst h
      exact hnes hsec
    have h2 : p2 ≠ p := by
      intro h
      subst h
      rw [hsec] at heq
      exact hnes heq
    rw [hothers p1 h1, hothers p2 h2] at heq
    rw [hothers p1 h1] at hnes
    exact hb p1 p2 heq hnes
  · intro i hi
    rw [hbm] at hi
    have hii : i0 ≠ i := by
      intro h
      subst h
      rw [List.getElem?_set_self hlt] at hi
      cases hi
    rw [List.getElem?_set_ne hii] at hi
    obtain ⟨q, hq⟩ := hc i hi
    have hqp : q ≠ p := by
      intro h
      subst h
      rw [hs0] at hq
      exact hii (slot_start_injective c s i0 i hsized hlt hq)
    exact ⟨q, by rw [hothers q hqp]; exact hq⟩

theorem swap_run_owned (c : Consts) (s0 s : SwapState) (hr : SwapRun c s0 s)
    (h0 : s0.sized c) (hown : slots_owned c s0) : s.sized c ∧ slots_owned c s := by
  induction hr with
  | start => exact ⟨h0, hown⟩
  | after_out cur p s s' r _ hp hstep ih =>
    obtain ⟨hs, ho⟩ := ih
    rcases swap_out_cases c cur p s s' r hs hstep with
      ⟨_, _, h3⟩ | ⟨_, idx, fi, f, d, d', _, hidx, hbm, hpg, hothers, _, _, hd, hd', hsz, _⟩
    · subst h3
      exact ⟨hs, ho⟩
    · refine ⟨sized_of_same_size c s s' d d' hd hd' hsz (by rw [hbm]; simp) hs, ?_⟩
      exact slots_owned_out c s s' p idx hs ho hp hidx hbm (by rw [hpg]) hothers
  | after_in cur p s s' _ hstep ih =>
    obtain ⟨hs, ho⟩ := ih
    obtain ⟨_, hne, _, hbm, hsec, hothers, hd, _⟩ := swap_in_cases c cur p s s' hstep
    exact ⟨sized_of_same_device c s s' hd (by rw [hbm]; simp) hs,
      slots_owned_in c s s' p hs ho hne hbm hsec hothers⟩
  | after_kernel s ft pg _ hsame ih =>
    obtain ⟨hs, ⟨ha, hb, hc⟩⟩ := ih
    refine ⟨hs, ?_, ?_, ?_⟩
    · intro p
      simp only [hsame p]
      exact ha p
    · intro p q
      simp only [hsame p, hsame q]
      exact hb p q
    · intro i hi
      obtain ⟨p, hp⟩ := hc i hi
      exact ⟨p, by simp only [hsame p]; exact hp⟩

theorem slot_invariant_of_owned (c : Consts) (s : SwapState) (hs : s.sized c)
    (hown : slots_owned c s) : slot_invariant c s := by
  obtain ⟨ha, hb, hc⟩ := hown
  intro i hi
  constructor
  · intro hbit
    obtain ⟨p, hp⟩ := hc i hbit
    refine ⟨p, hp, ?_⟩
    intro q hq
    apply hb q p (by rw [hq, hp])
    rw [hq]
    exact slot_start_not_sentinel c s i hs hi
  · rintro ⟨p, hp, _⟩
    rcases ha p with h1 | ⟨j, h1, h2⟩
    · rw [h1] at hp
      exact absurd hp.symm (slot_start_not_sentinel c s i hs hi)
    · rw [h2] at hp
      have := slot_start_injective c s j i hs (getElem?_lt _ _ _ h1) hp
      subst this
      exact h1

theorem swap_init_owned (c : Consts) (role_swap : Option Block) (frame_table : List Frame)
    (pages : PageId → Page) (s0 : SwapState)
    (hsz : ∀ d, role_swap = some d → d.size < 2 ^ 32)
    (hpg : ∀ p, (pages p).sector = NO_SECTOR)
    (hinit : swap_init c role_swap true frame_table pages = .ok s0) :
    s0.sized c ∧ slots_owned c s0 := by
  simp only [swap_init, if_true, Except.ok.injEq] at hinit
  subst hinit
  refine ⟨?_, ?_, ?_, ?_⟩
  · unfold SwapState.sized
    cases role_swap with
    | none => simp [bitmap_create]
    | some d => exact ⟨hsz d rfl, by simp [bitmap_create]⟩
  · intro p
    exact Or.inl (hpg p)
  · intro p q _ hne
    exact absurd (hpg p) hne
  · intro i hi
    simp only [bitmap_create, List.getElem?_replicate] at hi
    split at hi <;> simp at hi

/-- C11 as stated fails.  In scenario D, `swap_out` of page 0 takes slot 0 and
the invariant holds; a second `swap_out` of page 0, whose sector reference is
now that valid slot, takes slot 1 and leaves bit 0 set although no page refers
to sector 0 any more, so the invariant no longer holds. -/
theorem slot_invariant_broken_scenario_D :
    ∃ s1 s2, swap_out small_consts 1 0 scenario_D = .ok (true, s1) ∧
      slot_invariant small_consts s1 ∧
      (s1.pages 0).sector = 0 ∧
      swap_out small_consts 1 0 s1 = .ok (true, s2) ∧
      s2.swap_bitmap[0]? = some true ∧
      (∀ p, (s2.pages p).sector ≠ 0 * small_consts.SECTORS_PER_PAGE) ∧
      ¬ slot_invariant small_consts s2 := by
  have hsized : scenario_D.sized small_consts := by
    unfold SwapState.sized
    exact ⟨by decide, by decide⟩
  have hown : slots_owned small_consts scenario_D := by
    refine ⟨fun p => Or.inl rfl, ?_, ?_⟩
    · intro p q _ hne
      exact absurd rfl hne
    · intro i hi
      rcases i with _ | _ | i <;> simp [scenario_D] at hi
  obtain ⟨s1, d, d', h1, h2, h3, h4, h5, h6, h7, h8, h9, _, _, _⟩ :=
    swap_out_slot small_consts 1 0 0 { lock := ⟨some 1⟩, base := fun a => a, page := some 0 }
      scenario_D 0 ⟨rfl, rfl, rfl⟩ rfl hsized rfl (fun j hj => absurd hj (Nat.not_lt_zero j))
  have hrun : SwapRun small_consts scenario_D s1 :=
    SwapRun.after_out 1 0 scenario_D s1 true SwapRun.start rfl h1
  obtain ⟨hsized1, hown1⟩ := swap_run_owned small_consts scenario_D s1 hrun hsized hown
  have hbm1 : s1.swap_bitmap = [true, false] := by rw [h2]; rfl
  obtain ⟨s2, e, e', g1, g2, g3, g4, _, _, _, _, _, _, _, _⟩ :=
    swap_out_slot small_consts 1 0 0 { lock := ⟨some 1⟩, base := fun a => a, page := some 0 }
      s1 1 ⟨by rw [h3]; rfl, by rw [h5]; rfl, rfl⟩ (by rw [h6]; rfl) hsized1
      (by rw [hbm1]; rfl)
      (by
        intro j hj
        have : j = 0 := by omega
        subst this
        rw [hbm1]
        rfl)
  have hbit : s2.swap_bitmap[0]? = some true := by rw [g2, hbm1]; rfl
  have hnone : ∀ p, (s2.pages p).sector ≠ 0 * small_consts.SECTORS_PER_PAGE := by
    intro p
    by_cases hp : p = 0
    · subst hp
      rw [g3]
      show 1 * small_consts.SECTORS_PER_PAGE ≠ 0 * small_consts.SECTORS_PER_PAGE
      decide
    · rw [g4 p hp, h4 p hp]
      show NO_SECTOR ≠ 0 * small_consts.SECTORS_PER_PAGE
      decide
  refine ⟨s1, s2, h1, slot_invariant_of_owned small_consts s1 hsized1 hown1, by rw [h3]; rfl,
    g1, hbit, hnone, ?_⟩
  intro hinv
  have hlen : 0 < s2.swap_bitmap.length := by rw [g2, hbm1]; decide
  obtain ⟨p, hp, _⟩ := (hinv 0 hlen).mp hbit
  exact hnone p hp

/-- C11, amended. The invariant holds after `swap_init` (with a device whose
sector count fits `block_sector_t`, or with none, and every page's sector
reference then the sentinel), and in every state reached from there by
`swap_out` calls, successful or failing, on pages whose sector reference is
the sentinel, and by `swap_in` calls whose asserted preconditions hold,
while other kernel code changes frames and the other fields of pages. -/
theorem slot_invariant_maintained (c : Consts) (role_swap : Option Block)
    (frame_table : List Frame) (pages : PageId → Page) (s0 s : SwapState)
    (hsz : ∀ d, role_swap = some d → d.size < 2 ^ 32)
    (hpg : ∀ p, (pages p).sector = NO_SECTOR)
    (hinit : swap_init c role_swap true frame_table pages = .ok s0)
    (hr : SwapRun c s0 s) :
    slot_invariant c s0 ∧ slot_invariant c s := by
  obtain ⟨h0, hown0⟩ := swap_init_owned c role_swap frame_table pages s0 hsz hpg hinit
  obtain ⟨h1, hown1⟩ := swap_run_owned c s0 s hr h0 hown0
  exact ⟨slot_invariant_of_owned c s0 h0 hown0, slot_invariant_of_owned c s h1 hown1⟩

/-- Scenario D is what `swap_init` gives for a device of 4 sectors; the
invariant holds there and after any returning `swap_out` of page 0 followed by
any returning `swap_in` of it. -/
theorem slot_invariant_maintained_scenario_D :
    slot_invariant small_consts scenario_D ∧
    ∀ r s1 s2, swap_out small_consts 1 0 scenario_D = .ok (r, s1) →
      swap_in small_consts 1 0 s1 = .ok s2 →
      slot_invariant small_consts s1 ∧ slot_invariant small_consts s2 := by
  have hinit : swap_init small_consts (some { size := 4, data := fun _ _ => 0 }) true
      scenario_D.frame_table scenario_D.pages = .ok scenario_D := rfl
  have hsz : ∀ d : Block, some ({ size := 4, data := fun _ _ => 0 } : Block) = some d →
      d.size < 2 ^ 32 := by
    intro d hd
    cases hd
    decide
  refine ⟨(slot_invariant_maintained small_consts _ _ _ scenario_D scenario_D hsz
    (fun _ => rfl) hinit SwapRun.start).1, ?_⟩
  intro r s1 s2 hout hin
  have hrun1 : SwapRun small_consts scenario_D s1 :=
    SwapRun.after_out 1 0 scenario_D s1 r SwapRun.start rfl hout
  have hrun2 : SwapRun small_consts scenario_D s2 :=
    SwapRun.after_in 1 0 s1 s2 hrun1 hin
  exact ⟨(slot_invariant_maintained small_consts _ _ _ scenario_D s1 hsz
      (fun _ => rfl) hinit hrun1).2,
    (slot_invariant_maintained small_consts _ _ _ scenario_D s2 hsz
      (fun _ => rfl) hinit hrun2).2⟩

/-! ## Theorems: slot sectors and the device -/

theorem swap_init_sized (c : Consts) (d0 : Block) (frame_table : List Frame)
    (pages : PageId → Page) (s0 : SwapState)
    (hsz : d0.size < 2 ^ 32)
    (hinit : swap_init c (some d0) true frame_table pages = .ok s0) :
    s0.sized c ∧ s0.swap_device = some d0 ∧
      s0.swap_bitmap.length = d0.size / c.SECTORS_PER_PAGE := by
  simp only [swap_init, if_true, Except.ok.injEq] at hinit
  subst hinit
  refine ⟨?_, rfl, by simp [bitmap_create]⟩
  unfold SwapState.sized
  exact ⟨hsz, by simp [bitmap_create]⟩

/-- The sizing of the swap area is kept by every returning `swap_out` and
`swap_in` and by the rest of the kernel: the bitmap keeps its length and the
device its sector count. -/
theorem swap_reach_sized (c : Consts) (s0 s : SwapState) (hr : SwapReach c s0 s)
    (h0 : s0.sized c) :
    s.sized c ∧ s.swap_bitmap.length = s0.swap_bitmap.length ∧
    ∀ d0, s0.swap_device = some d0 → ∃ d, s.swap_device = some d ∧ d.size = d0.size := by
  induction hr with
  | start => exact ⟨h0, rfl, fun d0 h => ⟨d0, h, rfl⟩⟩
  | after_out cur p s s' r _ hout ih =>
    obtain ⟨hs, hlen, hdev⟩ := ih
    rcases swap_out_cases c cur p s s' r hs hout with
      ⟨_, _, rfl⟩ | ⟨_, idx, fi, f, d, d', _, _, hb, _, _, _, _, hd, hd', hsz, _⟩
    · exact ⟨hs, hlen, hdev⟩
    · have hl : s'.swap_bitmap.length = s.swap_bitmap.length := by
        rw [hb, List.length_set]
      refine ⟨sized_of_same_size c s s' d d' hd hd' hsz hl hs, hl.trans hlen, ?_⟩
      intro d0 h
      obtain ⟨d1, h1, h2⟩ := hdev d0 h
      rw [hd] at h1
      cases h1
      exact ⟨d', hd', hsz.trans h2⟩
  | after_in cur p s s' _ hin ih =>
    obtain ⟨hs, hlen, hdev⟩ := ih
    obtain ⟨_, _, _, hb, _, _, hd, _⟩ := swap_in_cases c cur p s s' hin
    have hl : s'.swap_bitmap.length = s.swap_bitmap.length := by
      rw [hb, List.length_set]
    refine ⟨sized_of_same_device c s s' hd hl hs, hl.trans hlen, ?_⟩
    intro d0 h
    rw [hd]
    exact hdev d0 h
  | after_kernel s ft pg _ ih => exact ih

theorem slot_ranges_disjoint (n i j a b : Nat) (hij : i ≠ j) (ha : a < n) (hb : b < n) :
    i * n + a ≠ j * n + b := by
  intro h
  have hpos : 0 < n := by omega
  have h1 : (i * n + a) / n = i := by
    rw [Nat.add_comm, Nat.add_mul_div_right _ _ hpos, Nat.div_eq_of_lt ha, Nat.zero_add]
  have h2 : (j * n + b) / n = j := by
    rw [Nat.add_comm, Nat.add_mul_div_right _ _ hpos, Nat.div_eq_of_lt hb, Nat.zero_add]
  rw [h] at h1
  exact hij (h1.symm.trans h2)

/-- C20. After `swap_init` with a device of `S < 2^32` sectors the bitmap has
`S / SECTORS_PER_PAGE` bits and the sector ranges of distinct slots are
disjoint.  In every state reached from there, `swap_out` on a page whose frame
the caller holds returns (no sector transfer leaves the device), and every
successful `swap_out` records a sector `idx * SECTORS_PER_PAGE`, computed
without 32-bit overflow, that is a multiple of `SECTORS_PER_PAGE`, ends within
the device and differs from the sentinel; the sectors it writes are
`sector + i` for `i < SECTORS_PER_PAGE`, each below `S`; and a `swap_in` of
the page while it still has that sector returns, reading the same sectors. -/
theorem slot_sectors_on_device (c : Consts) (d0 : Block) (frame_table : List Frame)
    (pages : PageId → Page) (s0 : SwapState)
    (hsz : d0.size < 2 ^ 32)
    (hinit : swap_init c (some d0) true frame_table pages = .ok s0) :
    s0.swap_bitmap.length = d0.size / c.SECTORS_PER_PAGE ∧
    (∀ i j a b : Nat, i ≠ j → a < c.SECTORS_PER_PAGE → b < c.SECTORS_PER_PAGE →
      i * c.SECTORS_PER_PAGE + a ≠ j * c.SECTORS_PER_PAGE + b) ∧
    ∀ s, SwapReach c s0 s →
      (∀ cur p fi f, has_locked_frame cur p fi f s → s.swap_lock.holder = none →
        ∃ r s1, swap_out c cur p s = .ok (r, s1)) ∧
      ∀ cur p s1, swap_out c cur p s = .ok (true, s1) →
        ∃ idx, idx < d0.size / c.SECTORS_PER_PAGE ∧
          idx * c.SECTORS_PER_PAGE < 2 ^ 32 ∧
          (s1.pages p).sector = idx * c.SECTORS_PER_PAGE ∧
          (s1.pages p).sector % c.SECTORS_PER_PAGE = 0 ∧
          (s1.pages p).sector + c.SECTORS_PER_PAGE ≤ d0.size ∧
          (s1.pages p).sector ≠ NO_SECTOR ∧
          s1.trace = s.trace ++ [.acquire .swap_lock, .release .swap_lock] ++
            (List.range c.SECTORS_PER_PAGE).map
              (fun i => Event.block_write ((s1.pages p).sector + i)) ∧
          (∀ i, i < c.SECTORS_PER_PAGE → (s1.pages p).sector + i < d0.size) ∧
          ∀ t, SwapReach c s0 t → (t.pages p).sector = (s1.pages p).sector →
            ∀ cur2 fi g, has_locked_frame cur2 p fi g t →
              ∃ t1, swap_in c cur2 p t = .ok t1 ∧
                t1.trace = t.trace ++
                  (List.range c.SECTORS_PER_PAGE).map
                    (fun i => Event.block_read ((s1.pages p).sector + i)) := by
  obtain ⟨h0, hd0, hlen0⟩ := swap_init_sized c d0 frame_table pages s0 hsz hinit
  refine ⟨hlen0, fun i j a b => slot_ranges_disjoint c.SECTORS_PER_PAGE i j a b, ?_⟩
  intro s hr
  obtain ⟨hs, hlen, hdev⟩ := swap_reach_sized c s0 s hr h0
  obtain ⟨d, hd, hdsz⟩ := hdev d0 hd0
  refine ⟨?_, ?_⟩
  · intro cur p fi f hp hlock
    by_cases hfull : ∀ x ∈ s.swap_bitmap, x = true
    · exact ⟨false, _, swap_out_no_slot c cur p fi f s hp hlock hfull⟩
    · have hmem : false ∈ s.swap_bitmap := by
        by_contra hno
        apply hfull
        intro x hx
        cases x with
        | true => rfl
        | false => exact absurd hx hno
      obtain ⟨idx, hidx, hlow⟩ := lowest_free_bit s.swap_bitmap hmem
      obtain ⟨s1, _, _, h1, _⟩ := swap_out_slot c cur p fi f s idx hp hlock hs hidx hlow
      exact ⟨true, s1, h1⟩
  · intro cur p s1 hout
    rcases swap_out_cases c cur p s s1 true hs hout with
      ⟨hf, _⟩ | ⟨_, idx, fi, f, d1, d2, _, hidx, hb, hpg, _, _, _, hd1, _, _, htr⟩
    · cases hf
    · have hlt : idx < s.swap_bitmap.length := getElem?_lt _ _ _ hidx
      obtain ⟨d3, hd3, _, hpos, hfit⟩ := sized_slot_on_device c s idx hs hlt
      rw [hd] at hd3
      cases hd3
      have hsec : (s1.pages p).sector = idx * c.SECTORS_PER_PAGE := by rw [hpg]
      rw [hdsz] at hfit
      refine ⟨idx, by rw [← hlen0, ← hlen]; exact hlt, by omega, hsec, ?_, by rw [hsec]; exact hfit,
        ?_, by rw [hsec]; exact htr, ?_, ?_⟩
      · rw [hsec]
        exact Nat.mul_mod_left idx c.SECTORS_PER_PAGE
      · rw [hsec]
        unfold NO_SECTOR
        omega
      · intro i hi
        rw [hsec]
        omega
      · intro t ht hsame cur2 fi2 g hp2
        obtain ⟨hts, htlen, htdev⟩ := swap_reach_sized c s0 t ht h0
        obtain ⟨dt, hdt, hdtsz⟩ := htdev d0 hd0
        have hsect : (t.pages p).sector = idx * c.SECTORS_PER_PAGE := hsame.trans hsec
        obtain ⟨m, hrun, _⟩ := swap_in_run c cur2 p fi2 g t dt hp2 hdt (by rw [hdtsz]; exact hsz)
          (by
            rw [hsect]
            unfold NO_SECTOR
            omega)
          (by rw [hsect, hdtsz]; exact hfit)
          (by
            rw [hsect, Nat.mul_div_cancel _ hpos, htlen, ← hlen]
            exact hlt)
        refine ⟨_, hrun, ?_⟩
        simp only [hsect, hsec]

/-- Scenario D is `swap_init` on a device of 4 sectors with 2 sectors per page:
the bitmap has 2 bits, and `swap_out` of page 0 records sector 0, whose slot
ends at sector 2 of 4. -/
theorem slot_sectors_on_device_scenario_D :
    scenario_D.swap_bitmap.length = 4 / small_consts.SECTORS_PER_PAGE ∧
    ∃ s1, swap_out small_consts 1 0 scenario_D = .ok (true, s1) ∧
      (s1.pages 0).sector % small_consts.SECTORS_PER_PAGE = 0 ∧
      (s1.pages 0).sector + small_consts.SECTORS_PER_PAGE ≤ 4 ∧
      (s1.pages 0).sector ≠ NO_SECTOR := by
  have hall := slot_sectors_on_device small_consts { size := 4, data := fun _ _ => 0 }
    scenario_D.frame_table scenario_D.pages scenario_D (by decide) rfl
  obtain ⟨r, s1, h1⟩ := (hall.2.2 scenario_D SwapReach.start).1 1 0 0
    { lock := ⟨some 1⟩, base := fun a => a, page := some 0 } ⟨rfl, rfl, rfl⟩ rfl
  have hr : r = true := by
    rcases swap_out_cases small_consts 1 0 scenario_D s1 r
      (by unfold SwapState.sized; exact ⟨by decide, by decide⟩) h1 with ⟨_, hfull, _⟩ | ⟨hr, _⟩
    · exact absurd (hfull false (by decide)) (by decide)
    · exact hr
  subst hr
  obtain ⟨idx, _, _, _, g1, g2, g3, _⟩ := (hall.2.2 scenario_D SwapReach.start).2 1 0 s1 h1
  exact ⟨hall.1, s1, h1, g1, g2, g3⟩

/-! ## Theorems: the short locks and input/output -/

/-- A scan that takes the scan lock, performs frame steps, and ends in a tail
that releases the lock once before any input or output: the lock is never held
at input or output, is free at the end, and is taken and released once. -/
theorem scan_lock_discipline (es tail : List Event)
    (hes : ∀ e ∈ es, e.is_frame_step = true)
    (h1 : io_free .scan_lock true tail = true)
    (h2 : lock_state .scan_lock true tail = false)
    (h3 : tail.count (.acquire .scan_lock) = 0)
    (h4 : tail.count (.release .scan_lock) = 1) :
    io_free .scan_lock false (.acquire .scan_lock :: (es ++ tail)) = true ∧
    lock_state .scan_lock false (.acquire .scan_lock :: (es ++ tail)) = false ∧
    (Event.acquire .scan_lock :: (es ++ tail)).count (.acquire .scan_lock) = 1 ∧
    (Event.acquire .scan_lock :: (es ++ tail)).count (.release .scan_lock) = 1 := by
  obtain ⟨g1, g2, g3, g4⟩ := frame_steps_scan_lock es hes true
  refine ⟨?_, ?_, ?_, ?_⟩
  · simp only [io_free, Event.is_io, Bool.false_and, Bool.not_false, Bool.true_and, lock_step,
      if_true]
    rw [io_free_append, g1, g2, h1]
    rfl
  · simp only [lock_state, List.foldl_cons, lock_step, if_true]
    have := lock_state_append .scan_lock true es tail
    simp only [lock_state] at this g1 h2
    rw [this, g1, h2]
  · rw [List.count_cons, List.count_append, g3, h3]
    simp
  · rw [List.count_cons, List.count_append, g4, h4]
    simp

/-- Every returning attempt extends the trace by steps during which the scan
lock is not held at any write-back, is taken once and released once, and is
free at the end. -/
theorem try_scan_lock_steps {σ : Type} (pm : PageManager σ) (cur : Tid) (page : PageId)
    (s : FrameState σ) (r : Option Nat) (s' : FrameState σ)
    (h : try_frame_alloc_and_lock pm cur page s = .ok (r, s')) :
    ∃ es, s'.trace = s.trace ++ es ∧
      io_free .scan_lock false es = true ∧
      lock_state .scan_lock false es = false ∧
      es.count (.acquire .scan_lock) = 1 ∧
      es.count (.release .scan_lock) = 1 := by
  obtain ⟨_, es1, m, he1, _, hcase⟩ := try_shape pm cur page s r s' h
  rcases hcase with ⟨f, _, _, _, _, _, _, htr⟩ | ⟨_, es2, j, he2, _, hcase⟩
  · refine ⟨.acquire .scan_lock :: (es1 ++ [.try_acquire (.frame m) true, .release .scan_lock]),
      by rw [htr]; simp, ?_⟩
    exact scan_lock_discipline es1 _ he1 (by simp [io_free, Event.is_io, lock_step])
      (by simp [lock_state, lock_step]) (by simp) (by simp)
  · have he : ∀ e ∈ es1 ++ es2, e.is_frame_step = true := by
      intro e hmem
      rcases List.mem_append.mp hmem with hm | hm
      · exact he1 e hm
      · exact he2 e hm
    rcases hcase with ⟨_, _, _, _, htr⟩ | ⟨k, f, _, _, _, _, _, hcase⟩
    · refine ⟨.acquire .scan_lock :: ((es1 ++ es2) ++ [.release .scan_lock]),
        by rw [htr]; simp, ?_⟩
      exact scan_lock_discipline (es1 ++ es2) _ he (by simp [io_free, Event.is_io, lock_step])
        (by simp [lock_state, lock_step]) (by simp) (by simp)
    · rcases hcase with ⟨_, _, _, htr⟩ | ⟨q, _, _, _, htr⟩ | ⟨q, _, _, _, htr⟩
      · refine ⟨.acquire .scan_lock ::
            ((es1 ++ es2) ++ [.try_acquire (.frame k) true, .release .scan_lock]),
          by rw [htr]; simp, ?_⟩
        exact scan_lock_discipline (es1 ++ es2) _ he
          (by simp [io_free, Event.is_io, lock_step])
          (by simp [lock_state, lock_step]) (by simp) (by simp)
      · refine ⟨.acquire .scan_lock ::
            ((es1 ++ es2) ++ [.try_acquire (.frame k) true, .accessed q false,
              .release .scan_lock, .page_out q true]),
          by rw [htr]; simp, ?_⟩
        exact scan_lock_discipline (es1 ++ es2) _ he
          (by simp [io_free, Event.is_io, lock_step])
          (by simp [lock_state, lock_step]) (by simp) (by simp)
      · refine ⟨.acquire .scan_lock ::
            ((es1 ++ es2) ++ [.try_acquire (.frame k) true, .accessed q false,
              .release .scan_lock, .page_out q false, .release (.frame k)]),
          by rw [htr]; simp, ?_⟩
        exact scan_lock_discipline (es1 ++ es2) _ he
          (by simp [io_free, Event.is_io, lock_step])
          (by simp [lock_state, lock_step]) (by simp) (by simp)

theorem swap_out_loop_trace (c : Consts) (p : PageId) :
    ∀ (n i : Nat) (s s' : SwapState), swap_out_loop c p n i s = .ok s' →
      s'.swap_lock = s.swap_lock ∧
      ∃ ws, s'.trace = s.trace ++ ws ∧ ws.length = n ∧ ∀ e ∈ ws, ∃ x, e = .block_write x := by
  intro n
  induction n with
  | zero =>
    intro i s s' h
    simp only [swap_out_loop, Except.ok.injEq] at h
    subst h
    exact ⟨rfl, [], by simp, rfl, by simp⟩
  | succ n ih =>
    intro i s s' h
    simp only [swap_out_loop] at h
    split at h
    · cases h
    · split at h
      · cases h
      · split at h
        · cases h
        · split at h
          · cases h
          · have := ih _ _ _ h
            obtain ⟨g1, ws, g2, g3, g4⟩ := this
            refine ⟨g1, .block_write (((s.pages p).sector + i) % 2 ^ 32) :: ws, ?_, ?_, ?_⟩
            · rw [g2]
              simp
            · simp [g3]
            · intro e he
              rcases List.mem_cons.mp he with rfl | he
              · exact ⟨_, rfl⟩
              · exact g4 e he

theorem block_writes_io_free (l : LockName) (ws : List Event)
    (h : ∀ e ∈ ws, ∃ x, e = Event.block_write x) :
    io_free l false ws = true ∧ ws.count (.acquire l) = 0 ∧ ws.count (.release l) = 0 := by
  induction ws with
  | nil => simp [io_free]
  | cons e t ih =>
    obtain ⟨x, rfl⟩ := h e (List.mem_cons_self e t)
    obtain ⟨g1, g2, g3⟩ := ih (fun y hy => h y (List.mem_cons_of_mem _ hy))
    refine ⟨?_, ?_, ?_⟩
    · simp only [io_free, lock_step, Bool.and_false, Bool.not_false, Bool.true_and]
      exact g1
    · rw [List.count_cons, g2]
      simp
    · rw [List.count_cons, g3]
      simp

/-- Every returning `swap_out`: the bitmap lock was free, is taken and released
at once, and is free at the end; the sector writes, `SECTORS_PER_PAGE` of them
on success and none on failure, all follow the release. -/
theorem swap_out_lock_steps (c : Consts) (cur : Tid) (p : PageId) (s s' : SwapState) (r : Bool)
    (h : swap_out c cur p s = .ok (r, s')) :
    s'.swap_lock.holder = none ∧
    ∃ ws, s'.trace = s.trace ++ [.acquire .swap_lock, .release .swap_lock] ++ ws ∧
      (∀ e ∈ ws, ∃ x, e = Event.block_write x) ∧
      ws.length = (if r then c.SECTORS_PER_PAGE else 0) := by
  unfold swap_out at h
  split at h
  · cases h
  · split at h
    · cases h
    · split at h
      · cases h
      · cases hl : s.swap_lock.holder with
        | some t => simp [lock_acquire, hl] at h
        | none =>
          simp only [lock_acquire, hl] at h
          split at h
          · simp only [Except.ok.injEq, Prod.mk.injEq] at h
            obtain ⟨rfl, rfl⟩ := h
            exact ⟨rfl, [], by simp, by simp, by simp⟩
          · split at h
            · cases h
            · rename_i s1 hloop
              simp only [Except.ok.injEq, Prod.mk.injEq] at h
              obtain ⟨rfl, rfl⟩ := h
              obtain ⟨g1, ws, g2, g3, g4⟩ := swap_out_loop_trace c p _ _ _ _ hloop
              refine ⟨?_, ws, ?_, g4, by simp [g3]⟩
              · simp only [g1]
                rfl
              · simp only [g2]

/-- C18. Short locks are not held across input or output.  Every returning
`try_frame_alloc_and_lock` (and from a state with a free scan lock and the
cursor in range it returns) extends the trace by steps in which the scan lock
is taken exactly once and released exactly once, is not held at the moment of
any `page_out`, and is free on return.  Every returning `swap_out` takes the
bitmap lock and releases it at once, before any `block_write`; it is not held
during the writes and is free on return, whichever result is returned. -/
theorem short_locks_not_held_across_io :
    (∀ (σ : Type) (pm : PageManager σ) (cur : Tid) (page : PageId) (s : FrameState σ),
      (s.ready → ∃ r s', try_frame_alloc_and_lock pm cur page s = .ok (r, s')) ∧
      ∀ r s', try_frame_alloc_and_lock pm cur page s = .ok (r, s') →
        s'.scan_lock.holder = none ∧
        ∃ es, s'.trace = s.trace ++ es ∧
          io_free .scan_lock false es = true ∧
          lock_state .scan_lock false es = false ∧
          es.count (.acquire .scan_lock) = 1 ∧
          es.count (.release .scan_lock) = 1) ∧
    (∀ (c : Consts) (cur : Tid) (p : PageId) (s s' : SwapState) (r : Bool),
      swap_out c cur p s = .ok (r, s') →
        s'.swap_lock.holder = none ∧
        ∃ ws, s'.trace = s.trace ++ [.acquire .swap_lock, .release .swap_lock] ++ ws ∧
          (∀ e ∈ ws, ∃ x, e = Event.block_write x) ∧
          ws.length = (if r then c.SECTORS_PER_PAGE else 0) ∧
          io_free .swap_lock false ([.acquire .swap_lock, .release .swap_lock] ++ ws) = true ∧
          lock_state .swap_lock false ([.acquire .swap_lock, .release .swap_lock] ++ ws)
            = false) := by
  refine ⟨?_, ?_⟩
  · intro σ pm cur page s
    refine ⟨try_total pm cur page s, ?_⟩
    intro r s' h
    exact ⟨(try_spec pm cur page s r s' h).2.1, try_scan_lock_steps pm cur page s r s' h⟩
  · intro c cur p s s' r h
    obtain ⟨h1, ws, h2, h3, h4⟩ := swap_out_lock_steps c cur p s s' r h
    obtain ⟨g1, _, _⟩ := block_writes_io_free .swap_lock ws h3
    refine ⟨h1, ws, h2, h3, h4, ?_, ?_⟩
    · have hst : lock_state .swap_lock false [.acquire .swap_lock, .release .swap_lock]
          = false := rfl
      rw [io_free_append, hst, g1]
      rfl
    · rw [lock_state_append]
      have hk : ∀ (l : List Event) (b : Bool), (∀ e ∈ l, ∃ x, e = Event.block_write x) →
          lock_state .swap_lock b l = b := by
        intro l
        induction l with
        | nil => intro b _; rfl
        | cons e t ih =>
          intro b hl
          obtain ⟨x, rfl⟩ := hl e (List.mem_cons_self e t)
          have := ih b (fun y hy => hl y (List.mem_cons_of_mem _ hy))
          simp only [lock_state, List.foldl_cons, lock_step] at this ⊢
          exact this
      rw [hk ws _ h3]
      simp [lock_state, lock_step]

/-- In scenario F the attempt ends in a failed write-back: the scan lock is
released before it and free on return; in scenario D `swap_out` of page 0
releases the bitmap lock before its two sector writes. -/
theorem short_locks_not_held_across_io_scenario_F_D :
    (∃ r s', try_frame_alloc_and_lock page_manager 1 200 scenario_F = .ok (r, s') ∧
      s'.scan_lock.holder = none ∧
      ∃ es, s'.trace = scenario_F.trace ++ es ∧ io_free .scan_lock false es = true ∧
        Event.page_out 100 false ∈ es) ∧
    (∃ s1, swap_out small_consts 1 0 scenario_D = .ok (true, s1) ∧
      s1.swap_lock.holder = none ∧
      ∃ ws, s1.trace = scenario_D.trace ++ [.acquire .swap_lock, .release .swap_lock] ++ ws ∧
        ws.length = 2) := by
  refine ⟨?_, ?_⟩
  · obtain ⟨r, s', h⟩ :=
      (short_locks_not_held_across_io.1 PageStore page_manager 1 200 scenario_F).1
        ⟨rfl, Or.inr (by decide)⟩
    obtain ⟨h1, es, h2, h3, _⟩ :=
      (short_locks_not_held_across_io.1 PageStore page_manager 1 200 scenario_F).2 r s' h
    refine ⟨r, s', h, h1, es, h2, h3, ?_⟩
    obtain ⟨s2, hrun, htrace⟩ : ∃ s2,
        try_frame_alloc_and_lock page_manager 1 200 scenario_F = .ok (none, s2) ∧
        s2.trace = [.acquire .scan_lock, .try_acquire (.frame 0) true, .release (.frame 0),
          .try_acquire (.frame 0) true, .accessed 100 false, .release .scan_lock,
          .page_out 100 false, .release (.frame 0)] := ⟨_, rfl, rfl⟩
    rw [hrun] at h
    simp only [Except.ok.injEq, Prod.mk.injEq] at h
    obtain ⟨_, rfl⟩ := h
    have hnil : scenario_F.trace = [] := rfl
    rw [hnil, List.nil_append, htrace] at h2
    rw [← h2]
    decide
  · obtain ⟨s1, _, _, h1, _⟩ :=
      swap_out_slot small_consts 1 0 0 { lock := ⟨some 1⟩, base := fun a => a, page := some 0 }
        scenario_D 0 ⟨rfl, rfl, rfl⟩ rfl
        (by unfold SwapState.sized; exact ⟨by decide, by decide⟩) rfl
        (fun j hj => absurd hj (Nat.not_lt_zero j))
    obtain ⟨g1, ws, g2, _, g3, _⟩ :=
      short_locks_not_held_across_io.2 small_consts 1 0 scenario_D s1 true h1
    exact ⟨s1, h1, g1, ws, g2, by simpa using g3⟩

end Pintos
